import Mathlib

set_option maxHeartbeats 1000000
set_option linter.unusedVariables false
set_option linter.unreachableTactic false
set_option linter.unusedTactic false
set_option maxRecDepth 4000

/-!
Verification development for the output emitter engine of
packages/compiler/src/output/abstract_emitter.ts: the line-buffering
emitter context, the generic statement/expression renderer, and the
position-map (source map) assembler.

The emitter context and its algorithms are translated directly from the
source file.  The node model (output_ast.ts) and the source-map encoder
(source_map.ts) are external collaborators whose code is not part of the
sources; where they are needed they are modelled from the spec, and each
such definition is marked in its doc comment.
-/

/-- A source file referenced by a span (ParseSourceFile of parse_util).
Modelled from the spec: only the url and content are referenced here. -/
structure ParseSourceFile where
  url : String
  content : String
deriving DecidableEq, Repr

/-- A location in an original source file (ParseLocation of parse_util).
Modelled from the spec: a reference to an original file, line, and column. -/
structure ParseLocation where
  file : ParseSourceFile
  line : Nat
  col : Nat
deriving DecidableEq, Repr

/-- A source span attached to an output fragment (ParseSourceSpan of
parse_util).  Modelled from the spec: the engine only reads span.start.
The oid field models JavaScript object identity: the assembler compares
spans with ===, so two distinct span objects (even with equal content)
are given distinct oids, and equality of this structure coincides with
object identity of the TS value. -/
structure ParseSourceSpan where
  oid : Nat
  start : ParseLocation
deriving DecidableEq, Repr

/-- The fixed two-character indent unit (source: _INDENT_WITH = '  '). -/
def INDENT_WITH : String := "  "

/-- Name of the caught-error pseudo-variable
(source: CATCH_ERROR_VAR = o.variable('error'); we model the name). -/
def CATCH_ERROR_VAR : String := "error"

/-- Name of the caught-error-stack pseudo-variable
(source: CATCH_STACK_VAR = o.variable('stack'); we model the name). -/
def CATCH_STACK_VAR : String := "stack"

/-- One buffered output line (source: class _EmittedLine): an indent
depth plus the parallel arrays of text fragments and their spans. -/
structure EmittedLine where
  indent : Int
  parts : List String
  srcSpans : List (Option ParseSourceSpan)
deriving DecidableEq, Repr

/-- The emitter context (source: class EmitterVisitorContext): the
exported names, the current indent counter and the growing line list.
The class stack (_classes) is not modelled: no claim concerns it. -/
structure EmitterVisitorContext where
  exportedVars : List String
  indent : Int
  lines : List EmittedLine
deriving DecidableEq, Repr

/-- Apply f to the last element of a list (JS array mutation of the
final element, as in this._currentLine updates). -/
def modifyLast (f : EmittedLine → EmittedLine) : List EmittedLine → List EmittedLine
  | [] => []
  | [l] => [f l]
  | l :: rest => l :: modifyLast f rest

namespace EmitterVisitorContext

/-- Source: EmitterVisitorContext.createRoot. -/
def createRoot (exportedVars : List String) : EmitterVisitorContext :=
  { exportedVars := exportedVars, indent := 0, lines := [⟨0, [], []⟩] }

/-- Source: isExportedVar. -/
def isExportedVar (ctx : EmitterVisitorContext) (varName : String) : Bool :=
  ctx.exportedVars.contains varName

/-- Source: lineIsEmpty — true iff the current (last) line has no
fragments. -/
def lineIsEmpty (ctx : EmitterVisitorContext) : Bool :=
  match ctx.lines.getLast? with
  | some l => l.parts.isEmpty
  | none => false

/-- Push one fragment and its span onto a line (the two parallel
array pushes of print). -/
def pushPart (part : String) (fromSpan : Option ParseSourceSpan)
    (l : EmittedLine) : EmittedLine :=
  { l with parts := l.parts ++ [part], srcSpans := l.srcSpans ++ [fromSpan] }

/-- Source: print(from, part, newLine).  If part is non-empty, push the
fragment and its span onto the current line; if newLine, open a fresh
line at the current indent. -/
def print (ctx : EmitterVisitorContext) (fromSpan : Option ParseSourceSpan)
    (part : String) (newLine : Bool) : EmitterVisitorContext :=
  let ctx1 :=
    if part.length > 0 then
      { ctx with lines := modifyLast (pushPart part fromSpan) ctx.lines }
    else ctx
  if newLine then
    { ctx1 with lines := ctx1.lines ++ [⟨ctx1.indent, [], []⟩] }
  else ctx1

/-- Source: println(from, lastPart) = print(from, lastPart, true). -/
def println (ctx : EmitterVisitorContext) (fromSpan : Option ParseSourceSpan)
    (lastPart : String) : EmitterVisitorContext :=
  ctx.print fromSpan lastPart true

/-- Source: removeEmptyLastLine — drop the current line if it has no
fragments. -/
def removeEmptyLastLine (ctx : EmitterVisitorContext) : EmitterVisitorContext :=
  if ctx.lineIsEmpty then { ctx with lines := ctx.lines.dropLast } else ctx

/-- Source: incIndent — bump the counter and retroactively set the
current in-progress line's indent. -/
def incIndent (ctx : EmitterVisitorContext) : EmitterVisitorContext :=
  let i := ctx.indent + 1
  { ctx with indent := i, lines := modifyLast (fun l => { l with indent := i }) ctx.lines }

/-- Source: decIndent — lower the counter and retroactively set the
current in-progress line's indent. -/
def decIndent (ctx : EmitterVisitorContext) : EmitterVisitorContext :=
  let i := ctx.indent - 1
  { ctx with indent := i, lines := modifyLast (fun l => { l with indent := i }) ctx.lines }

/-- Source: the private sourceLines getter — all lines except a single
trailing fragmentless one. -/
def sourceLines (ctx : EmitterVisitorContext) : List EmittedLine :=
  match ctx.lines.getLast? with
  | some l => if l.parts.isEmpty then ctx.lines.dropLast else ctx.lines
  | none => ctx.lines

end EmitterVisitorContext

/-- Source: _createIndent(count) — count copies of the indent unit
(a non-positive count yields the empty string, as the JS loop does). -/
def createIndent (count : Int) : String :=
  String.join (List.replicate count.toNat INDENT_WITH)

namespace EmitterVisitorContext

/-- Source: toSource — join the source lines, each non-empty line
prefixed by its indent, with newlines. -/
def toSource (ctx : EmitterVisitorContext) : String :=
  String.intercalate "\n"
    ((sourceLines ctx).map (fun l =>
      if l.parts.length > 0 then createIndent l.indent ++ String.join l.parts else ""))

end EmitterVisitorContext

/-- One call to the external source-map encoder.  Modelled from the
spec: the encoder (source_map.ts, not among the sources) is consumed
through the narrow call sequence addLine / addSource / addMapping, so we
record the sequence of calls the assembler issues. -/
inductive MapCall where
  | addLine : MapCall
  | addSource (url : String) (content : String) : MapCall
  | addMapping (genCol : Int) (sourceUrl : String) (sourceLine : Nat) (sourceCol : Nat) : MapCall
deriving DecidableEq, Repr

/-- The leading skip loop of toSourceMapGenerator (source lines 106-109):
advance past fragments without spans, accumulating their widths.
(If parts is shorter than spans the TS code would fault; that state is
unreachable because print grows both arrays together, and the model
simply stops there.) -/
def skipLeadingNoSpan :
    List String → List (Option ParseSourceSpan) → Int →
    List String × List (Option ParseSourceSpan) × Int
  | p :: ps, none :: ss, col0 => skipLeadingNoSpan ps ss (col0 + p.length)
  | parts, spans, col0 => (parts, spans, col0)

/-- The absorb loop of toSourceMapGenerator (source lines 124-127):
assign fragments without a span, or with the same span, to the previous
segment, accumulating their widths. -/
def absorbRun (span : ParseSourceSpan) :
    List String → List (Option ParseSourceSpan) → Int →
    List String × List (Option ParseSourceSpan) × Int
  | p :: ps, sp :: ss, col0 =>
    if sp = some span ∨ sp = none then absorbRun span ps ss (col0 + p.length)
    else (p :: ps, sp :: ss, col0)
  | parts, spans, col0 => (parts, spans, col0)

theorem absorbRun_spans_length_le (span : ParseSourceSpan) :
    ∀ (parts : List String) (spans : List (Option ParseSourceSpan)) (col0 : Int),
      (absorbRun span parts spans col0).2.1.length ≤ spans.length := by
  intro parts spans
  induction spans generalizing parts with
  | nil => intro col0; cases parts <;> simp [absorbRun]
  | cons sp ss ih =>
    intro col0
    cases parts with
    | nil => simp [absorbRun]
    | cons p ps =>
      by_cases h : sp = some span ∨ sp = none
      · simp only [absorbRun, if_pos h]
        exact Nat.le_trans (ih ps (col0 + p.length)) (Nat.le_succ _)
      · simp [absorbRun, if_neg h]

/-- The outer mapping loop of toSourceMapGenerator (source lines
111-128): emit addSource and addMapping for the run starting at the
head, then absorb same-span and spanless fragments.  The two bail-out
cases are unreachable for lines built by print (equal-length arrays, and
the skip/absorb loops never leave a spanless head); the TS code would
fault there. -/
def runLoop (parts : List String) (spans : List (Option ParseSourceSpan))
    (col0 : Int) : List MapCall :=
  match parts, spans with
  | _, [] => []
  | [], _ :: _ => []
  | _ :: _, none :: _ => []
  | p :: ps, some span :: ss =>
    MapCall.addSource span.start.file.url span.start.file.content ::
    MapCall.addMapping col0 span.start.file.url span.start.line span.start.col ::
    (let r := absorbRun span ps ss (col0 + p.length)
     runLoop r.1 r.2.1 r.2.2)
termination_by spans.length
decreasing_by
  exact Nat.lt_succ_of_le (absorbRun_spans_length_le span ps ss (col0 + ↑p.length))

/-- The per-line body of toSourceMapGenerator (source lines 101-128):
column starts at indent * indent-unit-width, leading spanless fragments
are skipped, then runs are emitted. -/
def emitLineMappings (parts : List String) (spans : List (Option ParseSourceSpan))
    (indent : Int) : List MapCall :=
  let col0 : Int := indent * (INDENT_WITH.length : Int)
  let r := skipLeadingNoSpan parts spans col0
  runLoop r.1 r.2.1 r.2.2

/-- The calls issued for one finalized line: addLine, then the line's
mapping entries (the forEach body of toSourceMapGenerator). -/
def lineCalls (l : EmittedLine) : List MapCall :=
  MapCall.addLine :: emitLineMappings l.parts l.srcSpans l.indent

namespace EmitterVisitorContext

/-- Source: toSourceMapGenerator(file, startsAtLine) — the full call
sequence issued to the encoder.  The file argument only reaches the
encoder's constructor and no call, so it is unused here. -/
def toSourceMapGenerator (ctx : EmitterVisitorContext) (file : Option String)
    (startsAtLine : Nat) : List MapCall :=
  List.replicate startsAtLine MapCall.addLine ++
  List.flatten ((sourceLines ctx).map lineCalls)

end EmitterVisitorContext

/-- A concrete span for examples. -/
def spanA : ParseSourceSpan := ⟨1, ⟨⟨"a.ts", "ccc"⟩, 3, 7⟩⟩

/-- A second concrete span from the same file. -/
def spanB : ParseSourceSpan := ⟨2, ⟨⟨"a.ts", "ccc"⟩, 4, 1⟩⟩

example :
    emitLineMappings ["x", "y"] [some spanA, some spanA] 0 =
      [MapCall.addSource "a.ts" "ccc", MapCall.addMapping 0 "a.ts" 3 7] := by
  simp [emitLineMappings, skipLeadingNoSpan, runLoop, absorbRun, spanA, INDENT_WITH]

example :
    emitLineMappings ["x", "q", "y"] [some spanA, none, some spanA] 0 =
      [MapCall.addSource "a.ts" "ccc", MapCall.addMapping 0 "a.ts" 3 7] := by
  simp [emitLineMappings, skipLeadingNoSpan, runLoop, absorbRun, spanA, INDENT_WITH]

example :
    emitLineMappings ["x", "y"] [some spanA, some spanB] 1 =
      [MapCall.addSource "a.ts" "ccc", MapCall.addMapping 2 "a.ts" 3 7,
       MapCall.addSource "a.ts" "ccc", MapCall.addMapping 3 "a.ts" 4 1] := by
  simp [emitLineMappings, skipLeadingNoSpan, runLoop, absorbRun, spanA, spanB, INDENT_WITH]
  decide

/-- Projection: is this call an addMapping? -/
def MapCall.isAddMapping : MapCall → Bool
  | .addMapping _ _ _ _ => true
  | _ => false

/-- Projection: is this call an addSource? -/
def MapCall.isAddSource : MapCall → Bool
  | .addSource _ _ => true
  | _ => false

/-- Projection: is this call an addLine? -/
def MapCall.isAddLine : MapCall → Bool
  | .addLine => true
  | _ => false

/-- The generated columns of the addMapping calls, in order. -/
def mappingColumns (calls : List MapCall) : List Int :=
  calls.filterMap (fun c => match c with
    | .addMapping col _ _ _ => some col
    | _ => none)

@[simp] theorem isAddMapping_addLine : MapCall.addLine.isAddMapping = false := rfl

@[simp] theorem isAddMapping_addSource (u c : String) :
    (MapCall.addSource u c).isAddMapping = false := rfl

@[simp] theorem isAddMapping_addMapping (g : Int) (u : String) (l q : Nat) :
    (MapCall.addMapping g u l q).isAddMapping = true := rfl

@[simp] theorem isAddSource_addLine : MapCall.addLine.isAddSource = false := rfl

@[simp] theorem isAddSource_addSource (u c : String) :
    (MapCall.addSource u c).isAddSource = true := rfl

@[simp] theorem isAddSource_addMapping (g : Int) (u : String) (l q : Nat) :
    (MapCall.addMapping g u l q).isAddSource = false := rfl

@[simp] theorem isAddLine_addLine : MapCall.addLine.isAddLine = true := rfl

@[simp] theorem isAddLine_addSource (u c : String) :
    (MapCall.addSource u c).isAddLine = false := rfl

@[simp] theorem isAddLine_addMapping (g : Int) (u : String) (l q : Nat) :
    (MapCall.addMapping g u l q).isAddLine = false := rfl

/-- Single-pass spec reading of one line's mapping calls: walk the
(fragment, span) pairs left to right remembering the span of the current
run; a spanless fragment only advances the column; a fragment whose span
equals the current run's span is absorbed; any other spanned fragment
starts a new run, emitting addSource and addMapping. -/
def specLineCalls (prev : Option ParseSourceSpan) :
    List (String × Option ParseSourceSpan) → Int → List MapCall
  | [], _ => []
  | (p, none) :: rest, col => specLineCalls prev rest (col + p.length)
  | (p, some s) :: rest, col =>
    if prev = some s then specLineCalls prev rest (col + p.length)
    else MapCall.addSource s.start.file.url s.start.file.content ::
         MapCall.addMapping col s.start.file.url s.start.line s.start.col ::
         specLineCalls (some s) rest (col + p.length)

/-- Spec-side count of merged span-runs in a span list: a spanned
fragment starts a run exactly when its span differs from the previous
non-spanless span; spanless fragments neither start nor end a run. -/
def specMergedRunsAux (prev : Option ParseSourceSpan) :
    List (Option ParseSourceSpan) → Nat
  | [] => 0
  | none :: rest => specMergedRunsAux prev rest
  | some s :: rest => (if prev = some s then 0 else 1) + specMergedRunsAux (some s) rest

/-- Number of merged span-runs of a line's span list. -/
def specMergedRuns (spans : List (Option ParseSourceSpan)) : Nat :=
  specMergedRunsAux none spans

/-- Claim-side count of maximal runs of consecutive fragments sharing
the same span object: a new maximal run starts at every spanned fragment
whose span differs from the span (or absence of span) of the fragment
immediately before it. -/
def specMaximalRunsAux (prev : Option ParseSourceSpan) :
    List (Option ParseSourceSpan) → Nat
  | [] => 0
  | c :: rest => (if c.isSome ∧ c ≠ prev then 1 else 0) + specMaximalRunsAux c rest

/-- Number of maximal runs of consecutive same-span fragments
(spanless fragments break runs under this claim-side reading). -/
def specMaximalRuns (spans : List (Option ParseSourceSpan)) : Nat :=
  specMaximalRunsAux none spans

/-- Spec reading of the run list of a line: for every fragment that
starts a merged run, the pair (total width of all earlier fragments on
the line, the run's span). -/
def specRunList (prev : Option ParseSourceSpan) :
    List (String × Option ParseSourceSpan) → Nat → List (Nat × ParseSourceSpan)
  | [], _ => []
  | (p, none) :: rest, w => specRunList prev rest (w + p.length)
  | (p, some s) :: rest, w =>
    if prev = some s then specRunList prev rest (w + p.length)
    else (w, s) :: specRunList (some s) rest (w + p.length)

theorem absorb_runLoop_eq_spec :
    ∀ (ss : List (Option ParseSourceSpan)) (ps : List String) (col : Int)
      (s : ParseSourceSpan), ps.length = ss.length →
      (let r := absorbRun s ps ss col
       runLoop r.1 r.2.1 r.2.2) = specLineCalls (some s) (ps.zip ss) col := by
  intro ss
  induction ss with
  | nil =>
    intro ps col s hlen
    cases ps with
    | nil => simp [absorbRun, runLoop, specLineCalls]
    | cons p ps' => simp at hlen
  | cons sp ss ih =>
    intro ps col s hlen
    cases ps with
    | nil => simp at hlen
    | cons p ps' =>
      simp only [List.length_cons, Nat.succ.injEq] at hlen
      by_cases habs : sp = some s ∨ sp = none
      · have h1 : absorbRun s (p :: ps') (sp :: ss) col =
            absorbRun s ps' ss (col + p.length) := by
          simp [absorbRun, habs]
        rcases habs with h | h
        · subst h
          simp only [h1, List.zip_cons_cons, specLineCalls, if_pos rfl]
          exact ih ps' (col + ↑p.length) s hlen
        · subst h
          simp only [h1, List.zip_cons_cons, specLineCalls]
          exact ih ps' (col + ↑p.length) s hlen
      · push_neg at habs
        obtain ⟨hne, hnn⟩ := habs
        obtain ⟨t, rfl⟩ : ∃ t, sp = some t := by
          cases sp with
          | none => exact absurd rfl hnn
          | some t => exact ⟨t, rfl⟩
        have hts : ¬ ((some t : Option ParseSourceSpan) = some s) := hne
        have h1 : absorbRun s (p :: ps') (some t :: ss) col =
            (p :: ps', some t :: ss, col) := by
          simp [absorbRun, hne]
        simp only [h1, runLoop, List.zip_cons_cons, specLineCalls]
        rw [if_neg (by intro h; exact hne (by cases h; rfl))]
        simp only [List.cons.injEq, true_and]
        exact ih ps' (col + ↑p.length) t hlen

theorem skip_runLoop_eq_spec :
    ∀ (ss : List (Option ParseSourceSpan)) (ps : List String) (col : Int),
      ps.length = ss.length →
      (let r := skipLeadingNoSpan ps ss col
       runLoop r.1 r.2.1 r.2.2) = specLineCalls none (ps.zip ss) col := by
  intro ss
  induction ss with
  | nil =>
    intro ps col hlen
    cases ps with
    | nil => simp [skipLeadingNoSpan, runLoop, specLineCalls]
    | cons p ps' => simp at hlen
  | cons sp ss ih =>
    intro ps col hlen
    cases ps with
    | nil => simp at hlen
    | cons p ps' =>
      simp only [List.length_cons, Nat.succ.injEq] at hlen
      cases sp with
      | none =>
        simp only [skipLeadingNoSpan, List.zip_cons_cons, specLineCalls]
        exact ih ps' (col + ↑p.length) hlen
      | some t =>
        have h1 : skipLeadingNoSpan (p :: ps') (some t :: ss) col =
            (p :: ps', some t :: ss, col) := by
          simp [skipLeadingNoSpan]
        simp only [h1, runLoop, List.zip_cons_cons, specLineCalls]
        rw [if_neg (by simp)]
        simp only [List.cons.injEq, true_and]
        exact absorb_runLoop_eq_spec ss ps' (col + ↑p.length) t hlen

/-- The per-line mapping calls are exactly the single-pass spec
reading, starting at column indent * width(indent unit). -/
theorem emitLineMappings_eq_spec (parts : List String)
    (spans : List (Option ParseSourceSpan)) (indent : Int)
    (hlen : parts.length = spans.length) :
    emitLineMappings parts spans indent =
      specLineCalls none (parts.zip spans) (indent * (INDENT_WITH.length : Int)) := by
  unfold emitLineMappings
  exact skip_runLoop_eq_spec spans parts _ hlen

theorem countP_addMapping_spec :
    ∀ (pairs : List (String × Option ParseSourceSpan))
      (prev : Option ParseSourceSpan) (col : Int),
      (specLineCalls prev pairs col).countP (fun c => c.isAddMapping) =
        specMergedRunsAux prev (pairs.map Prod.snd) := by
  intro pairs
  induction pairs with
  | nil => intro prev col; simp [specLineCalls, specMergedRunsAux]
  | cons pr rest ih =>
    intro prev col
    obtain ⟨p, sp⟩ := pr
    cases sp with
    | none =>
      simp only [specLineCalls, List.map_cons, specMergedRunsAux]
      exact ih prev (col + ↑p.length)
    | some s =>
      by_cases h : prev = some s
      · subst h
        simp only [specLineCalls, List.map_cons, specMergedRunsAux, if_pos rfl]
        simpa using ih (some s) (col + ↑p.length)
      · simp only [specLineCalls, if_neg h, List.map_cons, specMergedRunsAux, if_neg h]
        rw [List.countP_cons, List.countP_cons, ih (some s) (col + ↑p.length)]
        simp [Nat.add_comm]

theorem countP_addSource_spec :
    ∀ (pairs : List (String × Option ParseSourceSpan))
      (prev : Option ParseSourceSpan) (col : Int),
      (specLineCalls prev pairs col).countP (fun c => c.isAddSource) =
        specMergedRunsAux prev (pairs.map Prod.snd) := by
  intro pairs
  induction pairs with
  | nil => intro prev col; simp [specLineCalls, specMergedRunsAux]
  | cons pr rest ih =>
    intro prev col
    obtain ⟨p, sp⟩ := pr
    cases sp with
    | none =>
      simp only [specLineCalls, List.map_cons, specMergedRunsAux]
      exact ih prev (col + ↑p.length)
    | some s =>
      by_cases h : prev = some s
      · subst h
        simp only [specLineCalls, List.map_cons, specMergedRunsAux, if_pos rfl]
        simpa using ih (some s) (col + ↑p.length)
      · simp only [specLineCalls, if_neg h, List.map_cons, specMergedRunsAux, if_neg h]
        rw [List.countP_cons, List.countP_cons, ih (some s) (col + ↑p.length)]
        simp [Nat.add_comm]

theorem specLineCalls_allNone :
    ∀ (pairs : List (String × Option ParseSourceSpan))
      (prev : Option ParseSourceSpan) (col : Int),
      (∀ pr ∈ pairs, pr.2 = none) → specLineCalls prev pairs col = [] := by
  intro pairs
  induction pairs with
  | nil => intro prev col _; simp [specLineCalls]
  | cons pr rest ih =>
    intro prev col hall
    obtain ⟨p, sp⟩ := pr
    have hsp : sp = none := hall (p, sp) (List.mem_cons_self _ _)
    subst hsp
    simp only [specLineCalls]
    exact ih prev (col + ↑p.length) (fun x hx => hall x (List.mem_cons_of_mem _ hx))

theorem mappingColumns_spec :
    ∀ (pairs : List (String × Option ParseSourceSpan))
      (prev : Option ParseSourceSpan) (base : Int) (w : Nat),
      mappingColumns (specLineCalls prev pairs (base + (w : Int))) =
        (specRunList prev pairs w).map (fun e => base + (e.1 : Int)) := by
  intro pairs
  induction pairs with
  | nil => intro prev base w; simp [specLineCalls, specRunList, mappingColumns]
  | cons pr rest ih =>
    intro prev base w
    obtain ⟨p, sp⟩ := pr
    cases sp with
    | none =>
      simp only [specLineCalls, specRunList]
      have : base + (w : Int) + ↑p.length = base + ((w + p.length : Nat) : Int) := by
        push_cast; ring
      rw [this]
      exact ih prev base (w + p.length)
    | some s =>
      by_cases h : prev = some s
      · simp only [specLineCalls, if_pos h, specRunList, if_pos h]
        have : base + (w : Int) + ↑p.length = base + ((w + p.length : Nat) : Int) := by
          push_cast; ring
        rw [this]
        exact ih prev base (w + p.length)
      · simp only [specLineCalls, if_neg h, specRunList, if_neg h]
        simp only [mappingColumns, List.filterMap_cons, List.map_cons]
        have : base + (w : Int) + ↑p.length = base + ((w + p.length : Nat) : Int) := by
          push_cast; ring
        rw [this]
        have := ih (some s) base (w + p.length)
        simp only [mappingColumns] at this
        rw [this]

theorem specRunList_ge :
    ∀ (pairs : List (String × Option ParseSourceSpan))
      (prev : Option ParseSourceSpan) (w : Nat) (e : Nat × ParseSourceSpan),
      e ∈ specRunList prev pairs w → w ≤ e.1 := by
  intro pairs
  induction pairs with
  | nil => intro prev w e he; simp [specRunList] at he
  | cons pr rest ih =>
    intro prev w e he
    obtain ⟨p, sp⟩ := pr
    cases sp with
    | none =>
      simp only [specRunList] at he
      exact Nat.le_trans (Nat.le_add_right _ _) (ih prev (w + p.length) e he)
    | some s =>
      by_cases h : prev = some s
      · simp only [specRunList, if_pos h] at he
        exact Nat.le_trans (Nat.le_add_right _ _) (ih prev (w + p.length) e he)
      · simp only [specRunList, if_neg h, List.mem_cons] at he
        rcases he with rfl | he
        · exact Nat.le_refl _
        · exact Nat.le_trans (Nat.le_add_right _ _) (ih (some s) (w + p.length) e he)

theorem specRunList_chain :
    ∀ (pairs : List (String × Option ParseSourceSpan))
      (prev : Option ParseSourceSpan) (w : Nat),
      (∀ pr ∈ pairs, pr.1 ≠ "") →
      List.Chain' (fun a b => a.1 < b.1) (specRunList prev pairs w) := by
  intro pairs
  induction pairs with
  | nil => intro prev w _; simp [specRunList]
  | cons pr rest ih =>
    intro prev w hne
    obtain ⟨p, sp⟩ := pr
    have hp : p ≠ "" := hne (p, sp) (List.mem_cons_self _ _)
    have hrest : ∀ pr ∈ rest, pr.1 ≠ "" := fun x hx => hne x (List.mem_cons_of_mem _ hx)
    have hplen : 1 ≤ p.length := by
      rcases p with ⟨pd⟩
      cases pd with
      | nil => exact absurd rfl hp
      | cons c cs => exact Nat.succ_le_succ (Nat.zero_le cs.length)
    cases sp with
    | none =>
      simp only [specRunList]
      exact ih prev (w + p.length) hrest
    | some s =>
      by_cases h : prev = some s
      · simp only [specRunList, if_pos h]
        exact ih prev (w + p.length) hrest
      · simp only [specRunList, if_neg h]
        apply List.chain'_cons'.mpr
        constructor
        · intro b hb
          have hmem : b ∈ specRunList (some s) rest (w + p.length) :=
            List.mem_of_mem_head? hb
          have := specRunList_ge rest (some s) (w + p.length) b hmem
          omega
        · exact ih (some s) (w + p.length) hrest

theorem countP_emitLineMappings (parts : List String)
    (spans : List (Option ParseSourceSpan)) (indent : Int)
    (h : parts.length = spans.length) :
    (emitLineMappings parts spans indent).countP (fun c => c.isAddMapping) =
      specMergedRuns spans := by
  rw [emitLineMappings_eq_spec parts spans indent h, countP_addMapping_spec,
    List.map_snd_zip parts spans (le_of_eq h.symm)]
  rfl

theorem countS_emitLineMappings (parts : List String)
    (spans : List (Option ParseSourceSpan)) (indent : Int)
    (h : parts.length = spans.length) :
    (emitLineMappings parts spans indent).countP (fun c => c.isAddSource) =
      specMergedRuns spans := by
  rw [emitLineMappings_eq_spec parts spans indent h, countP_addSource_spec,
    List.map_snd_zip parts spans (le_of_eq h.symm)]
  rfl

theorem countL_runLoop (N : Nat) :
    ∀ (ss : List (Option ParseSourceSpan)) (ps : List String) (col : Int),
      ss.length ≤ N →
      (runLoop ps ss col).countP (fun c => c.isAddLine) = 0 := by
  induction N with
  | zero =>
    intro ss ps col hle
    have : ss = [] := List.length_eq_zero.mp (Nat.le_zero.mp hle)
    subst this
    cases ps <;> simp [runLoop]
  | succ n ih =>
    intro ss ps col hle
    cases ss with
    | nil => cases ps <;> simp [runLoop]
    | cons sp ss' =>
      cases ps with
      | nil => simp [runLoop]
      | cons p ps' =>
        cases sp with
        | none => simp [runLoop]
        | some span =>
          simp only [runLoop, List.countP_cons, isAddLine_addSource,
            isAddLine_addMapping]
          have hlen : (absorbRun span ps' ss' (col + ↑p.length)).2.1.length ≤ n := by
            have h1 := absorbRun_spans_length_le span ps' ss' (col + ↑p.length)
            simp only [List.length_cons] at hle
            omega
          rw [ih _ _ _ hlen]
          simp

theorem skipLeadingNoSpan_spans_length_le :
    ∀ (ps : List String) (ss : List (Option ParseSourceSpan)) (col : Int),
      (skipLeadingNoSpan ps ss col).2.1.length ≤ ss.length := by
  intro ps
  induction ps with
  | nil => intro ss col; cases ss with
    | nil => simp [skipLeadingNoSpan]
    | cons sp ss' => cases sp <;> simp [skipLeadingNoSpan]
  | cons p ps' ih =>
    intro ss col
    cases ss with
    | nil => simp [skipLeadingNoSpan]
    | cons sp ss' =>
      cases sp with
      | none =>
        simp only [skipLeadingNoSpan]
        exact Nat.le_trans (ih ss' (col + ↑p.length)) (Nat.le_succ _)
      | some t => simp [skipLeadingNoSpan]

theorem countL_emitLineMappings (parts : List String)
    (spans : List (Option ParseSourceSpan)) (indent : Int) :
    (emitLineMappings parts spans indent).countP (fun c => c.isAddLine) = 0 := by
  unfold emitLineMappings
  exact countL_runLoop _ _ _ _ (skipLeadingNoSpan_spans_length_le parts spans _)

theorem filter_addMapping_spec :
    ∀ (pairs : List (String × Option ParseSourceSpan))
      (prev : Option ParseSourceSpan) (base : Int) (w : Nat),
      (specLineCalls prev pairs (base + (w : Int))).filter (fun c => c.isAddMapping) =
        (specRunList prev pairs w).map (fun e =>
          MapCall.addMapping (base + (e.1 : Int)) e.2.start.file.url
            e.2.start.line e.2.start.col) := by
  intro pairs
  induction pairs with
  | nil => intro prev base w; simp [specLineCalls, specRunList]
  | cons pr rest ih =>
    intro prev base w
    obtain ⟨p, sp⟩ := pr
    have harith : base + (w : Int) + ↑p.length = base + ((w + p.length : Nat) : Int) := by
      push_cast; ring
    cases sp with
    | none =>
      simp only [specLineCalls, specRunList, harith]
      exact ih prev base (w + p.length)
    | some s =>
      by_cases h : prev = some s
      · simp only [specLineCalls, if_pos h, specRunList, if_pos h, harith]
        exact ih prev base (w + p.length)
      · simp only [specLineCalls, if_neg h, specRunList, if_neg h, harith]
        simp only [List.filter_cons, isAddMapping_addSource, isAddMapping_addMapping,
          List.map_cons]
        simp only [Bool.false_eq_true, if_false, if_true]
        rw [ih (some s) base (w + p.length)]

/-- A two-line context whose two span-runs come from the same file. -/
def ctxTwoRuns : EmitterVisitorContext :=
  { exportedVars := [], indent := 0,
    lines := [⟨0, ["x"], [some spanA]⟩, ⟨0, ["y"], [some spanB]⟩] }

/-- The urls passed to the addSource calls of a call sequence. -/
def addSourceUrls (calls : List MapCall) : List String :=
  calls.filterMap (fun c => match c with
    | MapCall.addSource u _ => some u
    | _ => none)

/-- C1 (counterexample): the line "x"(span A) "q"(no span) "y"(span A)
contains two maximal runs of consecutive fragments sharing the same span
object, but the assembler produces only one mapping entry, because the
spanless fragment and the following same-span fragment are absorbed into
the first run.  So a maximal run does not in general produce exactly one
entry. -/
theorem C1_counterexample :
    (emitLineMappings ["x", "q", "y"] [some spanA, none, some spanA] 0).countP
        (fun c => c.isAddMapping) = 1 ∧
    specMaximalRuns [some spanA, none, some spanA] = 2 ∧
    ¬ ((emitLineMappings ["x", "q", "y"] [some spanA, none, some spanA] 0).countP
          (fun c => c.isAddMapping) =
        specMaximalRuns [some spanA, none, some spanA]) := by
  have h : emitLineMappings ["x", "q", "y"] [some spanA, none, some spanA] 0 =
      [MapCall.addSource "a.ts" "ccc", MapCall.addMapping 0 "a.ts" 3 7] := by
    simp [emitLineMappings, skipLeadingNoSpan, runLoop, absorbRun, spanA, INDENT_WITH]
  exact ⟨by rw [h]; decide, by decide, by rw [h]; decide⟩

/-- C1 (amended): for every finalized line, each merged span-run —
a maximal run of consecutive fragments sharing the same span object,
where spanless fragments that follow a spanned fragment are absorbed
into the enclosing run — produces exactly one mapping entry; two
adjacent fragments with an identical span yield one entry; runs never
straddle a line boundary (the total entry count is the sum of the
per-line merged-run counts); and a line whose fragments are all spanless
contributes zero entries. -/
theorem C1_mergedRuns :
    (∀ (parts : List String) (spans : List (Option ParseSourceSpan)) (indent : Int),
        parts.length = spans.length →
        (emitLineMappings parts spans indent).countP (fun c => c.isAddMapping) =
          specMergedRuns spans) ∧
    (∀ (parts : List String) (spans : List (Option ParseSourceSpan)) (indent : Int),
        parts.length = spans.length → (∀ sp ∈ spans, sp = none) →
        emitLineMappings parts spans indent = []) ∧
    (∀ (ctx : EmitterVisitorContext) (file : Option String) (n : Nat),
        (∀ l ∈ ctx.sourceLines, l.parts.length = l.srcSpans.length) →
        (ctx.toSourceMapGenerator file n).countP (fun c => c.isAddMapping) =
          (ctx.sourceLines.map (fun l => specMergedRuns l.srcSpans)).sum) ∧
    (emitLineMappings ["x", "y"] [some spanA, some spanA] 0).countP
        (fun c => c.isAddMapping) = 1 := by
  refine ⟨?_, ?_, ?_, ?_⟩
  · exact countP_emitLineMappings
  · intro parts spans indent h hall
    rw [emitLineMappings_eq_spec parts spans indent h]
    apply specLineCalls_allNone
    intro pr hpr
    obtain ⟨a, b⟩ := pr
    exact hall b (List.of_mem_zip hpr).2
  · intro ctx file n hall
    unfold EmitterVisitorContext.toSourceMapGenerator
    rw [List.countP_append, List.countP_replicate, List.countP_flatten, List.map_map]
    simp only [isAddMapping_addLine, Bool.false_eq_true, if_false, Nat.zero_add]
    congr 1
    apply List.map_congr_left
    intro l hl
    simp only [Function.comp_apply, lineCalls, List.countP_cons, isAddMapping_addLine,
      Bool.false_eq_true, if_false, Nat.add_zero]
    exact countP_emitLineMappings l.parts l.srcSpans l.indent (hall l hl)
  · have h : emitLineMappings ["x", "y"] [some spanA, some spanA] 0 =
        [MapCall.addSource "a.ts" "ccc", MapCall.addMapping 0 "a.ts" 3 7] := by
      simp [emitLineMappings, skipLeadingNoSpan, runLoop, absorbRun, spanA, INDENT_WITH]
    simp [h, List.countP_cons]

/-- Witness for C1_mergedRuns at concrete inputs. -/
theorem C1_mergedRuns_witness :
    ((emitLineMappings ["x"] [some spanA] 0).countP (fun c => c.isAddMapping) =
      specMergedRuns [some spanA]) ∧
    (emitLineMappings ["q"] [none] 0 = []) ∧
    ((ctxTwoRuns.toSourceMapGenerator none 0).countP (fun c => c.isAddMapping) =
      (ctxTwoRuns.sourceLines.map (fun l => specMergedRuns l.srcSpans)).sum) :=
  ⟨C1_mergedRuns.1 ["x"] [some spanA] 0 rfl,
   C1_mergedRuns.2.1 ["q"] [none] 0 rfl (by simp),
   C1_mergedRuns.2.2.1 ctxTwoRuns none 0 (by
     intro l hl
     simp only [ctxTwoRuns, EmitterVisitorContext.sourceLines] at hl
     simp only [List.getLast?] at hl
     fin_cases hl <;> rfl)⟩

/-- C10: each mapping entry of a finalized line corresponds to one
merged run; its generated column is the line's indent depth times the
two-character indent-unit width plus the total width of all earlier
fragments on the line.  Spanless fragments before the first spanned
fragment are excluded (they only advance the column); a spanless
fragment after a spanned fragment is absorbed into the preceding run, so
span A, a spanless fragment, then span A again yield a single entry. -/
theorem C10_runAbsorption :
    (∀ (parts : List String) (spans : List (Option ParseSourceSpan)) (indent : Int),
        parts.length = spans.length →
        (emitLineMappings parts spans indent).filter (fun c => c.isAddMapping) =
          (specRunList none (parts.zip spans) 0).map (fun e =>
            MapCall.addMapping (indent * (INDENT_WITH.length : Int) + (e.1 : Int))
              e.2.start.file.url e.2.start.line e.2.start.col)) ∧
    emitLineMappings ["x", "q", "y"] [some spanA, none, some spanA] 0 =
      [MapCall.addSource "a.ts" "ccc", MapCall.addMapping 0 "a.ts" 3 7] := by
  constructor
  · intro parts spans indent h
    rw [emitLineMappings_eq_spec parts spans indent h]
    have := filter_addMapping_spec (parts.zip spans) none
      (indent * (INDENT_WITH.length : Int)) 0
    simpa using this
  · simp [emitLineMappings, skipLeadingNoSpan, runLoop, absorbRun, spanA, INDENT_WITH]

/-- Witness for C10_runAbsorption at a concrete line. -/
theorem C10_runAbsorption_witness :
    (emitLineMappings ["a", "x", "y"] [none, some spanA, some spanB] 1).filter
        (fun c => c.isAddMapping) =
      (specRunList none ([("a", (none : Option ParseSourceSpan)),
          ("x", some spanA), ("y", some spanB)]) 0).map (fun e =>
        MapCall.addMapping ((1 : Int) * (INDENT_WITH.length : Int) + (e.1 : Int))
          e.2.start.file.url e.2.start.line e.2.start.col) :=
  C10_runAbsorption.1 ["a", "x", "y"] [none, some spanA, some spanB] 1 rfl

/-- C2 (counterexample): the two span-runs of ctxTwoRuns come from the
same original file "a.ts", yet the assembler issues one addSource call
per run — two calls for one distinct file.  addSource is therefore not
called once per distinct original file encountered. -/
theorem C2_counterexample :
    (ctxTwoRuns.toSourceMapGenerator none 0).countP (fun c => c.isAddSource) = 2 ∧
    (addSourceUrls (ctxTwoRuns.toSourceMapGenerator none 0)).dedup = ["a.ts"] ∧
    ¬ ((ctxTwoRuns.toSourceMapGenerator none 0).countP (fun c => c.isAddSource) =
        (addSourceUrls (ctxTwoRuns.toSourceMapGenerator none 0)).dedup.length) := by
  have h : ctxTwoRuns.toSourceMapGenerator none 0 =
      [MapCall.addLine, MapCall.addSource "a.ts" "ccc", MapCall.addMapping 0 "a.ts" 3 7,
       MapCall.addLine, MapCall.addSource "a.ts" "ccc", MapCall.addMapping 0 "a.ts" 4 1] := by
    simp [ctxTwoRuns, EmitterVisitorContext.toSourceMapGenerator,
      EmitterVisitorContext.sourceLines, lineCalls, emitLineMappings,
      skipLeadingNoSpan, runLoop, absorbRun, spanA, spanB, INDENT_WITH]
  exact ⟨by rw [h]; decide, by rw [h]; decide, by rw [h]; decide⟩

/-- C2 (amended): the position-map output is a call sequence in
increasing generated-line then increasing generated-column order:
addLine is called once per generated line (including the startsAtLine
prefix and lines with no mappings), the mapping columns within each line
are strictly increasing, and addSource is called once per merged
span-run, immediately before that run's addMapping — so a distinct
original file may receive several addSource calls, and deduplication is
left to the encoder. -/
theorem C2_callSequence :
    (∀ (ctx : EmitterVisitorContext) (file : Option String) (n : Nat),
        (ctx.toSourceMapGenerator file n).countP (fun c => c.isAddLine) =
          n + ctx.sourceLines.length) ∧
    (∀ (parts : List String) (spans : List (Option ParseSourceSpan)) (indent : Int),
        parts.length = spans.length → (∀ p ∈ parts, p ≠ "") →
        List.Chain' (· < ·) (mappingColumns (emitLineMappings parts spans indent))) ∧
    (∀ (parts : List String) (spans : List (Option ParseSourceSpan)) (indent : Int),
        parts.length = spans.length →
        (emitLineMappings parts spans indent).countP (fun c => c.isAddSource) =
          (emitLineMappings parts spans indent).countP (fun c => c.isAddMapping)) ∧
    ctxTwoRuns.toSourceMapGenerator none 1 =
      [MapCall.addLine, MapCall.addLine, MapCall.addSource "a.ts" "ccc",
       MapCall.addMapping 0 "a.ts" 3 7, MapCall.addLine,
       MapCall.addSource "a.ts" "ccc", MapCall.addMapping 0 "a.ts" 4 1] := by
  refine ⟨?_, ?_, ?_, ?_⟩
  · intro ctx file n
    unfold EmitterVisitorContext.toSourceMapGenerator
    rw [List.countP_append, List.countP_replicate, List.countP_flatten, List.map_map]
    simp only [isAddLine_addLine, if_true]
    congr 1
    have hone : ∀ l ∈ ctx.sourceLines,
        (List.countP (fun c => c.isAddLine) ∘ lineCalls) l = 1 := by
      intro l hl
      simp only [Function.comp_apply, lineCalls, List.countP_cons, isAddLine_addLine,
        if_true, countL_emitLineMappings]
    rw [List.map_congr_left hone]
    simp [List.map_const', List.sum_replicate]
  · intro parts spans indent h hne
    rw [emitLineMappings_eq_spec parts spans indent h]
    have hz : indent * (INDENT_WITH.length : Int) =
        indent * (INDENT_WITH.length : Int) + ((0 : Nat) : Int) := by simp
    rw [hz, mappingColumns_spec]
    rw [List.chain'_map]
    apply List.Chain'.imp ?_ (specRunList_chain (parts.zip spans) none 0 ?_)
    · intro a b hab
      omega
    · intro pr hpr
      obtain ⟨a, b⟩ := pr
      exact hne a (List.of_mem_zip hpr).1
  · intro parts spans indent h
    rw [countS_emitLineMappings parts spans indent h,
      countP_emitLineMappings parts spans indent h]
  · simp [ctxTwoRuns, EmitterVisitorContext.toSourceMapGenerator,
      EmitterVisitorContext.sourceLines, lineCalls, emitLineMappings,
      skipLeadingNoSpan, runLoop, absorbRun, spanA, spanB, INDENT_WITH,
      List.replicate]

/-- Witness for C2_callSequence at concrete inputs. -/
theorem C2_callSequence_witness :
    ((ctxTwoRuns.toSourceMapGenerator none 3).countP (fun c => c.isAddLine) =
      3 + ctxTwoRuns.sourceLines.length) ∧
    List.Chain' (· < ·)
      (mappingColumns (emitLineMappings ["x", "y"] [some spanA, some spanB] 0)) ∧
    ((emitLineMappings ["x", "y"] [some spanA, some spanB] 0).countP
        (fun c => c.isAddSource) =
      (emitLineMappings ["x", "y"] [some spanA, some spanB] 0).countP
        (fun c => c.isAddMapping)) :=
  ⟨C2_callSequence.1 ctxTwoRuns none 3,
   C2_callSequence.2.1 ["x", "y"] [some spanA, some spanB] 0 rfl (by decide),
   C2_callSequence.2.2.1 ["x", "y"] [some spanA, some spanB] 0 rfl⟩

/-- The single-quote character (written via its code point so that no
raw quote appears in the file). -/
def quoteChar : Char := Char.ofNat 39

/-- Membership in the character class of _SINGLE_QUOTE_ESCAPE_STRING_RE:
single quote, backslash, newline, carriage return, dollar. -/
def isEscapedChar (c : Char) : Bool :=
  c = quoteChar || c = '\\' || c = '\n' || c = '\r' || c = '$'

/-- The replacement callback of escapeIdentifier (source lines 455-465):
dollar becomes backslash-dollar only when escapeDollar is set, newline
and carriage return become two-character escapes, quote and backslash
get a backslash prefix; other characters are left alone (no regex
match). -/
def escapeChar (escapeDollar : Bool) (c : Char) : List Char :=
  if isEscapedChar c then
    if c = '$' then (if escapeDollar then ['\\', '$'] else ['$'])
    else if c = '\n' then ['\\', 'n']
    else if c = '\r' then ['\\', 'r']
    else ['\\', c]
  else [c]

/-- The replaced body computed by escapeIdentifier before quoting. -/
def escapeBody (input : String) (escapeDollar : Bool) : String :=
  ⟨(input.data.map (escapeChar escapeDollar)).flatten⟩

/-- First-character class of _LEGAL_IDENTIFIER_RE with the i flag:
dollar, letter (either case), underscore. -/
def isLegalStart (c : Char) : Bool :=
  c = '$' || ('A' ≤ c && c ≤ 'Z') || ('a' ≤ c && c ≤ 'z') || c = '_'

/-- Continuation class of _LEGAL_IDENTIFIER_RE: digit or a legal start
character. -/
def isLegalCont (c : Char) : Bool :=
  ('0' ≤ c && c ≤ '9') || isLegalStart c

/-- The bare-identifier test _LEGAL_IDENTIFIER_RE.test(body):
^[$A-Z_][0-9A-Z_$]*$ with the case-insensitive flag. -/
def legalIdentifier (s : String) : Bool :=
  match s.data with
  | [] => false
  | c :: cs => isLegalStart c && cs.all isLegalCont

/-- Source: escapeIdentifier(input, escapeDollar, alwaysQuote) — escape
the body, then quote it unless quoting is not forced and the body
matches the bare-identifier pattern.  (The null-input short-circuit of
the TS code has no counterpart: Lean strings are never null.  The TS
default alwaysQuote = true is passed explicitly at the call sites.) -/
def escapeIdentifier (input : String) (escapeDollar : Bool) (alwaysQuote : Bool) : String :=
  let body := escapeBody input escapeDollar
  let requiresQuotes := alwaysQuote || !legalIdentifier body
  if requiresQuotes then "\x27" ++ body ++ "\x27" else body

/-- C8: escaping a$b with dollar-escaping enabled yields the quoted
literal (quote)a\$b(quote); with dollar-escaping disabled and quoting
not forced the escaped text matches the bare-identifier pattern (dollar
is allowed) and renders unquoted as a$b; in general a name renders
unquoted exactly when quoting is not forced and the escaped text matches
the bare-identifier pattern, and is wrapped in single quotes
otherwise. -/
theorem C8_escapeIdentifier :
    escapeIdentifier "a$b" true false = "\x27a\\$b\x27" ∧
    escapeIdentifier "a$b" false false = "a$b" ∧
    legalIdentifier "a$b" = true ∧
    (∀ (input : String) (eD : Bool),
        legalIdentifier (escapeBody input eD) = true →
        escapeIdentifier input eD false = escapeBody input eD) ∧
    (∀ (input : String) (eD aQ : Bool),
        aQ = true ∨ legalIdentifier (escapeBody input eD) = false →
        escapeIdentifier input eD aQ =
          "\x27" ++ escapeBody input eD ++ "\x27") := by
  refine ⟨by decide, by decide, by decide, ?_, ?_⟩
  · intro input eD h
    simp [escapeIdentifier, h]
  · intro input eD aQ h
    rcases h with h | h
    · subst h
      simp [escapeIdentifier]
    · simp [escapeIdentifier, h]

/-- Witness for C8_escapeIdentifier at concrete inputs. -/
theorem C8_escapeIdentifier_witness :
    escapeIdentifier "a$b" false false = escapeBody "a$b" false ∧
    escapeIdentifier "a-b" false false = "\x27" ++ escapeBody "a-b" false ++ "\x27" ∧
    escapeIdentifier "ok" true true = "\x27" ++ escapeBody "ok" true ++ "\x27" :=
  ⟨C8_escapeIdentifier.2.2.2.1 "a$b" false (by decide),
   C8_escapeIdentifier.2.2.2.2 "a-b" false false (Or.inr (by decide)),
   C8_escapeIdentifier.2.2.2.2 "ok" true true (Or.inl rfl)⟩

/-- One call to an EmitterVisitorContext mutator, as issued by the
render engine (println is print with the newLine flag; the engine prints
node spans, which do not affect text or indentation, so ops carry only
the part and the flag). -/
inductive COp where
  | print (part : String) (newLine : Bool)
  | incIndent
  | decIndent
  | removeEmptyLastLine
deriving DecidableEq, Repr

/-- Engine state: the context plus the log of context operations issued
so far. -/
abbrev EmitSt := EmitterVisitorContext × List COp

/-- Engine result: rendering aborts with a diagnostic string on the two
fatal conditions, otherwise returns the updated state. -/
abbrev EmitRes := Except String EmitSt

/-- ctx.print recorded in the log.  The engine's node spans are not
modelled (they affect only the srcSpans array, never the rendered text
or the indents), so prints carry no span. -/
def printT (s : EmitSt) (part : String) (newLine : Bool) : EmitSt :=
  (s.1.print none part newLine, s.2 ++ [COp.print part newLine])

/-- ctx.println recorded in the log. -/
def printlnT (s : EmitSt) (part : String) : EmitSt :=
  printT s part true

/-- ctx.incIndent recorded in the log. -/
def incIndentT (s : EmitSt) : EmitSt :=
  (s.1.incIndent, s.2 ++ [COp.incIndent])

/-- ctx.decIndent recorded in the log. -/
def decIndentT (s : EmitSt) : EmitSt :=
  (s.1.decIndent, s.2 ++ [COp.decIndent])

/-- ctx.removeEmptyLastLine recorded in the log. -/
def removeEmptyLastLineT (s : EmitSt) : EmitSt :=
  (s.1.removeEmptyLastLine, s.2 ++ [COp.removeEmptyLastLine])

/-- Modelled from the spec: literal values as rendered by
visitLiteralExpr — strings go through identifier escaping with quoting
forced, other primitives render via string interpolation (modelled for
integers). -/
inductive LitVal where
  | str (value : String)
  | num (value : Int)
deriving DecidableEq, Repr

/-- Modelled from the spec: the expression variants the engine renders
itself (output_ast.ts is an external collaborator).  The variants
deferred to the rendering strategy (cast, function-expression,
external-reference) are outside the engine and this model.  Builtin tags
are open naturals, because the renderer's fixed tables must be able to
reject an unrecognized tag. -/
inductive Expr where
  | readVar (name : String) (builtin : Option Nat)
  | writeVar (name : String) (value : Expr)
  | writeKey (receiver : Expr) (index : Expr) (value : Expr)
  | writeProp (receiver : Expr) (name : String) (value : Expr)
  | invokeMethod (receiver : Expr) (name : String) (builtin : Option Nat) (args : List Expr)
  | invokeFunction (fn : Expr) (args : List Expr)
  | instantiate (classExpr : Expr) (args : List Expr)
  | literal (value : LitVal)
  | literalArray (entries : List Expr)
  | literalMap (entries : List (String × Bool × Expr))
  | conditional (condition : Expr) (trueCase : Expr) (falseCase : Expr)
  | notExpr (condition : Expr)
  | binaryOp (operator : Nat) (lhs : Expr) (rhs : Expr)
  | readProp (receiver : Expr) (name : String)
  | readKey (receiver : Expr) (index : Expr)
deriving Repr

/-- Modelled from the spec: the statement variants the engine renders
itself; declarations and try/catch are deferred to the rendering
strategy and outside the model.  An if-statement's absent false branch
is the empty list. -/
inductive Stmt where
  | expressionStmt (expr : Expr)
  | returnStmt (value : Expr)
  | ifStmt (condition : Expr) (trueCase : List Stmt) (falseCase : List Stmt)
  | throwStmt (error : Expr)
  | commentStmt (comment : String)
deriving Repr

/-- The four recognized builtin-variable tags, in the order of the
switch of visitReadVarExpr: Super, This, CatchError, CatchStack. -/
def BuiltinVarSuper : Nat := 0

/-- BuiltinVar.This. -/
def BuiltinVarThis : Nat := 1

/-- BuiltinVar.CatchError. -/
def BuiltinVarCatchError : Nat := 2

/-- BuiltinVar.CatchStack. -/
def BuiltinVarCatchStack : Nat := 3

/-- The fixed operator table of visitBinaryOperatorExpr, tags in switch
order (source lines 332-380): Equals, Identical, NotEquals,
NotIdentical, And, Or, Plus, Minus, Divide, Multiply, Modulo, Lower,
LowerEquals, Bigger, BiggerEquals; anything else is unrecognized. -/
def binOpStr : Nat → Option String
  | 0 => some "=="
  | 1 => some "==="
  | 2 => some "!="
  | 3 => some "!=="
  | 4 => some "&&"
  | 5 => some "||"
  | 6 => some "+"
  | 7 => some "-"
  | 8 => some "/"
  | 9 => some "*"
  | 10 => some "%"
  | 11 => some "<"
  | 12 => some "<="
  | 13 => some ">"
  | 14 => some ">="
  | _ => none

/-- The target-specific parameters of AbstractEmitterVisitor: the
escape-dollar flag of its constructor, and the abstract
getBuiltinMethodName hook of the rendering strategy (none models a hook
returning null: elide the call). -/
structure EmitterCfg where
  escapeDollarInStrings : Bool
  getBuiltinMethodName : Nat → Option String

mutual

/-- Source: the concrete statement cases of AbstractEmitterVisitor
(visitExpressionStmt, visitReturnStmt, visitIfStmt, visitThrowStmt,
visitCommentStmt). -/
def emitStmt (M : EmitterCfg) (stmt : Stmt) (s : EmitSt) : EmitRes :=
  match stmt with
  | .expressionStmt e => do
    let s ← emitExpr M e s
    pure (printlnT s ";")
  | .returnStmt v => do
    let s ← emitExpr M v (printT s "return " false)
    pure (printlnT s ";")
  | .ifStmt cond tc fc => do
    let s := printT s "if (" false
    let s ← emitExpr M cond s
    let s := printT s ") \x7b" false
    let hasElse := fc.length > 0
    let s ← (if tc.length ≤ 1 ∧ ¬ hasElse then do
        let s := printT s " " false
        let s ← emitStmts M tc s
        let s := removeEmptyLastLineT s
        pure (printT s " " false)
      else do
        let s := printlnT s ""
        let s := incIndentT s
        let s ← emitStmts M tc s
        let s := decIndentT s
        if hasElse then do
          let s := printlnT s "\x7d else \x7b"
          let s := incIndentT s
          let s ← emitStmts M fc s
          pure (decIndentT s)
        else pure s)
    pure (printlnT s "\x7d")
  | .throwStmt e => do
    let s ← emitExpr M e (printT s "throw " false)
    pure (printlnT s ";")
  | .commentStmt c =>
    pure ((c.splitOn "\n").foldl (fun s line => printlnT s ("// " ++ line)) s)

/-- Source: visitAllStatements — render each statement in order. -/
def emitStmts (M : EmitterCfg) (stmts : List Stmt) (s : EmitSt) : EmitRes :=
  match stmts with
  | [] => pure s
  | st :: rest => do
    let s ← emitStmt M st s
    emitStmts M rest s

/-- Source: the concrete expression cases of AbstractEmitterVisitor. -/
def emitExpr (M : EmitterCfg) (expr : Expr) (s : EmitSt) : EmitRes :=
  match expr with
  | .readVar name builtin =>
    match builtin with
    | none => pure (printT s name false)
    | some b =>
      if b = BuiltinVarSuper then pure (printT s "super" false)
      else if b = BuiltinVarThis then pure (printT s "this" false)
      else if b = BuiltinVarCatchError then pure (printT s CATCH_ERROR_VAR false)
      else if b = BuiltinVarCatchStack then pure (printT s CATCH_STACK_VAR false)
      else throw ("Unknown builtin variable " ++ toString b)
  | .writeVar name value => do
    let lineWasEmpty := s.1.lineIsEmpty
    let s := if lineWasEmpty then s else printT s "(" false
    let s := printT s (name ++ " = ") false
    let s ← emitExpr M value s
    pure (if lineWasEmpty then s else printT s ")" false)
  | .writeKey receiver index value => do
    let lineWasEmpty := s.1.lineIsEmpty
    let s := if lineWasEmpty then s else printT s "(" false
    let s ← emitExpr M receiver s
    let s := printT s "[" false
    let s ← emitExpr M index s
    let s := printT s "] = " false
    let s ← emitExpr M value s
    pure (if lineWasEmpty then s else printT s ")" false)
  | .writeProp receiver name value => do
    let lineWasEmpty := s.1.lineIsEmpty
    let s := if lineWasEmpty then s else printT s "(" false
    let s ← emitExpr M receiver s
    let s := printT s ("." ++ name ++ " = ") false
    let s ← emitExpr M value s
    pure (if lineWasEmpty then s else printT s ")" false)
  | .invokeMethod receiver name builtin args => do
    let s ← emitExpr M receiver s
    let resolved : Option String :=
      match builtin with
      | some b => M.getBuiltinMethodName b
      | none => some name
    match resolved with
    | none => pure s
    | some n => do
      let s := printT s ("." ++ n ++ "(") false
      let s ← emitExprs M args "," false s
      pure (printT s ")" false)
  | .invokeFunction fn args => do
    let s ← emitExpr M fn s
    let s := printT s "(" false
    let s ← emitExprs M args "," false s
    pure (printT s ")" false)
  | .instantiate classExpr args => do
    let s := printT s "new " false
    let s ← emitExpr M classExpr s
    let s := printT s "(" false
    let s ← emitExprs M args "," false s
    pure (printT s ")" false)
  | .literal v =>
    match v with
    | .str str => pure (printT s (escapeIdentifier str M.escapeDollarInStrings true) false)
    | .num n => pure (printT s (toString n) false)
  | .conditional cond t f => do
    let s := printT s "(" false
    let s ← emitExpr M cond s
    let s := printT s "? " false
    let s ← emitExpr M t s
    let s := printT s ": " false
    let s ← emitExpr M f s
    pure (printT s ")" false)
  | .notExpr cond => do
    let s := printT s "!" false
    emitExpr M cond s
  | .binaryOp op lhs rhs =>
    match binOpStr op with
    | none => throw ("Unknown operator " ++ toString op)
    | some opStr => do
      let s := printT s "(" false
      let s ← emitExpr M lhs s
      let s := printT s (" " ++ opStr ++ " ") false
      let s ← emitExpr M rhs s
      pure (printT s ")" false)
  | .readProp receiver name => do
    let s ← emitExpr M receiver s
    let s := printT s "." false
    pure (printT s name false)
  | .readKey receiver index => do
    let s ← emitExpr M receiver s
    let s := printT s "[" false
    let s ← emitExpr M index s
    pure (printT s "]" false)
  | .literalArray entries => do
    let useNewLine := entries.length > 1
    let s := printT s "[" useNewLine
    let s := incIndentT s
    let s ← emitExprs M entries "," useNewLine s
    let s := decIndentT s
    pure (printT s "]" useNewLine)
  | .literalMap entries => do
    let useNewLine := entries.length > 1
    let s := printT s "\x7b" useNewLine
    let s := incIndentT s
    let s ← emitMapEntries M entries "," useNewLine s
    let s := decIndentT s
    pure (printT s "\x7d" useNewLine)

/-- Source: visitAllExpressions = visitAllObjects with the expression
visitor as handler: the first element bare, each later element preceded
by a separator print carrying the newLine flag, and a trailing println
when one-per-line rendering is on (also for the empty list). -/
def emitExprs (M : EmitterCfg) (exprs : List Expr) (separator : String)
    (newLine : Bool) (s : EmitSt) : EmitRes := do
  let s ← (match exprs with
    | [] => pure s
    | e :: rest => do
      let s ← emitExpr M e s
      emitExprsRest M rest separator newLine s)
  if newLine then pure (printlnT s "") else pure s

/-- The tail of the visitAllObjects loop: indices above zero print the
separator first. -/
def emitExprsRest (M : EmitterCfg) (exprs : List Expr) (separator : String)
    (newLine : Bool) (s : EmitSt) : EmitRes :=
  match exprs with
  | [] => pure s
  | e :: rest => do
    let s := printT s separator newLine
    let s ← emitExpr M e s
    emitExprsRest M rest separator newLine s

/-- visitLiteralMapExpr's handler for one entry: print the escaped key
(with per-entry forced quoting) and a colon, then the value. -/
def emitMapEntry (M : EmitterCfg) (entry : String × Bool × Expr) (s : EmitSt) : EmitRes :=
  match entry with
  | (key, quoted, value) => do
    let s := printT s (escapeIdentifier key M.escapeDollarInStrings quoted ++ ": ") false
    emitExpr M value s

/-- visitAllObjects instantiated for literal-map entries. -/
def emitMapEntries (M : EmitterCfg) (entries : List (String × Bool × Expr))
    (separator : String) (newLine : Bool) (s : EmitSt) : EmitRes := do
  let s ← (match entries with
    | [] => pure s
    | e :: rest => do
      let s ← emitMapEntry M e s
      emitMapEntriesRest M rest separator newLine s)
  if newLine then pure (printlnT s "") else pure s

/-- The tail of the visitAllObjects loop for map entries. -/
def emitMapEntriesRest (M : EmitterCfg) (entries : List (String × Bool × Expr))
    (separator : String) (newLine : Bool) (s : EmitSt) : EmitRes :=
  match entries with
  | [] => pure s
  | e :: rest => do
    let s := printT s separator newLine
    let s ← emitMapEntry M e s
    emitMapEntriesRest M rest separator newLine s

end

/-- Fresh engine state: a root context and an empty operation log. -/
def rootSt : EmitSt := (EmitterVisitorContext.createRoot [], [])

theorem modifyLast_concat (f : EmittedLine → EmittedLine) (ls : List EmittedLine)
    (l : EmittedLine) : modifyLast f (ls ++ [l]) = ls ++ [f l] := by
  induction ls with
  | nil => rfl
  | cons a rest ih =>
    cases rest with
    | nil => rfl
    | cons b rest' => simpa [modifyLast] using ih

theorem length_modifyLast (f : EmittedLine → EmittedLine) (ls : List EmittedLine) :
    (modifyLast f ls).length = ls.length := by
  induction ls with
  | nil => rfl
  | cons a rest ih =>
    cases rest with
    | nil => rfl
    | cons b rest' =>
      rw [show modifyLast f (a :: b :: rest') = a :: modifyLast f (b :: rest') from rfl]
      simp only [List.length_cons]
      rw [ih]
      simp

theorem modifyLast_cons_ne_nil (f : EmittedLine → EmittedLine) (a : EmittedLine)
    (rest : List EmittedLine) : modifyLast f (a :: rest) ≠ [] := by
  intro h
  have hlen := length_modifyLast f (a :: rest)
  rw [h] at hlen
  simp at hlen

theorem modifyLast_cons_of_ne_nil (f : EmittedLine → EmittedLine) (a : EmittedLine)
    (rest : List EmittedLine) (h : rest ≠ []) :
    modifyLast f (a :: rest) = a :: modifyLast f rest := by
  cases rest with
  | nil => exact absurd rfl h
  | cons b rest' => rfl

theorem modifyLast_modifyLast (f g : EmittedLine → EmittedLine) (ls : List EmittedLine) :
    modifyLast f (modifyLast g ls) = modifyLast (fun l => f (g l)) ls := by
  induction ls with
  | nil => rfl
  | cons a rest ih =>
    cases rest with
    | nil => rfl
    | cons b rest' =>
      rw [show modifyLast g (a :: b :: rest') = a :: modifyLast g (b :: rest') from rfl,
        modifyLast_cons_of_ne_nil f a _ (modifyLast_cons_ne_nil g b rest'), ih]
      exact (modifyLast_cons_of_ne_nil _ a (b :: rest') (by simp)).symm

theorem getLast?_modifyLast (f : EmittedLine → EmittedLine) (ls : List EmittedLine) :
    (modifyLast f ls).getLast? = ls.getLast?.map f := by
  induction ls with
  | nil => rfl
  | cons a rest ih =>
    cases rest with
    | nil => rfl
    | cons b rest' =>
      rw [show modifyLast f (a :: b :: rest') = a :: modifyLast f (b :: rest') from rfl]
      cases hX : modifyLast f (b :: rest') with
      | nil => exact absurd hX (modifyLast_cons_ne_nil f b rest')
      | cons c cs =>
        rw [hX] at ih
        rw [List.getLast?_cons_cons, List.getLast?_cons_cons]
        exact ih

theorem modifyLast_id (ls : List EmittedLine) : modifyLast (fun l => l) ls = ls := by
  induction ls with
  | nil => rfl
  | cons a rest ih =>
    cases rest with
    | nil => rfl
    | cons b rest' =>
      rw [show modifyLast (fun l : EmittedLine => l) (a :: b :: rest') =
        a :: modifyLast (fun l : EmittedLine => l) (b :: rest') from rfl, ih]

/-- Append spanless fragments to the current line, without opening a new
line: the effect of a run of print calls with non-empty parts, no spans
and no newLine flag. -/
def appendFrags (ctx : EmitterVisitorContext) (frags : List String) : EmitterVisitorContext :=
  { ctx with lines := modifyLast (fun l =>
      { l with parts := l.parts ++ frags,
               srcSpans := l.srcSpans ++ List.replicate frags.length none }) ctx.lines }

/-- Open a fresh line at the current indent: the newLine step of
print. -/
def newLineCtx (ctx : EmitterVisitorContext) : EmitterVisitorContext :=
  { ctx with lines := ctx.lines ++ [⟨ctx.indent, [], []⟩] }

@[simp] theorem appendFrags_nil (ctx : EmitterVisitorContext) :
    appendFrags ctx [] = ctx := by
  cases ctx with
  | mk e i ls =>
    simp only [appendFrags, List.length_nil, List.replicate_zero, List.append_nil]
    congr 1
    have hfun : (fun l : EmittedLine =>
        { l with parts := l.parts, srcSpans := l.srcSpans }) =
        fun l : EmittedLine => l := by
      funext l; cases l; rfl
    rw [hfun, modifyLast_id]

theorem appendFrags_append (ctx : EmitterVisitorContext) (a b : List String) :
    appendFrags ctx (a ++ b) = appendFrags (appendFrags ctx a) b := by
  simp only [appendFrags, modifyLast_modifyLast]
  congr 1
  apply congrFun
  apply congrArg
  funext l
  cases l with
  | mk ind parts spans =>
    simp only [List.length_append, List.replicate_add, List.append_assoc]

@[simp] theorem indent_appendFrags (ctx : EmitterVisitorContext) (fr : List String) :
    (appendFrags ctx fr).indent = ctx.indent := rfl

@[simp] theorem indent_newLineCtx (ctx : EmitterVisitorContext) :
    (newLineCtx ctx).indent = ctx.indent := rfl

@[simp] theorem exported_appendFrags (ctx : EmitterVisitorContext) (fr : List String) :
    (appendFrags ctx fr).exportedVars = ctx.exportedVars := rfl

@[simp] theorem exported_newLineCtx (ctx : EmitterVisitorContext) :
    (newLineCtx ctx).exportedVars = ctx.exportedVars := rfl

theorem print_false_eq (ctx : EmitterVisitorContext) (part : String) (h : part ≠ "") :
    ctx.print none part false = appendFrags ctx [part] := by
  have hl : part.length > 0 := by
    rcases part with ⟨pd⟩
    cases pd with
    | nil => exact absurd rfl h
    | cons c cs => exact Nat.succ_le_succ (Nat.zero_le cs.length)
  simp only [EmitterVisitorContext.print, if_pos hl, appendFrags]
  rfl

theorem print_true_eq (ctx : EmitterVisitorContext) (part : String) (h : part ≠ "") :
    ctx.print none part true = newLineCtx (appendFrags ctx [part]) := by
  have hl : part.length > 0 := by
    rcases part with ⟨pd⟩
    cases pd with
    | nil => exact absurd rfl h
    | cons c cs => exact Nat.succ_le_succ (Nat.zero_le cs.length)
  simp only [EmitterVisitorContext.print, if_pos hl, appendFrags, newLineCtx]
  rfl

theorem print_empty_true_eq (ctx : EmitterVisitorContext) :
    ctx.print none "" true = newLineCtx ctx := by
  simp only [EmitterVisitorContext.print, newLineCtx]
  rfl

theorem removeEmpty_newLineCtx (ctx : EmitterVisitorContext) :
    (newLineCtx ctx).removeEmptyLastLine = ctx := by
  have h : (newLineCtx ctx).lineIsEmpty = true := by
    simp [newLineCtx, EmitterVisitorContext.lineIsEmpty, List.getLast?_concat]
  simp only [EmitterVisitorContext.removeEmptyLastLine, h, if_true]
  cases ctx with
  | mk e i ls => simp [newLineCtx, List.dropLast_concat]

theorem lineIsEmpty_appendFrags (ctx : EmitterVisitorContext) (f : String)
    (fr : List String) :
    (appendFrags ctx (f :: fr)).lineIsEmpty = false := by
  simp only [EmitterVisitorContext.lineIsEmpty, appendFrags, getLast?_modifyLast]
  cases hls : ctx.lines.getLast? with
  | none => rfl
  | some l => simp

@[simp] theorem bind_ok_emit {β : Type} (a : EmitSt) (f : EmitSt → Except String β) :
    (Except.ok a >>= f : Except String β) = f a := rfl

@[simp] theorem pure_eq_ok {β : Type} (b : β) : (pure b : Except String β) = Except.ok b := rfl

theorem str_append_ne_empty_right (a b : String) (h : b ≠ "") : a ++ b ≠ "" := by
  intro hc
  apply h
  have hd := congrArg String.data hc
  simp only [String.data_append] at hd
  have : b.data = [] := (List.append_eq_nil.mp hd).2
  cases b with
  | mk bd => cases this; rfl

theorem printT_false_eq (s : EmitSt) (part : String) (h : part ≠ "") :
    printT s part false = (appendFrags s.1 [part], s.2 ++ [COp.print part false]) := by
  simp [printT, print_false_eq s.1 part h]

theorem printT_true_eq (s : EmitSt) (part : String) (h : part ≠ "") :
    printT s part true = (newLineCtx (appendFrags s.1 [part]), s.2 ++ [COp.print part true]) := by
  simp [printT, print_true_eq s.1 part h]

theorem printlnT_empty_eq (s : EmitSt) :
    printlnT s "" = (newLineCtx s.1, s.2 ++ [COp.print "" true]) := by
  simp [printlnT, printT, print_empty_true_eq s.1]

/-- Expression e renders inline as the fragment list frags: emitting it
from any state appends exactly these (non-empty) fragments to the
current line — no new line is opened, the indent counter is unchanged,
and rendering cannot fail. -/
def EmitsInline (M : EmitterCfg) (e : Expr) (frags : List String) : Prop :=
  (∀ f ∈ frags, f ≠ "") ∧
  ∀ s : EmitSt, ∃ ops, emitExpr M e s = Except.ok (appendFrags s.1 frags, s.2 ++ ops)

/-- Statement st renders inline as the fragment list frags followed by a
line break: emitting it from any state appends these (non-empty)
fragments to the current line and then opens a fresh line at the current
indent. -/
def StmtEmitsInline (M : EmitterCfg) (st : Stmt) (frags : List String) : Prop :=
  (∀ f ∈ frags, f ≠ "") ∧
  ∀ s : EmitSt, ∃ ops, emitStmt M st s =
    Except.ok (newLineCtx (appendFrags s.1 frags), s.2 ++ ops)

/-- A variable read of a non-empty spelled name renders inline as its
name. -/
theorem emitsInline_readVar (M : EmitterCfg) (name : String) (h : name ≠ "") :
    EmitsInline M (.readVar name none) [name] := by
  refine ⟨by simpa using h, fun s => ⟨[COp.print name false], ?_⟩⟩
  simp only [emitExpr]
  rw [printT_false_eq s name h]
  rfl

/-- An integer literal renders inline as its decimal text. -/
theorem emitsInline_literalNum (M : EmitterCfg) (n : Int) (h : toString n ≠ "") :
    EmitsInline M (.literal (.num n)) [toString n] := by
  refine ⟨by simpa using h, fun s => ⟨[COp.print (toString n) false], ?_⟩⟩
  simp only [emitExpr]
  rw [printT_false_eq s (toString n) h]
  rfl

/-- An expression statement over an inline expression renders inline as
the expression's fragments followed by the semicolon. -/
theorem stmtEmitsInline_exprStmt (M : EmitterCfg) (e : Expr) (f : List String)
    (h : EmitsInline M e f) :
    StmtEmitsInline M (.expressionStmt e) (f ++ [";"]) := by
  obtain ⟨hne, hs⟩ := h
  refine ⟨?_, fun s => ?_⟩
  · intro x hx
    rcases List.mem_append.mp hx with hx | hx
    · exact hne x hx
    · simp only [List.mem_singleton] at hx
      subst hx
      decide
  · obtain ⟨ops, ho⟩ := hs s
    refine ⟨ops ++ [COp.print ";" true], ?_⟩
    simp only [emitStmt]
    rw [ho]
    simp only [bind_ok_emit, pure_eq_ok, printlnT, printT_true_eq _ ";" (by decide)]
    rw [← appendFrags_append, List.append_assoc]

/-- A configuration with dollar-escaping off and a builtin-method hook
that always elides (used for concrete examples). -/
def defaultCfg : EmitterCfg := ⟨false, fun _ => none⟩

/-- The rendered text of an engine result (the context's toSource, or a
marker when rendering aborted). -/
def resultText (r : EmitRes) : String :=
  match r with
  | .ok s => s.1.toSource
  | .error _ => "<aborted>"

theorem emitExpr_writeVar_frags (M : EmitterCfg) (name : String) (value : Expr)
    (vf : List String) (h : EmitsInline M value vf) (s : EmitSt) :
    ∃ ops, emitExpr M (.writeVar name value) s = Except.ok
      (appendFrags s.1 (if s.1.lineIsEmpty then (name ++ " = ") :: vf
        else "(" :: (name ++ " = ") :: (vf ++ [")"])), s.2 ++ ops) := by
  obtain ⟨hne, hv⟩ := h
  have hn : (name ++ " = ") ≠ "" := str_append_ne_empty_right name " = " (by decide)
  by_cases he : s.1.lineIsEmpty = true
  · obtain ⟨o2, h2⟩ := hv (appendFrags s.1 [name ++ " = "], s.2 ++ [COp.print (name ++ " = ") false])
    refine ⟨COp.print (name ++ " = ") false :: o2, ?_⟩
    simp only [emitExpr, he, if_true, if_pos]
    rw [printT_false_eq s _ hn, h2]
    simp only [bind_ok_emit, pure_eq_ok]
    rw [← appendFrags_append]
    simp [he, List.append_assoc]
  · have he' : s.1.lineIsEmpty = false := by
      cases hb : s.1.lineIsEmpty with
      | true => exact absurd hb he
      | false => rfl
    obtain ⟨o2, h2⟩ := hv (appendFrags s.1 ["(", name ++ " = "],
      s.2 ++ [COp.print "(" false, COp.print (name ++ " = ") false])
    refine ⟨COp.print "(" false :: COp.print (name ++ " = ") false :: o2 ++
      [COp.print ")" false], ?_⟩
    simp only [emitExpr, he', Bool.false_eq_true, if_false]
    rw [printT_false_eq s "(" (by decide)]
    rw [printT_false_eq _ _ hn]
    rw [← appendFrags_append]
    simp only [List.singleton_append, List.append_assoc, List.cons_append, List.nil_append]
    rw [h2]
    simp only [bind_ok_emit, pure_eq_ok]
    rw [printT_false_eq _ ")" (by decide)]
    rw [← appendFrags_append, ← appendFrags_append]
    simp [he', List.append_assoc]

theorem emitExpr_writeProp_frags (M : EmitterCfg) (receiver : Expr) (name : String)
    (value : Expr) (rf vf : List String) (hr : EmitsInline M receiver rf)
    (h : EmitsInline M value vf) (s : EmitSt) :
    ∃ ops, emitExpr M (.writeProp receiver name value) s = Except.ok
      (appendFrags s.1 (if s.1.lineIsEmpty then rf ++ ("." ++ name ++ " = ") :: vf
        else "(" :: (rf ++ ("." ++ name ++ " = ") :: (vf ++ [")"]))), s.2 ++ ops) := by
  obtain ⟨hrne, hrv⟩ := hr
  obtain ⟨hne, hv⟩ := h
  have hn : ("." ++ name ++ " = ") ≠ "" :=
    str_append_ne_empty_right ("." ++ name) " = " (by decide)
  by_cases he : s.1.lineIsEmpty = true
  · obtain ⟨o1, h1⟩ := hrv s
    obtain ⟨o2, h2⟩ := hv (appendFrags s.1 (rf ++ ["." ++ name ++ " = "]),
      (s.2 ++ o1) ++ [COp.print ("." ++ name ++ " = ") false])
    refine ⟨o1 ++ COp.print ("." ++ name ++ " = ") false :: o2, ?_⟩
    simp only [emitExpr, he, if_true, if_pos]
    rw [h1]
    simp only [bind_ok_emit]
    rw [printT_false_eq _ _ hn, ← appendFrags_append, h2]
    simp only [bind_ok_emit, pure_eq_ok]
    rw [← appendFrags_append]
    simp [he, List.append_assoc]
  · have he' : s.1.lineIsEmpty = false := by
      cases hb : s.1.lineIsEmpty with
      | true => exact absurd hb he
      | false => rfl
    obtain ⟨o1, h1⟩ := hrv (appendFrags s.1 ["("], s.2 ++ [COp.print "(" false])
    obtain ⟨o2, h2⟩ := hv (appendFrags s.1 ("(" :: (rf ++ ["." ++ name ++ " = "])),
      ((s.2 ++ [COp.print "(" false]) ++ o1) ++ [COp.print ("." ++ name ++ " = ") false])
    refine ⟨COp.print "(" false :: (o1 ++ COp.print ("." ++ name ++ " = ") false ::
      (o2 ++ [COp.print ")" false])), ?_⟩
    simp only [emitExpr, he', Bool.false_eq_true, if_false]
    rw [printT_false_eq s "(" (by decide), h1]
    simp only [bind_ok_emit]
    rw [printT_false_eq _ _ hn, ← appendFrags_append, ← appendFrags_append]
    simp only [List.singleton_append]
    rw [h2]
    simp only [bind_ok_emit, pure_eq_ok]
    rw [printT_false_eq _ ")" (by decide), ← appendFrags_append, ← appendFrags_append]
    simp [he', List.append_assoc]

theorem emitExpr_writeKey_frags (M : EmitterCfg) (receiver index value : Expr)
    (rf xf vf : List String) (hr : EmitsInline M receiver rf)
    (hx : EmitsInline M index xf) (h : EmitsInline M value vf) (s : EmitSt) :
    ∃ ops, emitExpr M (.writeKey receiver index value) s = Except.ok
      (appendFrags s.1 (if s.1.lineIsEmpty then rf ++ "[" :: (xf ++ "] = " :: vf)
        else "(" :: (rf ++ "[" :: (xf ++ "] = " :: (vf ++ [")"])))), s.2 ++ ops) := by
  obtain ⟨hrne, hrv⟩ := hr
  obtain ⟨hxne, hxv⟩ := hx
  obtain ⟨hne, hv⟩ := h
  by_cases he : s.1.lineIsEmpty = true
  · obtain ⟨o1, h1⟩ := hrv s
    obtain ⟨o2, h2⟩ := hxv (appendFrags s.1 (rf ++ ["["]),
      (s.2 ++ o1) ++ [COp.print "[" false])
    obtain ⟨o3, h3⟩ := hv (appendFrags s.1 ((rf ++ ["["]) ++ (xf ++ ["] = "])),
      (((s.2 ++ o1) ++ [COp.print "[" false]) ++ o2) ++ [COp.print "] = " false])
    refine ⟨o1 ++ COp.print "[" false :: (o2 ++ COp.print "] = " false :: o3), ?_⟩
    simp only [emitExpr, he, if_true, if_pos]
    rw [h1]
    simp only [bind_ok_emit]
    rw [printT_false_eq _ "[" (by decide), ← appendFrags_append, h2]
    simp only [bind_ok_emit]
    rw [printT_false_eq _ "] = " (by decide), ← appendFrags_append, ← appendFrags_append, h3]
    simp only [bind_ok_emit, pure_eq_ok]
    rw [← appendFrags_append]
    simp [he, List.append_assoc]
  · have he' : s.1.lineIsEmpty = false := by
      cases hb : s.1.lineIsEmpty with
      | true => exact absurd hb he
      | false => rfl
    obtain ⟨o1, h1⟩ := hrv (appendFrags s.1 ["("], s.2 ++ [COp.print "(" false])
    obtain ⟨o2, h2⟩ := hxv (appendFrags s.1 ("(" :: (rf ++ ["["])),
      ((s.2 ++ [COp.print "(" false]) ++ o1) ++ [COp.print "[" false])
    obtain ⟨o3, h3⟩ := hv (appendFrags s.1 (("(" :: (rf ++ ["["])) ++ (xf ++ ["] = "])),
      (((((s.2 ++ [COp.print "(" false]) ++ o1) ++ [COp.print "[" false]) ++ o2) ++
        [COp.print "] = " false]))
    refine ⟨COp.print "(" false :: (o1 ++ COp.print "[" false ::
      (o2 ++ COp.print "] = " false :: (o3 ++ [COp.print ")" false]))), ?_⟩
    simp only [emitExpr, he', Bool.false_eq_true, if_false]
    rw [printT_false_eq s "(" (by decide), h1]
    simp only [bind_ok_emit]
    rw [printT_false_eq _ "[" (by decide), ← appendFrags_append, ← appendFrags_append]
    simp only [List.singleton_append]
    rw [h2]
    simp only [bind_ok_emit]
    rw [printT_false_eq _ "] = " (by decide), ← appendFrags_append, ← appendFrags_append]
    rw [h3]
    simp only [bind_ok_emit, pure_eq_ok]
    rw [printT_false_eq _ ")" (by decide), ← appendFrags_append, ← appendFrags_append]
    simp [he', List.append_assoc]

/-- C4: for write-variable, write-property and write-key expressions,
the rendered assignment is wrapped in parentheses exactly when the
current line already has a fragment as the assignment's rendering
begins; on an empty line no parentheses are added.  Concretely, a
property write renders as obj.x = 1; as a statement on a fresh line, and
as (obj.x = 1) when rendered on a line that already has content. -/
theorem C4_assignmentParens :
    (∀ (M : EmitterCfg) (name : String) (value : Expr) (vf : List String),
        EmitsInline M value vf → ∀ s : EmitSt,
        ∃ ops, emitExpr M (.writeVar name value) s = Except.ok
          (appendFrags s.1 (if s.1.lineIsEmpty then (name ++ " = ") :: vf
            else "(" :: (name ++ " = ") :: (vf ++ [")"])), s.2 ++ ops)) ∧
    (∀ (M : EmitterCfg) (receiver : Expr) (name : String) (value : Expr)
        (rf vf : List String), EmitsInline M receiver rf → EmitsInline M value vf →
        ∀ s : EmitSt,
        ∃ ops, emitExpr M (.writeProp receiver name value) s = Except.ok
          (appendFrags s.1 (if s.1.lineIsEmpty then rf ++ ("." ++ name ++ " = ") :: vf
            else "(" :: (rf ++ ("." ++ name ++ " = ") :: (vf ++ [")"]))), s.2 ++ ops)) ∧
    (∀ (M : EmitterCfg) (receiver index value : Expr) (rf xf vf : List String),
        EmitsInline M receiver rf → EmitsInline M index xf → EmitsInline M value vf →
        ∀ s : EmitSt,
        ∃ ops, emitExpr M (.writeKey receiver index value) s = Except.ok
          (appendFrags s.1 (if s.1.lineIsEmpty then rf ++ "[" :: (xf ++ "] = " :: vf)
            else "(" :: (rf ++ "[" :: (xf ++ "] = " :: (vf ++ [")"])))), s.2 ++ ops)) ∧
    resultText (emitStmt defaultCfg (.expressionStmt
      (.writeProp (.readVar "obj" none) "x" (.literal (.num 1)))) rootSt) = "obj.x = 1;" ∧
    resultText (emitExpr defaultCfg
      (.writeProp (.readVar "obj" none) "x" (.literal (.num 1)))
      (printT rootSt "z" false)) = "z(obj.x = 1)" := by
  refine ⟨?_, ?_, ?_, by decide, by decide⟩
  · intro M name value vf h s
    exact emitExpr_writeVar_frags M name value vf h s
  · intro M receiver name value rf vf hr h s
    exact emitExpr_writeProp_frags M receiver name value rf vf hr h s
  · intro M receiver index value rf xf vf hr hx h s
    exact emitExpr_writeKey_frags M receiver index value rf xf vf hr hx h s

/-- Witness for C4_assignmentParens at concrete inputs. -/
theorem C4_assignmentParens_witness :
    (∃ ops, emitExpr defaultCfg (.writeVar "v" (.readVar "x" none)) rootSt = Except.ok
      (appendFrags rootSt.1 (if rootSt.1.lineIsEmpty then ("v" ++ " = ") :: ["x"]
        else "(" :: ("v" ++ " = ") :: (["x"] ++ [")"])), rootSt.2 ++ ops)) ∧
    (∃ ops, emitExpr defaultCfg
        (.writeKey (.readVar "o" none) (.readVar "k" none) (.readVar "x" none)) rootSt =
      Except.ok (appendFrags rootSt.1
        (if rootSt.1.lineIsEmpty then ["o"] ++ "[" :: (["k"] ++ "] = " :: ["x"])
          else "(" :: (["o"] ++ "[" :: (["k"] ++ "] = " :: (["x"] ++ [")"])))),
        rootSt.2 ++ ops)) :=
  ⟨C4_assignmentParens.1 defaultCfg "v" (.readVar "x" none) ["x"]
      (emitsInline_readVar defaultCfg "x" (by decide)) rootSt,
   C4_assignmentParens.2.2.1 defaultCfg (.readVar "o" none) (.readVar "k" none)
      (.readVar "x" none) ["o"] ["k"] ["x"]
      (emitsInline_readVar defaultCfg "o" (by decide))
      (emitsInline_readVar defaultCfg "k" (by decide))
      (emitsInline_readVar defaultCfg "x" (by decide)) rootSt⟩

theorem emitExpr_binaryOp_frags (M : EmitterCfg) (op : Nat) (opStr : String)
    (lhs rhs : Expr) (lf rf : List String) (hop : binOpStr op = some opStr)
    (hl : EmitsInline M lhs lf) (hr : EmitsInline M rhs rf) (s : EmitSt) :
    ∃ ops, emitExpr M (.binaryOp op lhs rhs) s = Except.ok
      (appendFrags s.1 ("(" :: (lf ++ (" " ++ opStr ++ " ") :: (rf ++ [")"]))),
       s.2 ++ ops) := by
  obtain ⟨hlne, hlv⟩ := hl
  obtain ⟨hrne, hrv⟩ := hr
  have hmid : (" " ++ opStr ++ " ") ≠ "" :=
    str_append_ne_empty_right (" " ++ opStr) " " (by decide)
  obtain ⟨o1, h1⟩ := hlv (appendFrags s.1 ["("], s.2 ++ [COp.print "(" false])
  obtain ⟨o2, h2⟩ := hrv (appendFrags s.1 ("(" :: (lf ++ [" " ++ opStr ++ " "])),
    ((s.2 ++ [COp.print "(" false]) ++ o1) ++ [COp.print (" " ++ opStr ++ " ") false])
  refine ⟨COp.print "(" false :: (o1 ++ COp.print (" " ++ opStr ++ " ") false ::
    (o2 ++ [COp.print ")" false])), ?_⟩
  simp only [emitExpr, hop]
  rw [printT_false_eq s "(" (by decide), h1]
  simp only [bind_ok_emit]
  rw [printT_false_eq _ _ hmid, ← appendFrags_append, ← appendFrags_append]
  simp only [List.singleton_append]
  rw [h2]
  simp only [bind_ok_emit, pure_eq_ok]
  rw [printT_false_eq _ ")" (by decide), ← appendFrags_append, ← appendFrags_append]
  simp [List.append_assoc]

/-- A binary expression over inline operands is itself inline, so the
parenthesization is uniform at every nesting depth. -/
theorem emitsInline_binaryOp (M : EmitterCfg) (op : Nat) (opStr : String)
    (lhs rhs : Expr) (lf rf : List String) (hop : binOpStr op = some opStr)
    (hl : EmitsInline M lhs lf) (hr : EmitsInline M rhs rf) :
    EmitsInline M (.binaryOp op lhs rhs)
      ("(" :: (lf ++ (" " ++ opStr ++ " ") :: (rf ++ [")"]))) := by
  constructor
  · intro f hf
    simp only [List.mem_cons, List.mem_append, List.mem_singleton] at hf
    rcases hf with rfl | hf | hf
    · decide
    · exact hl.1 f hf
    · rcases hf with rfl | hf
      · exact str_append_ne_empty_right (" " ++ opStr) " " (by decide)
      · rcases hf with hf | hf | hf
        · exact hr.1 f hf
        · subst hf
          decide
        · simp at hf
  · intro s
    exact emitExpr_binaryOp_frags M op opStr lhs rhs lf rf hop hl hr s

theorem binOpStr_isSome_iff (op : Nat) : (binOpStr op).isSome = true ↔ op < 15 := by
  rcases Nat.lt_or_ge op 15 with h | h
  · interval_cases op <;> decide
  · have hn : binOpStr op = none := by
      match op, h with
      | n + 15, _ => rfl
    rw [hn]
    simp
    omega

/-- C5: every binary-operator expression whose operator is in the fixed
15-entry table renders fully parenthesized — open parenthesis, left
operand, space, operator text, space, right operand, close parenthesis —
at every nesting depth; the table's domain is exactly the fifteen tags;
a return over a plus of variable reads a and b renders exactly
return (a + b); and a nested product renders (a + (b * c)). -/
theorem C5_binaryParens :
    (∀ (M : EmitterCfg) (op : Nat) (opStr : String) (lhs rhs : Expr)
        (lf rf : List String), binOpStr op = some opStr →
        EmitsInline M lhs lf → EmitsInline M rhs rf →
        EmitsInline M (.binaryOp op lhs rhs)
          ("(" :: (lf ++ (" " ++ opStr ++ " ") :: (rf ++ [")"])))) ∧
    (∀ op : Nat, (binOpStr op).isSome = true ↔ op < 15) ∧
    resultText (emitStmt defaultCfg (.returnStmt
      (.binaryOp 6 (.readVar "a" none) (.readVar "b" none))) rootSt) = "return (a + b);" ∧
    resultText (emitStmt defaultCfg (.expressionStmt
      (.binaryOp 6 (.readVar "a" none)
        (.binaryOp 9 (.readVar "b" none) (.readVar "c" none)))) rootSt) =
      "(a + (b * c));" := by
  refine ⟨?_, binOpStr_isSome_iff, by decide, by decide⟩
  intro M op opStr lhs rhs lf rf hop hl hr
  exact emitsInline_binaryOp M op opStr lhs rhs lf rf hop hl hr

/-- Witness for C5_binaryParens: the plus case over variable reads. -/
theorem C5_binaryParens_witness :
    EmitsInline defaultCfg (.binaryOp 6 (.readVar "a" none) (.readVar "b" none))
      ("(" :: (["a"] ++ (" " ++ "+" ++ " ") :: (["b"] ++ [")"]))) ∧
    ((binOpStr 14).isSome = true ↔ 14 < 15) :=
  ⟨C5_binaryParens.1 defaultCfg 6 "+" (.readVar "a" none) (.readVar "b" none)
      ["a"] ["b"] rfl (emitsInline_readVar defaultCfg "a" (by decide))
      (emitsInline_readVar defaultCfg "b" (by decide)),
   C5_binaryParens.2.1 14⟩

theorem removeEmptyLastLineT_newLine (ctx : EmitterVisitorContext) (log : List COp) :
    removeEmptyLastLineT (newLineCtx ctx, log) =
      (ctx, log ++ [COp.removeEmptyLastLine]) := by
  simp [removeEmptyLastLineT, removeEmpty_newLineCtx]

theorem stmtEmitsInline_if_single (M : EmitterCfg) (cond : Expr) (st : Stmt)
    (cf sf : List String) (hc : EmitsInline M cond cf)
    (hst : StmtEmitsInline M st sf) :
    StmtEmitsInline M (.ifStmt cond [st] [])
      ("if (" :: (cf ++ ") \x7b" :: " " :: (sf ++ [" ", "\x7d"]))) := by
  obtain ⟨hcne, hcv⟩ := hc
  obtain ⟨hsne, hsv⟩ := hst
  constructor
  · intro f hf
    rcases List.mem_cons.mp hf with rfl | hf
    · decide
    rcases List.mem_append.mp hf with hf | hf
    · exact hcne f hf
    rcases List.mem_cons.mp hf with rfl | hf
    · decide
    rcases List.mem_cons.mp hf with rfl | hf
    · decide
    rcases List.mem_append.mp hf with hf | hf
    · exact hsne f hf
    rcases List.mem_cons.mp hf with rfl | hf
    · decide
    rcases List.mem_cons.mp hf with rfl | hf
    · decide
    simp at hf
  · intro s
    obtain ⟨o1, h1⟩ := hcv (appendFrags s.1 ["if ("], s.2 ++ [COp.print "if (" false])
    obtain ⟨o2, h2⟩ := hsv (appendFrags (appendFrags s.1 ["if ("])
        ((cf ++ [") \x7b"]) ++ [" "]),
      (((s.2 ++ [COp.print "if (" false]) ++ o1) ++ [COp.print ") \x7b" false]) ++
        [COp.print " " false])
    refine ⟨COp.print "if (" false :: (o1 ++ COp.print ") \x7b" false ::
      COp.print " " false :: (o2 ++ [COp.removeEmptyLastLine, COp.print " " false,
        COp.print "\x7d" true])), ?_⟩
    simp only [emitStmt]
    have hcond : (([st] : List Stmt).length ≤ 1 ∧ ¬ (([] : List Stmt).length > 0)) := by
      simp
    simp only [if_pos hcond]
    rw [printT_false_eq s "if (" (by decide), h1]
    simp only [bind_ok_emit]
    rw [printT_false_eq _ ") \x7b" (by decide), ← appendFrags_append]
    rw [printT_false_eq _ " " (by decide), ← appendFrags_append]
    simp only [emitStmts]
    rw [h2]
    simp only [bind_ok_emit, pure_eq_ok]
    rw [removeEmptyLastLineT_newLine]
    rw [printT_false_eq _ " " (by decide), ← appendFrags_append]
    simp only [printlnT]
    rw [printT_true_eq _ "\x7d" (by decide), ← appendFrags_append, ← appendFrags_append]
    simp [List.append_assoc]
    rw [← appendFrags_append]
    simp

theorem incIndent_newLineCtx (ctx : EmitterVisitorContext) :
    (newLineCtx ctx).incIndent =
      { ctx with
        indent := ctx.indent + 1
        lines := ctx.lines ++ [⟨ctx.indent + 1, [], []⟩] } := by
  simp [EmitterVisitorContext.incIndent, newLineCtx, modifyLast_concat]

theorem decIndent_newLineCtx (ctx : EmitterVisitorContext) :
    (newLineCtx ctx).decIndent =
      { ctx with
        indent := ctx.indent - 1
        lines := ctx.lines ++ [⟨ctx.indent - 1, [], []⟩] } := by
  simp [EmitterVisitorContext.decIndent, newLineCtx, modifyLast_concat]


theorem modifyLast_append_two (f : EmittedLine → EmittedLine) (L : List EmittedLine)
    (a b : EmittedLine) : modifyLast f (L ++ [a, b]) = L ++ [a, f b] := by
  have h : L ++ [a, b] = (L ++ [a]) ++ [b] := by simp
  rw [h, modifyLast_concat]
  simp

theorem modifyLast_append_three (f : EmittedLine → EmittedLine) (L : List EmittedLine)
    (a b c : EmittedLine) : modifyLast f (L ++ [a, b, c]) = L ++ [a, b, f c] := by
  have h : L ++ [a, b, c] = (L ++ [a, b]) ++ [c] := by simp
  rw [h, modifyLast_concat]
  simp

theorem modifyLast_append_four (f : EmittedLine → EmittedLine) (L : List EmittedLine)
    (a b c d : EmittedLine) : modifyLast f (L ++ [a, b, c, d]) = L ++ [a, b, c, f d] := by
  have h : L ++ [a, b, c, d] = (L ++ [a, b, c]) ++ [d] := by simp
  rw [h, modifyLast_concat]
  simp

theorem emitStmt_if_two (M : EmitterCfg) (cond : Expr) (st1 st2 : Stmt)
    (cf sf1 sf2 : List String)
    (hcv : ∀ (s : EmitSt), ∃ ops, emitExpr M cond s = Except.ok (appendFrags s.1 cf, s.2 ++ ops))
    (hs1v : ∀ (s : EmitSt), ∃ ops, emitStmt M st1 s = Except.ok (newLineCtx (appendFrags s.1 sf1), s.2 ++ ops))
    (hs2v : ∀ (s : EmitSt), ∃ ops, emitStmt M st2 s = Except.ok (newLineCtx (appendFrags s.1 sf2), s.2 ++ ops))
    (s : EmitSt) :
    ∃ ops, emitStmt M (.ifStmt cond [st1, st2] []) s = Except.ok
      ({ exportedVars := s.1.exportedVars, indent := s.1.indent,
         lines := (appendFrags s.1 ("if (" :: (cf ++ [") \x7b"]))).lines ++
           [⟨s.1.indent + 1, sf1, List.replicate sf1.length none⟩,
            ⟨s.1.indent + 1, sf2, List.replicate sf2.length none⟩,
            ⟨s.1.indent, ["\x7d"], [none]⟩,
            ⟨s.1.indent, [], []⟩] }, s.2 ++ ops) := by
  obtain ⟨o1, hco⟩ := hcv (appendFrags s.1 ["if ("], s.2 ++ [COp.print "if (" false])
  obtain ⟨o2, hso1⟩ := hs1v
    ({ exportedVars := s.1.exportedVars
       indent := s.1.indent + 1
       lines := (appendFrags (appendFrags s.1 ["if ("]) (cf ++ [") \x7b"])).lines ++
         [⟨s.1.indent + 1, [], []⟩] },
     ((((s.2 ++ [COp.print "if (" false]) ++ o1) ++ [COp.print ") \x7b" false]) ++
       [COp.print "" true]) ++ [COp.incIndent])
  obtain ⟨o3, hso2⟩ := hs2v
    (newLineCtx (appendFrags
       { exportedVars := s.1.exportedVars
         indent := s.1.indent + 1
         lines := (appendFrags (appendFrags s.1 ["if ("]) (cf ++ [") \x7b"])).lines ++
           [⟨s.1.indent + 1, [], []⟩] }
       sf1),
     (((((s.2 ++ [COp.print "if (" false]) ++ o1) ++ [COp.print ") \x7b" false]) ++
       [COp.print "" true]) ++ [COp.incIndent]) ++ o2)
  refine ⟨COp.print "if (" false :: (o1 ++ (COp.print ") \x7b" false ::
    COp.print "" true :: COp.incIndent :: (o2 ++ (o3 ++
      [COp.decIndent, COp.print "\x7d" true])))), ?_⟩
  simp only [emitStmt]
  have hncond : ¬ (([st1, st2] : List Stmt).length ≤ 1 ∧ ¬ (([] : List Stmt).length > 0)) := by
    simp
  simp only [if_neg hncond]
  have hninner : ¬ ((([] : List Stmt)).length > 0) := by simp
  simp only [if_neg hninner]
  rw [printT_false_eq s "if (" (by decide), hco]
  simp only [bind_ok_emit]
  rw [printT_false_eq _ ") \x7b" (by decide), ← appendFrags_append]
  rw [printlnT_empty_eq]
  simp only [incIndentT]
  rw [incIndent_newLineCtx]
  simp only [indent_appendFrags, exported_appendFrags]
  simp only [emitStmts]
  rw [hso1]
  simp only [bind_ok_emit]
  rw [hso2]
  simp only [bind_ok_emit, pure_eq_ok]
  simp only [decIndentT]
  rw [decIndent_newLineCtx]
  simp only [printlnT]
  rw [printT_true_eq _ "\x7d" (by decide)]
  simp [appendFrags, newLineCtx, modifyLast_concat, modifyLast_modifyLast,
    modifyLast_append_two, modifyLast_append_three, modifyLast_append_four,
    List.append_assoc, List.replicate_succ, List.replicate_add]

/-- An if with a non-empty falseCase takes the block branch even when
trueCase has a single statement: header line, indented true branch,
a `\x7d else \x7b` line at the outer indent, indented false branch, and a
closing brace line (source lines 166-184). -/
theorem emitStmt_if_else (M : EmitterCfg) (cond : Expr) (st1 st2 : Stmt)
    (cf sf1 sf2 : List String)
    (hcv : ∀ (s : EmitSt), ∃ ops, emitExpr M cond s = Except.ok (appendFrags s.1 cf, s.2 ++ ops))
    (hs1v : ∀ (s : EmitSt), ∃ ops, emitStmt M st1 s = Except.ok (newLineCtx (appendFrags s.1 sf1), s.2 ++ ops))
    (hs2v : ∀ (s : EmitSt), ∃ ops, emitStmt M st2 s = Except.ok (newLineCtx (appendFrags s.1 sf2), s.2 ++ ops))
    (s : EmitSt) :
    ∃ ops, emitStmt M (.ifStmt cond [st1] [st2]) s = Except.ok
      ({ exportedVars := s.1.exportedVars, indent := s.1.indent,
         lines := (appendFrags s.1 ("if (" :: (cf ++ [") \x7b"]))).lines ++
           [⟨s.1.indent + 1, sf1, List.replicate sf1.length none⟩,
            ⟨s.1.indent, ["\x7d else \x7b"], [none]⟩,
            ⟨s.1.indent + 1, sf2, List.replicate sf2.length none⟩,
            ⟨s.1.indent, ["\x7d"], [none]⟩,
            ⟨s.1.indent, [], []⟩] }, s.2 ++ ops) := by
  obtain ⟨o1, hco⟩ := hcv (appendFrags s.1 ["if ("], s.2 ++ [COp.print "if (" false])
  obtain ⟨o2, hso1⟩ := hs1v
    ({ exportedVars := s.1.exportedVars
       indent := s.1.indent + 1
       lines := (appendFrags (appendFrags s.1 ["if ("]) (cf ++ [") \x7b"])).lines ++
         [⟨s.1.indent + 1, [], []⟩] },
     ((((s.2 ++ [COp.print "if (" false]) ++ o1) ++ [COp.print ") \x7b" false]) ++
       [COp.print "" true]) ++ [COp.incIndent])
  obtain ⟨o3, hso2⟩ := hs2v
    ({ exportedVars := s.1.exportedVars
       indent := s.1.indent + 1
       lines :=
         (appendFrags
           { exportedVars := s.1.exportedVars
             indent := s.1.indent
             lines :=
               (appendFrags
                 { exportedVars := s.1.exportedVars
                   indent := s.1.indent + 1
                   lines :=
                     (appendFrags (appendFrags s.1 ["if ("]) (cf ++ [") \x7b"])).lines ++
                       [⟨s.1.indent + 1, [], []⟩] }
                 sf1).lines ++
                 [⟨s.1.indent, [], []⟩] }
           ["\x7d else \x7b"]).lines ++
           [⟨s.1.indent + 1, [], []⟩] },
     ((((((((s.2 ++ [COp.print "if (" false]) ++ o1) ++ [COp.print ") \x7b" false]) ++
       [COp.print "" true]) ++ [COp.incIndent]) ++ o2) ++ [COp.decIndent]) ++
       [COp.print "\x7d else \x7b" true]) ++ [COp.incIndent])
  refine ⟨COp.print "if (" false :: (o1 ++ (COp.print ") \x7b" false ::
    COp.print "" true :: COp.incIndent :: (o2 ++ ([COp.decIndent, COp.print "\x7d else \x7b" true,
      COp.incIndent] ++ (o3 ++ [COp.decIndent, COp.print "\x7d" true]))))), ?_⟩
  simp only [emitStmt]
  have hncond : ¬ (([st1] : List Stmt).length ≤ 1 ∧ ¬ (([st2] : List Stmt).length > 0)) := by
    simp
  simp only [if_neg hncond]
  have hinner : (([st2] : List Stmt)).length > 0 := by simp
  simp only [if_pos hinner]
  rw [printT_false_eq s "if (" (by decide), hco]
  simp only [bind_ok_emit]
  rw [printT_false_eq _ ") \x7b" (by decide), ← appendFrags_append]
  rw [printlnT_empty_eq]
  simp only [incIndentT]
  rw [incIndent_newLineCtx]
  simp only [indent_appendFrags, exported_appendFrags]
  simp only [emitStmts]
  rw [hso1]
  simp only [bind_ok_emit, pure_eq_ok]
  simp only [decIndentT]
  rw [decIndent_newLineCtx]
  simp only [indent_appendFrags, exported_appendFrags, add_sub_cancel_right]
  simp only [printlnT]
  rw [printT_true_eq _ "\x7d else \x7b" (by decide)]
  rw [incIndent_newLineCtx]
  simp only [indent_appendFrags, exported_appendFrags]
  rw [hso2]
  simp only [bind_ok_emit, pure_eq_ok]
  rw [decIndent_newLineCtx]
  simp only [indent_appendFrags, exported_appendFrags, add_sub_cancel_right]
  rw [printT_true_eq _ "\x7d" (by decide)]
  simp [appendFrags, newLineCtx, modifyLast_concat, modifyLast_modifyLast,
    modifyLast_append_two, modifyLast_append_three, modifyLast_append_four,
    List.append_assoc, List.replicate_succ, List.replicate_add]

/-- C3: an if-statement with exactly one true-branch statement and no
false branch renders inline on a single line — if (cond) \x7b stmt \x7d;
with two true-branch statements it renders as a multi-line block whose
closing brace stands on its own line at the outer indent with the branch
statements indented one level; with a false branch present the block form
is used even for a single true statement, and a line reading
\x7d else \x7b stands on its own line at the outer indent between the
two indented branches.  Concretely the three shapes render as
"if (cond) \x7b return 1; \x7d", "if (cond) \x7b\n  a;\n  b;\n\x7d" and
"if (cond) \x7b\n  a;\n\x7d else \x7b\n  b;\n\x7d". -/
theorem C3_ifRendering :
    (∀ (M : EmitterCfg) (cond : Expr) (st : Stmt) (cf sf : List String),
        EmitsInline M cond cf → StmtEmitsInline M st sf →
        StmtEmitsInline M (.ifStmt cond [st] [])
          ("if (" :: (cf ++ ") \x7b" :: " " :: (sf ++ [" ", "\x7d"])))) ∧
    (∀ (M : EmitterCfg) (cond : Expr) (st1 st2 : Stmt) (cf sf1 sf2 : List String),
        EmitsInline M cond cf → StmtEmitsInline M st1 sf1 → StmtEmitsInline M st2 sf2 →
        ∀ s : EmitSt, ∃ ops, emitStmt M (.ifStmt cond [st1, st2] []) s = Except.ok
          ({ exportedVars := s.1.exportedVars, indent := s.1.indent,
             lines := (appendFrags s.1 ("if (" :: (cf ++ [") \x7b"]))).lines ++
               [⟨s.1.indent + 1, sf1, List.replicate sf1.length none⟩,
                ⟨s.1.indent + 1, sf2, List.replicate sf2.length none⟩,
                ⟨s.1.indent, ["\x7d"], [none]⟩,
                ⟨s.1.indent, [], []⟩] }, s.2 ++ ops)) ∧
    (∀ (M : EmitterCfg) (cond : Expr) (st1 st2 : Stmt) (cf sf1 sf2 : List String),
        EmitsInline M cond cf → StmtEmitsInline M st1 sf1 → StmtEmitsInline M st2 sf2 →
        ∀ s : EmitSt, ∃ ops, emitStmt M (.ifStmt cond [st1] [st2]) s = Except.ok
          ({ exportedVars := s.1.exportedVars, indent := s.1.indent,
             lines := (appendFrags s.1 ("if (" :: (cf ++ [") \x7b"]))).lines ++
               [⟨s.1.indent + 1, sf1, List.replicate sf1.length none⟩,
                ⟨s.1.indent, ["\x7d else \x7b"], [none]⟩,
                ⟨s.1.indent + 1, sf2, List.replicate sf2.length none⟩,
                ⟨s.1.indent, ["\x7d"], [none]⟩,
                ⟨s.1.indent, [], []⟩] }, s.2 ++ ops)) ∧
    resultText (emitStmt defaultCfg (.ifStmt (.readVar "cond" none)
      [.returnStmt (.literal (.num 1))] []) rootSt) = "if (cond) \x7b return 1; \x7d" ∧
    resultText (emitStmt defaultCfg (.ifStmt (.readVar "cond" none)
      [.expressionStmt (.readVar "a" none), .expressionStmt (.readVar "b" none)] []) rootSt) =
      "if (cond) \x7b\n  a;\n  b;\n\x7d" ∧
    resultText (emitStmt defaultCfg (.ifStmt (.readVar "cond" none)
      [.expressionStmt (.readVar "a" none)] [.expressionStmt (.readVar "b" none)]) rootSt) =
      "if (cond) \x7b\n  a;\n\x7d else \x7b\n  b;\n\x7d" := by
  refine ⟨?_, ?_, ?_, by decide, by decide, by decide⟩
  · intro M cond st cf sf hc hst
    exact stmtEmitsInline_if_single M cond st cf sf hc hst
  · intro M cond st1 st2 cf sf1 sf2 hc h1 h2 s
    exact emitStmt_if_two M cond st1 st2 cf sf1 sf2 hc.2 h1.2 h2.2 s
  · intro M cond st1 st2 cf sf1 sf2 hc h1 h2 s
    exact emitStmt_if_else M cond st1 st2 cf sf1 sf2 hc.2 h1.2 h2.2 s

/-- Witness for C3_ifRendering: the three general parts instantiated at
concrete statements. -/
theorem C3_ifRendering_witness :
    StmtEmitsInline defaultCfg (.ifStmt (.readVar "c" none)
        [.expressionStmt (.readVar "x" none)] [])
      ("if (" :: (["c"] ++ ") \x7b" :: " " :: ((["x"] ++ [";"]) ++ [" ", "\x7d"]))) ∧
    (∃ ops, emitStmt defaultCfg (.ifStmt (.readVar "c" none)
        [.expressionStmt (.readVar "x" none), .expressionStmt (.readVar "y" none)] []) rootSt =
      Except.ok
        ({ exportedVars := rootSt.1.exportedVars, indent := rootSt.1.indent,
           lines := (appendFrags rootSt.1 ("if (" :: (["c"] ++ [") \x7b"]))).lines ++
             [⟨rootSt.1.indent + 1, ["x"] ++ [";"], List.replicate ((["x"] ++ [";"]).length) none⟩,
              ⟨rootSt.1.indent + 1, ["y"] ++ [";"], List.replicate ((["y"] ++ [";"]).length) none⟩,
              ⟨rootSt.1.indent, ["\x7d"], [none]⟩,
              ⟨rootSt.1.indent, [], []⟩] }, rootSt.2 ++ ops)) ∧
    (∃ ops, emitStmt defaultCfg (.ifStmt (.readVar "c" none)
        [.expressionStmt (.readVar "x" none)] [.expressionStmt (.readVar "y" none)]) rootSt =
      Except.ok
        ({ exportedVars := rootSt.1.exportedVars, indent := rootSt.1.indent,
           lines := (appendFrags rootSt.1 ("if (" :: (["c"] ++ [") \x7b"]))).lines ++
             [⟨rootSt.1.indent + 1, ["x"] ++ [";"], List.replicate ((["x"] ++ [";"]).length) none⟩,
              ⟨rootSt.1.indent, ["\x7d else \x7b"], [none]⟩,
              ⟨rootSt.1.indent + 1, ["y"] ++ [";"], List.replicate ((["y"] ++ [";"]).length) none⟩,
              ⟨rootSt.1.indent, ["\x7d"], [none]⟩,
              ⟨rootSt.1.indent, [], []⟩] }, rootSt.2 ++ ops)) :=
  ⟨C3_ifRendering.1 defaultCfg (.readVar "c" none) (.expressionStmt (.readVar "x" none))
      ["c"] (["x"] ++ [";"]) (emitsInline_readVar defaultCfg "c" (by decide))
      (stmtEmitsInline_exprStmt defaultCfg (.readVar "x" none) ["x"]
        (emitsInline_readVar defaultCfg "x" (by decide))),
   C3_ifRendering.2.1 defaultCfg (.readVar "c" none) (.expressionStmt (.readVar "x" none))
      (.expressionStmt (.readVar "y" none)) ["c"] (["x"] ++ [";"]) (["y"] ++ [";"])
      (emitsInline_readVar defaultCfg "c" (by decide))
      (stmtEmitsInline_exprStmt defaultCfg (.readVar "x" none) ["x"]
        (emitsInline_readVar defaultCfg "x" (by decide)))
      (stmtEmitsInline_exprStmt defaultCfg (.readVar "y" none) ["y"]
        (emitsInline_readVar defaultCfg "y" (by decide))) rootSt,
   C3_ifRendering.2.2.1 defaultCfg (.readVar "c" none) (.expressionStmt (.readVar "x" none))
      (.expressionStmt (.readVar "y" none)) ["c"] (["x"] ++ [";"]) (["y"] ++ [";"])
      (emitsInline_readVar defaultCfg "c" (by decide))
      (stmtEmitsInline_exprStmt defaultCfg (.readVar "x" none) ["x"]
        (emitsInline_readVar defaultCfg "x" (by decide)))
      (stmtEmitsInline_exprStmt defaultCfg (.readVar "y" none) ["y"]
        (emitsInline_readVar defaultCfg "y" (by decide))) rootSt⟩

/-- Push modifyLast through a function agreeing on the last element. -/
theorem modifyLast_congr_getLast (f g : EmittedLine → EmittedLine) (L : List EmittedLine)
    (h : ∀ l ∈ L.getLast?, f l = g l) : modifyLast f L = modifyLast g L := by
  induction L with
  | nil => rfl
  | cons a rest ih =>
    cases rest with
    | nil =>
      simp only [modifyLast]
      rw [h a (by simp)]
    | cons b t =>
      rw [show modifyLast f (a :: b :: t) = a :: modifyLast f (b :: t) from rfl,
          show modifyLast g (a :: b :: t) = a :: modifyLast g (b :: t) from rfl]
      rw [ih (fun l hl => h l (by rw [List.getLast?_cons_cons]; exact hl))]

theorem incIndent_eq (ctx : EmitterVisitorContext) : ctx.incIndent =
    { ctx with
      indent := ctx.indent + 1
      lines := modifyLast (fun l => { l with indent := ctx.indent + 1 }) ctx.lines } := rfl

theorem decIndent_eq (ctx : EmitterVisitorContext) : ctx.decIndent =
    { ctx with
      indent := ctx.indent - 1
      lines := modifyLast (fun l => { l with indent := ctx.indent - 1 }) ctx.lines } := rfl

theorem emitExpr_literalArray_one (M : EmitterCfg) (e : Expr) (ef : List String)
    (he : EmitsInline M e ef) (s : EmitSt)
    (hlast : ∀ l ∈ s.1.lines.getLast?, l.indent = s.1.indent) :
    ∃ ops, emitExpr M (.literalArray [e]) s = Except.ok
      (appendFrags s.1 ("[" :: (ef ++ ["]"])), s.2 ++ ops) := by
  obtain ⟨hne, hev⟩ := he
  simp only [emitExpr]
  have hNL : (decide (([e] : List Expr).length > 1)) = false := rfl
  rw [hNL]
  rw [printT_false_eq s "[" (by decide)]
  simp only [incIndentT, incIndent_eq, indent_appendFrags, exported_appendFrags]
  simp only [emitExprs]
  obtain ⟨o1, h1⟩ := hev
    ({ exportedVars := s.1.exportedVars
       indent := s.1.indent + 1
       lines := modifyLast (fun l => { indent := s.1.indent + 1, parts := l.parts, srcSpans := l.srcSpans }) (appendFrags s.1 ["["]).lines },
     s.2 ++ [COp.print "[" false] ++ [COp.incIndent])
  rw [h1]
  simp only [bind_ok_emit]
  simp only [emitExprsRest]
  simp only [Bool.false_eq_true, if_false, pure_eq_ok, bind_ok_emit]
  simp only [decIndentT, decIndent_eq, indent_appendFrags, exported_appendFrags,
    add_sub_cancel_right]
  rw [printT_false_eq _ "]" (by decide)]
  refine ⟨[COp.print "[" false, COp.incIndent] ++ (o1 ++ [COp.decIndent, COp.print "]" false]), ?_⟩
  simp only [appendFrags, modifyLast_modifyLast, indent_appendFrags]
  simp only [Except.ok.injEq, Prod.mk.injEq, EmitterVisitorContext.mk.injEq]
  refine ⟨⟨trivial, trivial, ?_⟩, by simp [List.append_assoc]⟩
  apply modifyLast_congr_getLast
  intro l hl
  rw [hlast l hl]
  simp only [List.length_singleton, List.length_cons, List.length_append,
    EmittedLine.mk.injEq]
  refine ⟨by trivial, by simp, ?_⟩
  simp [List.replicate_succ, List.replicate_add, List.append_assoc]
  rw [← List.replicate_succ, ← List.replicate_succ']

theorem emitExpr_literalArray_nil (M : EmitterCfg) (s : EmitSt)
    (hlast : ∀ l ∈ s.1.lines.getLast?, l.indent = s.1.indent) :
    ∃ ops, emitExpr M (.literalArray []) s = Except.ok
      (appendFrags s.1 ["[", "]"], s.2 ++ ops) := by
  refine ⟨[COp.print "[" false, COp.incIndent, COp.decIndent, COp.print "]" false], ?_⟩
  simp only [emitExpr]
  have hNL : (decide (([] : List Expr).length > 1)) = false := rfl
  rw [hNL]
  rw [printT_false_eq s "[" (by decide)]
  simp only [incIndentT, incIndent_eq, indent_appendFrags, exported_appendFrags]
  simp only [emitExprs]
  simp only [Bool.false_eq_true, if_false, pure_eq_ok, bind_ok_emit]
  simp only [decIndentT, decIndent_eq, indent_appendFrags, exported_appendFrags,
    add_sub_cancel_right]
  rw [printT_false_eq _ "]" (by decide)]
  simp only [appendFrags, modifyLast_modifyLast, indent_appendFrags]
  simp only [Except.ok.injEq, Prod.mk.injEq, EmitterVisitorContext.mk.injEq]
  refine ⟨⟨trivial, trivial, ?_⟩, by simp [List.append_assoc]⟩
  apply modifyLast_congr_getLast
  intro l hl
  rw [hlast l hl]
  simp [List.replicate_succ]

theorem emitMapEntry_frags (M : EmitterCfg) (k : String) (q : Bool) (v : Expr)
    (vf : List String) (hv : EmitsInline M v vf) (s : EmitSt) :
    ∃ ops, emitMapEntry M (k, q, v) s = Except.ok
      (appendFrags s.1 ((escapeIdentifier k M.escapeDollarInStrings q ++ ": ") :: vf),
       s.2 ++ ops) := by
  obtain ⟨hne, hvv⟩ := hv
  obtain ⟨o1, h1⟩ := hvv
    (appendFrags s.1 [escapeIdentifier k M.escapeDollarInStrings q ++ ": "],
     s.2 ++ [COp.print (escapeIdentifier k M.escapeDollarInStrings q ++ ": ") false])
  refine ⟨COp.print (escapeIdentifier k M.escapeDollarInStrings q ++ ": ") false :: o1, ?_⟩
  simp only [emitMapEntry]
  rw [printT_false_eq s _ (str_append_ne_empty_right _ ": " (by decide))]
  rw [h1, ← appendFrags_append]
  simp

def blockLines (ind : Int) (fss : List (List String)) : List EmittedLine :=
  match fss with
  | [] => []
  | [f] => [⟨ind, f, List.replicate f.length none⟩]
  | f :: rest => ⟨ind, f ++ [","], List.replicate f.length none ++ [none]⟩ :: blockLines ind rest

theorem blockLines_cons_ne_nil (ind : Int) (f : List String) (rest : List (List String))
    (h : rest ≠ []) : blockLines ind (f :: rest) =
      ⟨ind, f ++ [","], List.replicate f.length none ++ [none]⟩ :: blockLines ind rest := by
  cases rest with
  | nil => exact absurd rfl h
  | cons g t => rfl

theorem emitExprsRest_block (M : EmitterCfg) (es : List Expr) (fss : List (List String))
    (h : List.Forall₂ (EmitsInline M) es fss) :
    es ≠ [] → ∀ s : EmitSt, ∃ ops, emitExprsRest M es "," true s = Except.ok
      ({ exportedVars := s.1.exportedVars, indent := s.1.indent,
         lines := modifyLast (fun l =>
             { l with parts := l.parts ++ [","], srcSpans := l.srcSpans ++ [none] })
           s.1.lines ++ blockLines s.1.indent fss }, s.2 ++ ops) := by
  induction h with
  | nil => intro hne; exact absurd rfl hne
  | @cons e f es fss hfe hrest ih =>
    intro _ s
    obtain ⟨o1, h1⟩ := hfe.2 (newLineCtx (appendFrags s.1 [","]), s.2 ++ [COp.print "," true])
    cases es with
    | nil =>
      cases hrest
      refine ⟨COp.print "," true :: o1, ?_⟩
      simp only [emitExprsRest]
      rw [printT_true_eq s "," (by decide), h1]
      simp only [bind_ok_emit, pure_eq_ok]
      simp [appendFrags, newLineCtx, modifyLast_concat, blockLines]
    | cons e2 est =>
      have hne2 : e2 :: est ≠ [] := by simp
      have hfssne : fss ≠ [] := by cases hrest; simp
      obtain ⟨o2, h2⟩ := ih hne2
        (appendFrags (newLineCtx (appendFrags s.1 [","])) f,
         (s.2 ++ [COp.print "," true]) ++ o1)
      refine ⟨COp.print "," true :: (o1 ++ o2), ?_⟩
      rw [show emitExprsRest M (e :: e2 :: est) "," true s = (do
        let s := printT s "," true
        let s ← emitExpr M e s
        emitExprsRest M (e2 :: est) "," true s) from rfl]
      rw [printT_true_eq s "," (by decide)]
      simp only []
      rw [h1]
      simp only [bind_ok_emit]
      rw [h2]
      simp only [indent_appendFrags, indent_newLineCtx, exported_appendFrags,
        exported_newLineCtx]
      simp only [Except.ok.injEq, Prod.mk.injEq, EmitterVisitorContext.mk.injEq]
      refine ⟨⟨trivial, trivial, ?_⟩, by simp [List.append_assoc]⟩
      rw [blockLines_cons_ne_nil s.1.indent f fss hfssne]
      simp [appendFrags, newLineCtx, modifyLast_concat, modifyLast_modifyLast,
        List.append_assoc]

theorem emitExpr_literalArray_block (M : EmitterCfg) (e1 e2 : Expr) (es : List Expr)
    (f1 f2 : List String) (fss : List (List String))
    (h1 : EmitsInline M e1 f1) (h2 : EmitsInline M e2 f2)
    (h : List.Forall₂ (EmitsInline M) es fss) (s : EmitSt) :
    ∃ ops, emitExpr M (.literalArray (e1 :: e2 :: es)) s = Except.ok
      ({ exportedVars := s.1.exportedVars, indent := s.1.indent,
         lines := (appendFrags s.1 ["["]).lines ++
           (blockLines (s.1.indent + 1) (f1 :: f2 :: fss) ++
             [⟨s.1.indent, ["]"], [none]⟩, ⟨s.1.indent, [], []⟩]) }, s.2 ++ ops) := by
  have hNL : (decide ((e1 :: e2 :: es).length > 1)) = true := by simp
  obtain ⟨o1, ho1⟩ := h1.2
    ({ exportedVars := s.1.exportedVars
       indent := s.1.indent + 1
       lines := (appendFrags s.1 ["["]).lines ++ [⟨s.1.indent + 1, [], []⟩] },
     s.2 ++ [COp.print "[" true] ++ [COp.incIndent])
  obtain ⟨o2, ho2⟩ := emitExprsRest_block M (e2 :: es) (f2 :: fss)
    (List.Forall₂.cons h2 h) (by simp)
    (appendFrags
       { exportedVars := s.1.exportedVars
         indent := s.1.indent + 1
         lines := (appendFrags s.1 ["["]).lines ++ [⟨s.1.indent + 1, [], []⟩] }
       f1,
     (s.2 ++ [COp.print "[" true] ++ [COp.incIndent]) ++ o1)
  refine ⟨COp.print "[" true :: COp.incIndent :: (o1 ++ (o2 ++
    [COp.print "" true, COp.decIndent, COp.print "]" true])), ?_⟩
  simp only [emitExpr]
  rw [hNL]
  rw [printT_true_eq s "[" (by decide)]
  simp only [incIndentT]
  rw [incIndent_newLineCtx]
  simp only [indent_appendFrags, exported_appendFrags]
  simp only [emitExprs]
  rw [ho1]
  simp only [bind_ok_emit]
  rw [ho2]
  simp only [bind_ok_emit]
  simp only [if_true]
  rw [printlnT_empty_eq]
  simp only [indent_appendFrags, exported_appendFrags]
  simp only [pure_eq_ok, bind_ok_emit]
  simp only [decIndentT]
  rw [decIndent_newLineCtx]
  simp only [indent_appendFrags, exported_appendFrags, add_sub_cancel_right]
  rw [printT_true_eq _ "]" (by decide)]
  simp only [indent_appendFrags, exported_appendFrags]
  simp only [Except.ok.injEq, Prod.mk.injEq]
  refine ⟨?_, by simp [List.append_assoc]⟩
  simp only [newLineCtx, appendFrags, modifyLast_concat, modifyLast_modifyLast,
    indent_appendFrags]
  simp only [EmitterVisitorContext.mk.injEq]
  refine ⟨trivial, trivial, ?_⟩
  rw [blockLines_cons_ne_nil (s.1.indent + 1) f1 (f2 :: fss) (by simp)]
  simp [List.append_assoc, List.replicate_succ]

def EntryEmitsInline (M : EmitterCfg) (entry : String × Bool × Expr)
    (frags : List String) : Prop :=
  (∀ f ∈ frags, f ≠ "") ∧
  ∀ s : EmitSt, ∃ ops, emitMapEntry M entry s =
    Except.ok (appendFrags s.1 frags, s.2 ++ ops)

theorem entryEmitsInline_mk (M : EmitterCfg) (k : String) (q : Bool) (v : Expr)
    (vf : List String) (hv : EmitsInline M v vf) :
    EntryEmitsInline M (k, q, v)
      ((escapeIdentifier k M.escapeDollarInStrings q ++ ": ") :: vf) := by
  constructor
  · intro f hf
    rcases List.mem_cons.mp hf with rfl | hf
    · exact str_append_ne_empty_right _ ": " (by decide)
    · exact hv.1 f hf
  · intro s
    exact emitMapEntry_frags M k q v vf hv s

theorem emitExpr_literalMap_nil (M : EmitterCfg) (s : EmitSt)
    (hlast : ∀ l ∈ s.1.lines.getLast?, l.indent = s.1.indent) :
    ∃ ops, emitExpr M (.literalMap []) s = Except.ok
      (appendFrags s.1 ["\x7b", "\x7d"], s.2 ++ ops) := by
  refine ⟨[COp.print "\x7b" false, COp.incIndent, COp.decIndent, COp.print "\x7d" false], ?_⟩
  simp only [emitExpr]
  have hNL : (decide (([] : List (String × Bool × Expr)).length > 1)) = false := rfl
  rw [hNL]
  rw [printT_false_eq s "\x7b" (by decide)]
  simp only [incIndentT, incIndent_eq, indent_appendFrags, exported_appendFrags]
  simp only [emitMapEntries]
  simp only [Bool.false_eq_true, if_false, pure_eq_ok, bind_ok_emit]
  simp only [decIndentT, decIndent_eq, indent_appendFrags, exported_appendFrags,
    add_sub_cancel_right]
  rw [printT_false_eq _ "\x7d" (by decide)]
  simp only [appendFrags, modifyLast_modifyLast, indent_appendFrags]
  simp only [Except.ok.injEq, Prod.mk.injEq, EmitterVisitorContext.mk.injEq]
  refine ⟨⟨trivial, trivial, ?_⟩, by simp [List.append_assoc]⟩
  apply modifyLast_congr_getLast
  intro l hl
  rw [hlast l hl]
  simp [List.replicate_succ]

theorem emitExpr_literalMap_one (M : EmitterCfg) (entry : String × Bool × Expr)
    (ef : List String) (he : EntryEmitsInline M entry ef) (s : EmitSt)
    (hlast : ∀ l ∈ s.1.lines.getLast?, l.indent = s.1.indent) :
    ∃ ops, emitExpr M (.literalMap [entry]) s = Except.ok
      (appendFrags s.1 ("\x7b" :: (ef ++ ["\x7d"])), s.2 ++ ops) := by
  obtain ⟨hne, hev⟩ := he
  simp only [emitExpr]
  have hNL : (decide (([entry] : List (String × Bool × Expr)).length > 1)) = false := rfl
  rw [hNL]
  rw [printT_false_eq s "\x7b" (by decide)]
  simp only [incIndentT, incIndent_eq, indent_appendFrags, exported_appendFrags]
  simp only [emitMapEntries]
  obtain ⟨o1, h1⟩ := hev
    ({ exportedVars := s.1.exportedVars
       indent := s.1.indent + 1
       lines := modifyLast (fun l => { indent := s.1.indent + 1, parts := l.parts, srcSpans := l.srcSpans }) (appendFrags s.1 ["\x7b"]).lines },
     s.2 ++ [COp.print "\x7b" false] ++ [COp.incIndent])
  rw [h1]
  simp only [bind_ok_emit]
  simp only [emitMapEntriesRest]
  simp only [Bool.false_eq_true, if_false, pure_eq_ok, bind_ok_emit]
  simp only [decIndentT, decIndent_eq, indent_appendFrags, exported_appendFrags,
    add_sub_cancel_right]
  rw [printT_false_eq _ "\x7d" (by decide)]
  refine ⟨[COp.print "\x7b" false, COp.incIndent] ++ (o1 ++ [COp.decIndent, COp.print "\x7d" false]), ?_⟩
  simp only [appendFrags, modifyLast_modifyLast, indent_appendFrags]
  simp only [Except.ok.injEq, Prod.mk.injEq, EmitterVisitorContext.mk.injEq]
  refine ⟨⟨trivial, trivial, ?_⟩, by simp [List.append_assoc]⟩
  apply modifyLast_congr_getLast
  intro l hl
  rw [hlast l hl]
  simp only [List.length_singleton, List.length_cons, List.length_append,
    EmittedLine.mk.injEq]
  refine ⟨by trivial, by simp, ?_⟩
  simp [List.replicate_succ, List.replicate_add, List.append_assoc]
  rw [← List.replicate_succ, ← List.replicate_succ']

theorem emitMapEntriesRest_block (M : EmitterCfg) (es : List (String × Bool × Expr))
    (fss : List (List String))
    (h : List.Forall₂ (EntryEmitsInline M) es fss) :
    es ≠ [] → ∀ s : EmitSt, ∃ ops, emitMapEntriesRest M es "," true s = Except.ok
      ({ exportedVars := s.1.exportedVars, indent := s.1.indent,
         lines := modifyLast (fun l =>
             { l with parts := l.parts ++ [","], srcSpans := l.srcSpans ++ [none] })
           s.1.lines ++ blockLines s.1.indent fss }, s.2 ++ ops) := by
  induction h with
  | nil => intro hne; exact absurd rfl hne
  | @cons e f es fss hfe hrest ih =>
    intro _ s
    obtain ⟨o1, h1⟩ := hfe.2 (newLineCtx (appendFrags s.1 [","]), s.2 ++ [COp.print "," true])
    cases es with
    | nil =>
      cases hrest
      refine ⟨COp.print "," true :: o1, ?_⟩
      simp only [emitMapEntriesRest]
      rw [printT_true_eq s "," (by decide), h1]
      simp only [bind_ok_emit, pure_eq_ok]
      simp [appendFrags, newLineCtx, modifyLast_concat, blockLines]
    | cons e2 est =>
      have hne2 : e2 :: est ≠ [] := by simp
      have hfssne : fss ≠ [] := by cases hrest; simp
      obtain ⟨o2, h2⟩ := ih hne2
        (appendFrags (newLineCtx (appendFrags s.1 [","])) f,
         (s.2 ++ [COp.print "," true]) ++ o1)
      refine ⟨COp.print "," true :: (o1 ++ o2), ?_⟩
      rw [show emitMapEntriesRest M (e :: e2 :: est) "," true s = (do
        let s := printT s "," true
        let s ← emitMapEntry M e s
        emitMapEntriesRest M (e2 :: est) "," true s) from rfl]
      rw [printT_true_eq s "," (by decide)]
      simp only []
      rw [h1]
      simp only [bind_ok_emit]
      rw [h2]
      simp only [indent_appendFrags, indent_newLineCtx, exported_appendFrags,
        exported_newLineCtx]
      simp only [Except.ok.injEq, Prod.mk.injEq, EmitterVisitorContext.mk.injEq]
      refine ⟨⟨trivial, trivial, ?_⟩, by simp [List.append_assoc]⟩
      rw [blockLines_cons_ne_nil s.1.indent f fss hfssne]
      simp [appendFrags, newLineCtx, modifyLast_concat, modifyLast_modifyLast,
        List.append_assoc]

theorem emitExpr_literalMap_block (M : EmitterCfg) (e1 e2 : String × Bool × Expr)
    (es : List (String × Bool × Expr))
    (f1 f2 : List String) (fss : List (List String))
    (h1 : EntryEmitsInline M e1 f1) (h2 : EntryEmitsInline M e2 f2)
    (h : List.Forall₂ (EntryEmitsInline M) es fss) (s : EmitSt) :
    ∃ ops, emitExpr M (.literalMap (e1 :: e2 :: es)) s = Except.ok
      ({ exportedVars := s.1.exportedVars, indent := s.1.indent,
         lines := (appendFrags s.1 ["\x7b"]).lines ++
           (blockLines (s.1.indent + 1) (f1 :: f2 :: fss) ++
             [⟨s.1.indent, ["\x7d"], [none]⟩, ⟨s.1.indent, [], []⟩]) }, s.2 ++ ops) := by
  have hNL : (decide ((e1 :: e2 :: es).length > 1)) = true := by simp
  obtain ⟨o1, ho1⟩ := h1.2
    ({ exportedVars := s.1.exportedVars
       indent := s.1.indent + 1
       lines := (appendFrags s.1 ["\x7b"]).lines ++ [⟨s.1.indent + 1, [], []⟩] },
     s.2 ++ [COp.print "\x7b" true] ++ [COp.incIndent])
  obtain ⟨o2, ho2⟩ := emitMapEntriesRest_block M (e2 :: es) (f2 :: fss)
    (List.Forall₂.cons h2 h) (by simp)
    (appendFrags
       { exportedVars := s.1.exportedVars
         indent := s.1.indent + 1
         lines := (appendFrags s.1 ["\x7b"]).lines ++ [⟨s.1.indent + 1, [], []⟩] }
       f1,
     (s.2 ++ [COp.print "\x7b" true] ++ [COp.incIndent]) ++ o1)
  refine ⟨COp.print "\x7b" true :: COp.incIndent :: (o1 ++ (o2 ++
    [COp.print "" true, COp.decIndent, COp.print "\x7d" true])), ?_⟩
  simp only [emitExpr]
  rw [hNL]
  rw [printT_true_eq s "\x7b" (by decide)]
  simp only [incIndentT]
  rw [incIndent_newLineCtx]
  simp only [indent_appendFrags, exported_appendFrags]
  simp only [emitMapEntries]
  rw [ho1]
  simp only [bind_ok_emit]
  rw [ho2]
  simp only [bind_ok_emit]
  simp only [if_true]
  rw [printlnT_empty_eq]
  simp only [indent_appendFrags, exported_appendFrags]
  simp only [pure_eq_ok, bind_ok_emit]
  simp only [decIndentT]
  rw [decIndent_newLineCtx]
  simp only [indent_appendFrags, exported_appendFrags, add_sub_cancel_right]
  rw [printT_true_eq _ "\x7d" (by decide)]
  simp only [indent_appendFrags, exported_appendFrags]
  simp only [Except.ok.injEq, Prod.mk.injEq]
  refine ⟨?_, by simp [List.append_assoc]⟩
  simp only [newLineCtx, appendFrags, modifyLast_concat, modifyLast_modifyLast,
    indent_appendFrags]
  simp only [EmitterVisitorContext.mk.injEq]
  refine ⟨trivial, trivial, ?_⟩
  rw [blockLines_cons_ne_nil (s.1.indent + 1) f1 (f2 :: fss) (by simp)]
  simp [List.append_assoc, List.replicate_succ]

/-- C7: a literal array or map with zero or one element renders inline on
the current line (the surrounding incIndent/decIndent pair cancels,
provided the in-progress line's recorded indent agrees with the counter,
as it always does for lines the engine itself opened); with more than one
element it renders as a block — opening bracket, then one element per
line at one extra indent level with a trailing comma on every line but
the last (blockLines), then the closing bracket on its own line at the
outer indent.  Concretely: [] renders [], a one-entry array renders [1],
two and three entries render as 4- and 5-line blocks with no separator
after the last element, and maps behave the same with brace delimiters
and key: value entries. -/
theorem C7_collectionLayout :
    (∀ (M : EmitterCfg) (s : EmitSt),
        (∀ l ∈ s.1.lines.getLast?, l.indent = s.1.indent) →
        ∃ ops, emitExpr M (.literalArray []) s = Except.ok
          (appendFrags s.1 ["[", "]"], s.2 ++ ops)) ∧
    (∀ (M : EmitterCfg) (e : Expr) (ef : List String), EmitsInline M e ef →
        ∀ s : EmitSt, (∀ l ∈ s.1.lines.getLast?, l.indent = s.1.indent) →
        ∃ ops, emitExpr M (.literalArray [e]) s = Except.ok
          (appendFrags s.1 ("[" :: (ef ++ ["]"])), s.2 ++ ops)) ∧
    (∀ (M : EmitterCfg) (e1 e2 : Expr) (es : List Expr)
        (f1 f2 : List String) (fss : List (List String)),
        EmitsInline M e1 f1 → EmitsInline M e2 f2 →
        List.Forall₂ (EmitsInline M) es fss → ∀ s : EmitSt,
        ∃ ops, emitExpr M (.literalArray (e1 :: e2 :: es)) s = Except.ok
          ({ exportedVars := s.1.exportedVars, indent := s.1.indent,
             lines := (appendFrags s.1 ["["]).lines ++
               (blockLines (s.1.indent + 1) (f1 :: f2 :: fss) ++
                 [⟨s.1.indent, ["]"], [none]⟩, ⟨s.1.indent, [], []⟩]) }, s.2 ++ ops)) ∧
    (∀ (M : EmitterCfg) (s : EmitSt),
        (∀ l ∈ s.1.lines.getLast?, l.indent = s.1.indent) →
        ∃ ops, emitExpr M (.literalMap []) s = Except.ok
          (appendFrags s.1 ["\x7b", "\x7d"], s.2 ++ ops)) ∧
    (∀ (M : EmitterCfg) (entry : String × Bool × Expr) (ef : List String),
        EntryEmitsInline M entry ef →
        ∀ s : EmitSt, (∀ l ∈ s.1.lines.getLast?, l.indent = s.1.indent) →
        ∃ ops, emitExpr M (.literalMap [entry]) s = Except.ok
          (appendFrags s.1 ("\x7b" :: (ef ++ ["\x7d"])), s.2 ++ ops)) ∧
    (∀ (M : EmitterCfg) (e1 e2 : String × Bool × Expr)
        (es : List (String × Bool × Expr))
        (f1 f2 : List String) (fss : List (List String)),
        EntryEmitsInline M e1 f1 → EntryEmitsInline M e2 f2 →
        List.Forall₂ (EntryEmitsInline M) es fss → ∀ s : EmitSt,
        ∃ ops, emitExpr M (.literalMap (e1 :: e2 :: es)) s = Except.ok
          ({ exportedVars := s.1.exportedVars, indent := s.1.indent,
             lines := (appendFrags s.1 ["\x7b"]).lines ++
               (blockLines (s.1.indent + 1) (f1 :: f2 :: fss) ++
                 [⟨s.1.indent, ["\x7d"], [none]⟩, ⟨s.1.indent, [], []⟩]) }, s.2 ++ ops)) ∧
    resultText (emitExpr defaultCfg (.literalArray []) rootSt) = "[]" ∧
    resultText (emitExpr defaultCfg (.literalArray [.literal (.num 1)]) rootSt) = "[1]" ∧
    resultText (emitExpr defaultCfg
      (.literalArray [.literal (.num 1), .literal (.num 2)]) rootSt) =
      "[\n  1,\n  2\n]" ∧
    resultText (emitExpr defaultCfg
      (.literalArray [.literal (.num 1), .literal (.num 2), .literal (.num 3)]) rootSt) =
      "[\n  1,\n  2,\n  3\n]" ∧
    resultText (emitExpr defaultCfg
      (.literalMap [("a", false, .literal (.num 1))]) rootSt) = "\x7ba: 1\x7d" ∧
    resultText (emitExpr defaultCfg
      (.literalMap [("a", false, .literal (.num 1)), ("b", false, .literal (.num 2))])
      rootSt) = "\x7b\n  a: 1,\n  b: 2\n\x7d" := by
  refine ⟨?_, ?_, ?_, ?_, ?_, ?_,
    by decide, by decide, by decide, by decide, by decide, by decide⟩
  · intro M s hlast
    exact emitExpr_literalArray_nil M s hlast
  · intro M e ef he s hlast
    exact emitExpr_literalArray_one M e ef he s hlast
  · intro M e1 e2 es f1 f2 fss h1 h2 h s
    exact emitExpr_literalArray_block M e1 e2 es f1 f2 fss h1 h2 h s
  · intro M s hlast
    exact emitExpr_literalMap_nil M s hlast
  · intro M entry ef he s hlast
    exact emitExpr_literalMap_one M entry ef he s hlast
  · intro M e1 e2 es f1 f2 fss h1 h2 h s
    exact emitExpr_literalMap_block M e1 e2 es f1 f2 fss h1 h2 h s

/-- Witness for C7_collectionLayout: the inline and block parts at
concrete inputs from the root state. -/
theorem C7_collectionLayout_witness :
    (∃ ops, emitExpr defaultCfg (.literalArray [.readVar "a" none]) rootSt = Except.ok
      (appendFrags rootSt.1 ("[" :: (["a"] ++ ["]"])), rootSt.2 ++ ops)) ∧
    (∃ ops, emitExpr defaultCfg
        (.literalArray [.readVar "a" none, .readVar "b" none]) rootSt = Except.ok
      ({ exportedVars := rootSt.1.exportedVars, indent := rootSt.1.indent,
         lines := (appendFrags rootSt.1 ["["]).lines ++
           (blockLines (rootSt.1.indent + 1) [["a"], ["b"]] ++
             [⟨rootSt.1.indent, ["]"], [none]⟩, ⟨rootSt.1.indent, [], []⟩]) },
       rootSt.2 ++ ops)) ∧
    (∃ ops, emitExpr defaultCfg
        (.literalMap [("k", false, .readVar "a" none)]) rootSt = Except.ok
      (appendFrags rootSt.1
        ("\x7b" :: (((escapeIdentifier "k" defaultCfg.escapeDollarInStrings false ++ ": ")
          :: ["a"]) ++ ["\x7d"])), rootSt.2 ++ ops)) :=
  ⟨C7_collectionLayout.2.1 defaultCfg (.readVar "a" none) ["a"]
      (emitsInline_readVar defaultCfg "a" (by decide)) rootSt (by decide),
   C7_collectionLayout.2.2.1 defaultCfg (.readVar "a" none) (.readVar "b" none) []
      ["a"] ["b"] [] (emitsInline_readVar defaultCfg "a" (by decide))
      (emitsInline_readVar defaultCfg "b" (by decide)) List.Forall₂.nil rootSt,
   C7_collectionLayout.2.2.2.2.1 defaultCfg ("k", false, .readVar "a" none)
      ((escapeIdentifier "k" defaultCfg.escapeDollarInStrings false ++ ": ") :: ["a"])
      (entryEmitsInline_mk defaultCfg "k" false (.readVar "a" none) ["a"]
        (emitsInline_readVar defaultCfg "a" (by decide))) rootSt (by decide)⟩


mutual
/-- All builtin-variable tags are among the four recognized ones and all
binary operators are in the fixed table, recursively (a sufficient
condition for total rendering; arguments of an elided builtin method
call are never visited, so this is not necessary). -/
def exprWellTagged : Expr → Bool
  | .readVar _ builtin =>
    match builtin with
    | none => true
    | some b => decide (b < 4)
  | .writeVar _ value => exprWellTagged value
  | .writeKey receiver index value =>
    exprWellTagged receiver && (exprWellTagged index && exprWellTagged value)
  | .writeProp receiver _ value => exprWellTagged receiver && exprWellTagged value
  | .invokeMethod receiver _ _ args => exprWellTagged receiver && exprsWellTagged args
  | .invokeFunction fn args => exprWellTagged fn && exprsWellTagged args
  | .instantiate classExpr args => exprWellTagged classExpr && exprsWellTagged args
  | .literal _ => true
  | .literalArray entries => exprsWellTagged entries
  | .literalMap entries => entriesWellTagged entries
  | .conditional c t f => exprWellTagged c && (exprWellTagged t && exprWellTagged f)
  | .notExpr c => exprWellTagged c
  | .binaryOp op lhs rhs =>
    decide (op < 15) && (exprWellTagged lhs && exprWellTagged rhs)
  | .readProp receiver _ => exprWellTagged receiver
  | .readKey receiver index => exprWellTagged receiver && exprWellTagged index

/-- exprWellTagged over a list. -/
def exprsWellTagged : List Expr → Bool
  | [] => true
  | e :: rest => exprWellTagged e && exprsWellTagged rest

/-- exprWellTagged over map-entry values. -/
def entriesWellTagged : List (String × Bool × Expr) → Bool
  | [] => true
  | (_, _, v) :: rest => exprWellTagged v && entriesWellTagged rest
end

mutual
/-- Statement-level well-taggedness. -/
def stmtWellTagged : Stmt → Bool
  | .expressionStmt e => exprWellTagged e
  | .returnStmt v => exprWellTagged v
  | .ifStmt c tc fc => exprWellTagged c && (stmtsWellTagged tc && stmtsWellTagged fc)
  | .throwStmt e => exprWellTagged e
  | .commentStmt _ => true

/-- stmtWellTagged over a list. -/
def stmtsWellTagged : List Stmt → Bool
  | [] => true
  | st :: rest => stmtWellTagged st && stmtsWellTagged rest
end

/-- The only two diagnostic shapes the engine can raise. -/
def ErrShape (msg : String) : Prop :=
  (∃ n : Nat, msg = "Unknown builtin variable " ++ toString n) ∨
  (∃ n : Nat, msg = "Unknown operator " ++ toString n)

theorem error_bind_emit {α β : Type} (a : Except String α) (f : α → Except String β)
    (msg : String) (h : (a >>= f) = Except.error msg) :
    a = Except.error msg ∨ ∃ t, a = Except.ok t ∧ f t = Except.error msg := by
  cases a with
  | ok v => exact Or.inr ⟨v, rfl, h⟩
  | error e =>
    refine Or.inl ?_
    rw [show ((Except.error e : Except String α) >>= f) =
      (Except.error e : Except String β) from rfl] at h
    injection h with h2
    rw [h2]

theorem exists_ok_bind {α β : Type} {a : Except String α} {f : α → Except String β}
    (h1 : ∃ t, a = Except.ok t) (h2 : ∀ t, ∃ u, f t = Except.ok u) :
    ∃ u, (a >>= f) = Except.ok u := by
  obtain ⟨t, ht⟩ := h1
  obtain ⟨u, hu⟩ := h2 t
  exact ⟨u, by rw [ht]; exact hu⟩

theorem throw_eq_error (msg : String) : (throw msg : EmitRes) = Except.error msg := rfl

theorem emit_error_shape (M : EmitterCfg) : ∀ N : Nat,
    (∀ e : Expr, sizeOf e < N → ∀ s msg, emitExpr M e s = Except.error msg → ErrShape msg) ∧
    (∀ es : List Expr, sizeOf es < N → ∀ sep nl s msg,
        emitExprs M es sep nl s = Except.error msg → ErrShape msg) ∧
    (∀ es : List Expr, sizeOf es < N → ∀ sep nl s msg,
        emitExprsRest M es sep nl s = Except.error msg → ErrShape msg) ∧
    (∀ en : String × Bool × Expr, sizeOf en < N → ∀ s msg,
        emitMapEntry M en s = Except.error msg → ErrShape msg) ∧
    (∀ ens : List (String × Bool × Expr), sizeOf ens < N → ∀ sep nl s msg,
        emitMapEntries M ens sep nl s = Except.error msg → ErrShape msg) ∧
    (∀ ens : List (String × Bool × Expr), sizeOf ens < N → ∀ sep nl s msg,
        emitMapEntriesRest M ens sep nl s = Except.error msg → ErrShape msg) ∧
    (∀ st : Stmt, sizeOf st < N → ∀ s msg, emitStmt M st s = Except.error msg → ErrShape msg) ∧
    (∀ sts : List Stmt, sizeOf sts < N → ∀ s msg,
        emitStmts M sts s = Except.error msg → ErrShape msg) := by
  intro N
  induction N with
  | zero =>
    refine ⟨fun _ hs => absurd hs (Nat.not_lt_zero _),
      fun _ hs => absurd hs (Nat.not_lt_zero _),
      fun _ hs => absurd hs (Nat.not_lt_zero _),
      fun _ hs => absurd hs (Nat.not_lt_zero _),
      fun _ hs => absurd hs (Nat.not_lt_zero _),
      fun _ hs => absurd hs (Nat.not_lt_zero _),
      fun _ hs => absurd hs (Nat.not_lt_zero _),
      fun _ hs => absurd hs (Nat.not_lt_zero _)⟩
  | succ N ih =>
    obtain ⟨ihE, ihEs, ihEsR, ihEn, ihEns, ihEnsR, ihSt, ihSts⟩ := ih
    refine ⟨?_, ?_, ?_, ?_, ?_, ?_, ?_, ?_⟩
    · intro e hs s msg h
      cases e with
      | readVar name builtin =>
        cases builtin with
        | none => simp [emitExpr] at h
        | some b =>
          simp only [emitExpr] at h
          split at h
          · simp at h
          · split at h
            · simp at h
            · split at h
              · simp at h
              · split at h
                · simp at h
                · rw [throw_eq_error] at h
                  injection h with h2
                  exact Or.inl ⟨b, h2.symm⟩
      | writeVar name value =>
        simp only [emitExpr] at h
        rcases error_bind_emit _ _ _ h with h | ⟨t, ht, h⟩
        · exact ihE value (by simp at hs; omega) _ _ h
        · simp at h
      | writeKey receiver index value =>
        simp only [emitExpr] at h
        rcases error_bind_emit _ _ _ h with h | ⟨t, ht, h⟩
        · exact ihE receiver (by simp at hs; omega) _ _ h
        · rcases error_bind_emit _ _ _ h with h | ⟨u, hu, h⟩
          · exact ihE index (by simp at hs; omega) _ _ h
          · rcases error_bind_emit _ _ _ h with h | ⟨v, hv, h⟩
            · exact ihE value (by simp at hs; omega) _ _ h
            · simp at h
      | writeProp receiver name value =>
        simp only [emitExpr] at h
        rcases error_bind_emit _ _ _ h with h | ⟨t, ht, h⟩
        · exact ihE receiver (by simp at hs; omega) _ _ h
        · rcases error_bind_emit _ _ _ h with h | ⟨u, hu, h⟩
          · exact ihE value (by simp at hs; omega) _ _ h
          · simp at h
      | invokeMethod receiver name builtin args =>
        simp only [emitExpr] at h
        rcases error_bind_emit _ _ _ h with h | ⟨t, ht, h⟩
        · exact ihE receiver (by simp at hs; omega) _ _ h
        · cases builtin with
          | none =>
            simp only [] at h
            rcases error_bind_emit _ _ _ h with h | ⟨u, hu, h⟩
            · exact ihEs args (by simp at hs; omega) _ _ _ _ h
            · simp at h
          | some b =>
            cases hres : M.getBuiltinMethodName b with
            | none => simp only [hres] at h; simp at h
            | some n =>
              simp only [hres] at h
              rcases error_bind_emit _ _ _ h with h | ⟨u, hu, h⟩
              · exact ihEs args (by simp at hs; omega) _ _ _ _ h
              · simp at h
      | invokeFunction fn args =>
        simp only [emitExpr] at h
        rcases error_bind_emit _ _ _ h with h | ⟨t, ht, h⟩
        · exact ihE fn (by simp at hs; omega) _ _ h
        · rcases error_bind_emit _ _ _ h with h | ⟨u, hu, h⟩
          · exact ihEs args (by simp at hs; omega) _ _ _ _ h
          · simp at h
      | instantiate classExpr args =>
        simp only [emitExpr] at h
        rcases error_bind_emit _ _ _ h with h | ⟨t, ht, h⟩
        · exact ihE classExpr (by simp at hs; omega) _ _ h
        · rcases error_bind_emit _ _ _ h with h | ⟨u, hu, h⟩
          · exact ihEs args (by simp at hs; omega) _ _ _ _ h
          · simp at h
      | literal v =>
        cases v with
        | str str => simp [emitExpr] at h
        | num n => simp [emitExpr] at h
      | literalArray entries =>
        simp only [emitExpr] at h
        rcases error_bind_emit _ _ _ h with h | ⟨t, ht, h⟩
        · exact ihEs entries (by simp at hs; omega) _ _ _ _ h
        · simp at h
      | literalMap entries =>
        simp only [emitExpr] at h
        rcases error_bind_emit _ _ _ h with h | ⟨t, ht, h⟩
        · exact ihEns entries (by simp at hs; omega) _ _ _ _ h
        · simp at h
      | conditional c t f =>
        simp only [emitExpr] at h
        rcases error_bind_emit _ _ _ h with h | ⟨t1, ht1, h⟩
        · exact ihE c (by simp at hs; omega) _ _ h
        · rcases error_bind_emit _ _ _ h with h | ⟨t2, ht2, h⟩
          · exact ihE t (by simp at hs; omega) _ _ h
          · rcases error_bind_emit _ _ _ h with h | ⟨t3, ht3, h⟩
            · exact ihE f (by simp at hs; omega) _ _ h
            · simp at h
      | notExpr c =>
        simp only [emitExpr] at h
        exact ihE c (by simp at hs; omega) _ _ h
      | binaryOp op lhs rhs =>
        simp only [emitExpr] at h
        cases hop : binOpStr op with
        | none =>
          simp only [hop] at h
          rw [throw_eq_error] at h
          injection h with h2
          exact Or.inr ⟨op, h2.symm⟩
        | some opStr =>
          simp only [hop] at h
          rcases error_bind_emit _ _ _ h with h | ⟨t, ht, h⟩
          · exact ihE lhs (by simp at hs; omega) _ _ h
          · rcases error_bind_emit _ _ _ h with h | ⟨u, hu, h⟩
            · exact ihE rhs (by simp at hs; omega) _ _ h
            · simp at h
      | readProp receiver name =>
        simp only [emitExpr] at h
        rcases error_bind_emit _ _ _ h with h | ⟨t, ht, h⟩
        · exact ihE receiver (by simp at hs; omega) _ _ h
        · simp at h
      | readKey receiver index =>
        simp only [emitExpr] at h
        rcases error_bind_emit _ _ _ h with h | ⟨t, ht, h⟩
        · exact ihE receiver (by simp at hs; omega) _ _ h
        · rcases error_bind_emit _ _ _ h with h | ⟨u, hu, h⟩
          · exact ihE index (by simp at hs; omega) _ _ h
          · simp at h
    · intro es hs sep nl s msg h
      cases es with
      | nil =>
        simp only [emitExprs] at h
        rcases error_bind_emit _ _ _ h with h | ⟨t, ht, h⟩
        · simp at h
        · split at h <;> simp at h
      | cons e rest =>
        simp only [emitExprs] at h
        rcases error_bind_emit _ _ _ h with h | ⟨t, ht, h⟩
        · rcases error_bind_emit _ _ _ h with h | ⟨u, hu, h⟩
          · exact ihE e (by simp at hs; omega) _ _ h
          · exact ihEsR rest (by simp at hs; omega) _ _ _ _ h
        · split at h <;> simp at h
    · intro es hs sep nl s msg h
      cases es with
      | nil => simp [emitExprsRest] at h
      | cons e rest =>
        simp only [emitExprsRest] at h
        rcases error_bind_emit _ _ _ h with h | ⟨t, ht, h⟩
        · exact ihE e (by simp at hs; omega) _ _ h
        · exact ihEsR rest (by simp at hs; omega) _ _ _ _ h
    · intro en hs s msg h
      obtain ⟨k, q, v⟩ := en
      simp only [emitMapEntry] at h
      exact ihE v (by simp at hs; omega) _ _ h
    · intro ens hs sep nl s msg h
      cases ens with
      | nil =>
        simp only [emitMapEntries] at h
        rcases error_bind_emit _ _ _ h with h | ⟨t, ht, h⟩
        · simp at h
        · split at h <;> simp at h
      | cons en rest =>
        simp only [emitMapEntries] at h
        rcases error_bind_emit _ _ _ h with h | ⟨t, ht, h⟩
        · rcases error_bind_emit _ _ _ h with h | ⟨u, hu, h⟩
          · exact ihEn en (by simp at hs; omega) _ _ h
          · exact ihEnsR rest (by simp at hs; omega) _ _ _ _ h
        · split at h <;> simp at h
    · intro ens hs sep nl s msg h
      cases ens with
      | nil => simp [emitMapEntriesRest] at h
      | cons en rest =>
        simp only [emitMapEntriesRest] at h
        rcases error_bind_emit _ _ _ h with h | ⟨t, ht, h⟩
        · exact ihEn en (by simp at hs; omega) _ _ h
        · exact ihEnsR rest (by simp at hs; omega) _ _ _ _ h
    · intro st hs s msg h
      cases st with
      | expressionStmt e =>
        simp only [emitStmt] at h
        rcases error_bind_emit _ _ _ h with h | ⟨t, ht, h⟩
        · exact ihE e (by simp at hs; omega) _ _ h
        · simp at h
      | returnStmt v =>
        simp only [emitStmt] at h
        rcases error_bind_emit _ _ _ h with h | ⟨t, ht, h⟩
        · exact ihE v (by simp at hs; omega) _ _ h
        · simp at h
      | ifStmt cond tc fc =>
        simp only [emitStmt] at h
        rcases error_bind_emit _ _ _ h with h | ⟨t, ht, h⟩
        · exact ihE cond (by simp at hs; omega) _ _ h
        · rcases error_bind_emit _ _ _ h with h | ⟨u, hu, h⟩
          · split at h
            · rcases error_bind_emit _ _ _ h with h | ⟨v, hv, h⟩
              · exact ihSts tc (by simp at hs; omega) _ _ h
              · simp at h
            · rcases error_bind_emit _ _ _ h with h | ⟨v, hv, h⟩
              · exact ihSts tc (by simp at hs; omega) _ _ h
              · split at h
                · rcases error_bind_emit _ _ _ h with h | ⟨w, hw, h⟩
                  · exact ihSts fc (by simp at hs; omega) _ _ h
                  · simp at h
                · simp at h
          · simp at h
      | throwStmt e =>
        simp only [emitStmt] at h
        rcases error_bind_emit _ _ _ h with h | ⟨t, ht, h⟩
        · exact ihE e (by simp at hs; omega) _ _ h
        · simp at h
      | commentStmt c => simp [emitStmt] at h
    · intro sts hs s msg h
      cases sts with
      | nil => simp [emitStmts] at h
      | cons st rest =>
        simp only [emitStmts] at h
        rcases error_bind_emit _ _ _ h with h | ⟨t, ht, h⟩
        · exact ihSt st (by simp at hs; omega) _ _ h
        · exact ihSts rest (by simp at hs; omega) _ _ h

theorem emit_ok_of_wellTagged (M : EmitterCfg) : ∀ N : Nat,
    (∀ e : Expr, sizeOf e < N → exprWellTagged e = true →
        ∀ s, ∃ t, emitExpr M e s = Except.ok t) ∧
    (∀ es : List Expr, sizeOf es < N → exprsWellTagged es = true →
        ∀ sep nl s, ∃ t, emitExprs M es sep nl s = Except.ok t) ∧
    (∀ es : List Expr, sizeOf es < N → exprsWellTagged es = true →
        ∀ sep nl s, ∃ t, emitExprsRest M es sep nl s = Except.ok t) ∧
    (∀ en : String × Bool × Expr, sizeOf en < N → exprWellTagged en.2.2 = true →
        ∀ s, ∃ t, emitMapEntry M en s = Except.ok t) ∧
    (∀ ens : List (String × Bool × Expr), sizeOf ens < N → entriesWellTagged ens = true →
        ∀ sep nl s, ∃ t, emitMapEntries M ens sep nl s = Except.ok t) ∧
    (∀ ens : List (String × Bool × Expr), sizeOf ens < N → entriesWellTagged ens = true →
        ∀ sep nl s, ∃ t, emitMapEntriesRest M ens sep nl s = Except.ok t) ∧
    (∀ st : Stmt, sizeOf st < N → stmtWellTagged st = true →
        ∀ s, ∃ t, emitStmt M st s = Except.ok t) ∧
    (∀ sts : List Stmt, sizeOf sts < N → stmtsWellTagged sts = true →
        ∀ s, ∃ t, emitStmts M sts s = Except.ok t) := by
  intro N
  induction N with
  | zero =>
    refine ⟨fun _ hs => absurd hs (Nat.not_lt_zero _),
      fun _ hs => absurd hs (Nat.not_lt_zero _),
      fun _ hs => absurd hs (Nat.not_lt_zero _),
      fun _ hs => absurd hs (Nat.not_lt_zero _),
      fun _ hs => absurd hs (Nat.not_lt_zero _),
      fun _ hs => absurd hs (Nat.not_lt_zero _),
      fun _ hs => absurd hs (Nat.not_lt_zero _),
      fun _ hs => absurd hs (Nat.not_lt_zero _)⟩
  | succ N ih =>
    obtain ⟨ihE, ihEs, ihEsR, ihEn, ihEns, ihEnsR, ihSt, ihSts⟩ := ih
    refine ⟨?_, ?_, ?_, ?_, ?_, ?_, ?_, ?_⟩
    · intro e hs wt s
      cases e with
      | readVar name builtin =>
        cases builtin with
        | none => exact ⟨printT s name false, rfl⟩
        | some b =>
          simp only [exprWellTagged] at wt
          have hb : b < 4 := by simpa using wt
          interval_cases b <;> exact ⟨_, rfl⟩
      | writeVar name value =>
        simp only [exprWellTagged] at wt
        simp only [emitExpr]
        exact exists_ok_bind (ihE value (by simp at hs; omega) wt _)
          (fun t => ⟨_, rfl⟩)
      | writeKey receiver index value =>
        simp only [exprWellTagged, Bool.and_eq_true] at wt
        simp only [emitExpr]
        refine exists_ok_bind (ihE receiver (by simp at hs; omega) wt.1 _) (fun t => ?_)
        refine exists_ok_bind (ihE index (by simp at hs; omega) wt.2.1 _) (fun u => ?_)
        exact exists_ok_bind (ihE value (by simp at hs; omega) wt.2.2 _)
          (fun v => ⟨_, rfl⟩)
      | writeProp receiver name value =>
        simp only [exprWellTagged, Bool.and_eq_true] at wt
        simp only [emitExpr]
        refine exists_ok_bind (ihE receiver (by simp at hs; omega) wt.1 _) (fun t => ?_)
        exact exists_ok_bind (ihE value (by simp at hs; omega) wt.2 _)
          (fun v => ⟨_, rfl⟩)
      | invokeMethod receiver name builtin args =>
        simp only [exprWellTagged, Bool.and_eq_true] at wt
        simp only [emitExpr]
        refine exists_ok_bind (ihE receiver (by simp at hs; omega) wt.1 _) (fun t => ?_)
        cases builtin with
        | none =>
          simp only []
          exact exists_ok_bind (ihEs args (by simp at hs; omega) wt.2 _ _ _)
            (fun u => ⟨_, rfl⟩)
        | some b =>
          cases hres : M.getBuiltinMethodName b with
          | none =>
            simp only [hres, pure_eq_ok]
            exact ⟨t, rfl⟩
          | some n =>
            simp only [hres]
            exact exists_ok_bind (ihEs args (by simp at hs; omega) wt.2 _ _ _)
              (fun u => ⟨_, rfl⟩)
      | invokeFunction fn args =>
        simp only [exprWellTagged, Bool.and_eq_true] at wt
        simp only [emitExpr]
        refine exists_ok_bind (ihE fn (by simp at hs; omega) wt.1 _) (fun t => ?_)
        exact exists_ok_bind (ihEs args (by simp at hs; omega) wt.2 _ _ _)
          (fun u => ⟨_, rfl⟩)
      | instantiate classExpr args =>
        simp only [exprWellTagged, Bool.and_eq_true] at wt
        simp only [emitExpr]
        refine exists_ok_bind (ihE classExpr (by simp at hs; omega) wt.1 _) (fun t => ?_)
        exact exists_ok_bind (ihEs args (by simp at hs; omega) wt.2 _ _ _)
          (fun u => ⟨_, rfl⟩)
      | literal v =>
        cases v with
        | str str => exact ⟨_, rfl⟩
        | num n => exact ⟨_, rfl⟩
      | literalArray entries =>
        simp only [exprWellTagged] at wt
        simp only [emitExpr]
        exact exists_ok_bind (ihEs entries (by simp at hs; omega) wt _ _ _)
          (fun t => ⟨_, rfl⟩)
      | literalMap entries =>
        simp only [exprWellTagged] at wt
        simp only [emitExpr]
        exact exists_ok_bind (ihEns entries (by simp at hs; omega) wt _ _ _)
          (fun t => ⟨_, rfl⟩)
      | conditional c t f =>
        simp only [exprWellTagged, Bool.and_eq_true] at wt
        simp only [emitExpr]
        refine exists_ok_bind (ihE c (by simp at hs; omega) wt.1 _) (fun t1 => ?_)
        refine exists_ok_bind (ihE t (by simp at hs; omega) wt.2.1 _) (fun t2 => ?_)
        exact exists_ok_bind (ihE f (by simp at hs; omega) wt.2.2 _)
          (fun t3 => ⟨_, rfl⟩)
      | notExpr c =>
        simp only [exprWellTagged] at wt
        simp only [emitExpr]
        exact ihE c (by simp at hs; omega) wt _
      | binaryOp op lhs rhs =>
        simp only [exprWellTagged, Bool.and_eq_true] at wt
        have hop : op < 15 := by simpa using wt.1
        obtain ⟨opStr, hopStr⟩ := Option.isSome_iff_exists.mp ((binOpStr_isSome_iff op).mpr hop)
        simp only [emitExpr, hopStr]
        refine exists_ok_bind (ihE lhs (by simp at hs; omega) wt.2.1 _) (fun t => ?_)
        exact exists_ok_bind (ihE rhs (by simp at hs; omega) wt.2.2 _)
          (fun u => ⟨_, rfl⟩)
      | readProp receiver name =>
        simp only [exprWellTagged] at wt
        simp only [emitExpr]
        exact exists_ok_bind (ihE receiver (by simp at hs; omega) wt _)
          (fun t => ⟨_, rfl⟩)
      | readKey receiver index =>
        simp only [exprWellTagged, Bool.and_eq_true] at wt
        simp only [emitExpr]
        refine exists_ok_bind (ihE receiver (by simp at hs; omega) wt.1 _) (fun t => ?_)
        exact exists_ok_bind (ihE index (by simp at hs; omega) wt.2 _)
          (fun u => ⟨_, rfl⟩)
    · intro es hs wt sep nl s
      cases es with
      | nil =>
        simp only [emitExprs]
        refine exists_ok_bind ⟨s, rfl⟩ (fun t => ?_)
        split <;> exact ⟨_, rfl⟩
      | cons e rest =>
        simp only [exprsWellTagged, Bool.and_eq_true] at wt
        simp only [emitExprs]
        refine exists_ok_bind ?_ (fun t => ?_)
        · exact exists_ok_bind (ihE e (by simp at hs; omega) wt.1 _)
            (fun t => ihEsR rest (by simp at hs; omega) wt.2 _ _ _)
        · split <;> exact ⟨_, rfl⟩
    · intro es hs wt sep nl s
      cases es with
      | nil => exact ⟨s, rfl⟩
      | cons e rest =>
        simp only [exprsWellTagged, Bool.and_eq_true] at wt
        simp only [emitExprsRest]
        exact exists_ok_bind (ihE e (by simp at hs; omega) wt.1 _)
          (fun t => ihEsR rest (by simp at hs; omega) wt.2 _ _ _)
    · intro en hs wt s
      obtain ⟨k, q, v⟩ := en
      simp only [emitMapEntry]
      exact ihE v (by simp at hs; omega) wt _
    · intro ens hs wt sep nl s
      cases ens with
      | nil =>
        simp only [emitMapEntries]
        refine exists_ok_bind ⟨s, rfl⟩ (fun t => ?_)
        split <;> exact ⟨_, rfl⟩
      | cons en rest =>
        obtain ⟨k, q, v⟩ := en
        simp only [entriesWellTagged, Bool.and_eq_true] at wt
        simp only [emitMapEntries]
        refine exists_ok_bind ?_ (fun t => ?_)
        · exact exists_ok_bind (ihEn (k, q, v) (by simp at hs ⊢; omega) wt.1 _)
            (fun t => ihEnsR rest (by simp at hs; omega) wt.2 _ _ _)
        · split <;> exact ⟨_, rfl⟩
    · intro ens hs wt sep nl s
      cases ens with
      | nil => exact ⟨s, rfl⟩
      | cons en rest =>
        obtain ⟨k, q, v⟩ := en
        simp only [entriesWellTagged, Bool.and_eq_true] at wt
        simp only [emitMapEntriesRest]
        exact exists_ok_bind (ihEn (k, q, v) (by simp at hs ⊢; omega) wt.1 _)
          (fun t => ihEnsR rest (by simp at hs; omega) wt.2 _ _ _)
    · intro st hs wt s
      cases st with
      | expressionStmt e =>
        simp only [stmtWellTagged] at wt
        simp only [emitStmt]
        exact exists_ok_bind (ihE e (by simp at hs; omega) wt _)
          (fun t => ⟨_, rfl⟩)
      | returnStmt v =>
        simp only [stmtWellTagged] at wt
        simp only [emitStmt]
        exact exists_ok_bind (ihE v (by simp at hs; omega) wt _)
          (fun t => ⟨_, rfl⟩)
      | ifStmt cond tc fc =>
        simp only [stmtWellTagged, Bool.and_eq_true] at wt
        simp only [emitStmt]
        refine exists_ok_bind (ihE cond (by simp at hs; omega) wt.1 _) (fun t => ?_)
        refine exists_ok_bind ?_ (fun u => ⟨_, rfl⟩)
        split
        · exact exists_ok_bind (ihSts tc (by simp at hs; omega) wt.2.1 _)
            (fun v => ⟨_, rfl⟩)
        · refine exists_ok_bind (ihSts tc (by simp at hs; omega) wt.2.1 _) (fun v => ?_)
          split
          · exact exists_ok_bind (ihSts fc (by simp at hs; omega) wt.2.2 _)
              (fun w => ⟨_, rfl⟩)
          · exact ⟨_, rfl⟩
      | throwStmt e =>
        simp only [stmtWellTagged] at wt
        simp only [emitStmt]
        exact exists_ok_bind (ihE e (by simp at hs; omega) wt _)
          (fun t => ⟨_, rfl⟩)
      | commentStmt c => exact ⟨_, rfl⟩
    · intro sts hs wt s
      cases sts with
      | nil => exact ⟨s, rfl⟩
      | cons st rest =>
        simp only [stmtsWellTagged, Bool.and_eq_true] at wt
        simp only [emitStmts]
        exact exists_ok_bind (ihSt st (by simp at hs; omega) wt.1 _)
          (fun t => ihSts rest (by simp at hs; omega) wt.2 _)

/-- C6: rendering fails in exactly two ways — every error the engine can
return is either an Unknown builtin variable diagnostic naming the
offending tag or an Unknown operator diagnostic naming the offending
tag (ErrShape); conversely, a term whose read-variable builtin tags are
all among the four recognized ones and whose binary operators are all in
the fixed 15-entry table renders totally, never failing (exprWellTagged
is sufficient; it is not necessary because arguments of an elided
builtin method call are never visited).  Concretely a builtin tag 7
fails with Unknown builtin variable 7 and an operator tag 99 fails with
Unknown operator 99. -/
theorem C6_errorDiscipline :
    (∀ (M : EmitterCfg) (e : Expr) (s : EmitSt) (msg : String),
        emitExpr M e s = Except.error msg → ErrShape msg) ∧
    (∀ (M : EmitterCfg) (st : Stmt) (s : EmitSt) (msg : String),
        emitStmt M st s = Except.error msg → ErrShape msg) ∧
    (∀ (M : EmitterCfg) (e : Expr), exprWellTagged e = true →
        ∀ s : EmitSt, ∃ t, emitExpr M e s = Except.ok t) ∧
    (∀ (M : EmitterCfg) (st : Stmt), stmtWellTagged st = true →
        ∀ s : EmitSt, ∃ t, emitStmt M st s = Except.ok t) ∧
    emitExpr defaultCfg (.readVar "x" (some 7)) rootSt =
      Except.error "Unknown builtin variable 7" ∧
    emitExpr defaultCfg (.binaryOp 99 (.readVar "a" none) (.readVar "b" none)) rootSt =
      Except.error "Unknown operator 99" := by
  refine ⟨?_, ?_, ?_, ?_, by rfl, by rfl⟩
  · intro M e s msg h
    exact (emit_error_shape M (sizeOf e + 1)).1 e (Nat.lt_succ_self _) s msg h
  · intro M st s msg h
    exact (emit_error_shape M (sizeOf st + 1)).2.2.2.2.2.2.1 st (Nat.lt_succ_self _) s msg h
  · intro M e wt s
    exact (emit_ok_of_wellTagged M (sizeOf e + 1)).1 e (Nat.lt_succ_self _) wt s
  · intro M st wt s
    exact (emit_ok_of_wellTagged M (sizeOf st + 1)).2.2.2.2.2.2.1 st (Nat.lt_succ_self _) wt s

/-- Witness for C6_errorDiscipline: both diagnostic shapes realized, and
a well-tagged statement rendering successfully. -/
theorem C6_errorDiscipline_witness :
    ErrShape "Unknown builtin variable 7" ∧ ErrShape "Unknown operator 99" ∧
    (∃ t, emitStmt defaultCfg (.returnStmt
      (.binaryOp 6 (.readVar "a" none) (.readVar "b" none))) rootSt = Except.ok t) :=
  ⟨C6_errorDiscipline.1 defaultCfg (.readVar "x" (some 7)) rootSt
      "Unknown builtin variable 7" (by rfl),
   C6_errorDiscipline.1 defaultCfg (.binaryOp 99 (.readVar "a" none) (.readVar "b" none))
      rootSt "Unknown operator 99" (by rfl),
   C6_errorDiscipline.2.2.2.1 defaultCfg (.returnStmt
      (.binaryOp 6 (.readVar "a" none) (.readVar "b" none))) (by decide) rootSt⟩

/-- The indent movement of one context operation: +1 for incIndent,
-1 for decIndent, 0 otherwise. -/

def opDelta : COp → Int
  | .incIndent => 1
  | .decIndent => -1
  | _ => 0

def netIndent : List COp → Int
  | [] => 0
  | op :: rest => opDelta op + netIndent rest

def minNet : List COp → Int
  | [] => 0
  | op :: rest => min 0 (opDelta op + minNet rest)

theorem netIndent_append (a b : List COp) :
    netIndent (a ++ b) = netIndent a + netIndent b := by
  induction a with
  | nil => simp [netIndent]
  | cons op rest ih => simp [netIndent, ih]; ring

theorem minNet_nonpos (l : List COp) : minNet l ≤ 0 := by
  cases l with
  | nil => simp [minNet]
  | cons op rest => simp [minNet]

theorem minNet_append (a b : List COp) :
    minNet (a ++ b) = min (minNet a) (netIndent a + minNet b) := by
  induction a with
  | nil =>
    simp [minNet, netIndent]
    exact minNet_nonpos b
  | cons op rest ih =>
    simp only [List.cons_append, minNet, netIndent, List.append_eq]
    rw [ih]
    omega

theorem prefix_net_nonneg (o : List COp) (h : minNet o = 0) (a b : List COp)
    (hab : o = a ++ b) : netIndent a ≥ 0 := by
  have h2 := minNet_append a b
  rw [← hab, h] at h2
  have h3 := minNet_nonpos b
  have h4 := minNet_nonpos a
  omega

def Aligned (ctx : EmitterVisitorContext) : Prop :=
  ctx.lines ≠ [] ∧ ∀ l ∈ ctx.lines.getLast?, l.indent = ctx.indent

def SealedAligned (ctx : EmitterVisitorContext) : Prop :=
  ∃ L l0, ctx.lines = L ++ [l0, ⟨ctx.indent, [], []⟩] ∧ l0.indent = ctx.indent

theorem sealedAligned_aligned (ctx : EmitterVisitorContext)
    (h : SealedAligned ctx) : Aligned ctx := by
  obtain ⟨L, l0, hl, hi⟩ := h
  constructor
  · rw [hl]; simp
  · intro l hl2
    rw [hl] at hl2
    simp [List.getLast?_append] at hl2
    rw [← hl2]

theorem aligned_appendFrags (ctx : EmitterVisitorContext) (fr : List String)
    (h : Aligned ctx) : Aligned (appendFrags ctx fr) := by
  obtain ⟨hne, hal⟩ := h
  constructor
  · simp only [appendFrags]
    intro hc
    have h2 := congrArg List.length hc
    rw [length_modifyLast] at h2
    exact hne (List.eq_nil_of_length_eq_zero (by simpa using h2))
  · intro l hl
    simp only [appendFrags, getLast?_modifyLast] at hl
    cases hg : ctx.lines.getLast? with
    | none => rw [hg] at hl; simp at hl
    | some l0 =>
      rw [hg] at hl
      simp at hl
      rw [← hl]
      simpa [appendFrags] using hal l0 (by rw [hg]; rfl)

theorem sealed_newLineCtx (ctx : EmitterVisitorContext) (h : Aligned ctx) :
    SealedAligned (newLineCtx ctx) := by
  obtain ⟨hne, hal⟩ := h
  rcases List.eq_nil_or_concat ctx.lines with hc | ⟨L0, last, hc⟩
  · exact absurd hc hne
  · refine ⟨L0, last, ?_, hal last (by rw [hc]; simp)⟩
    show ctx.lines ++ [⟨ctx.indent, [], []⟩] =
      L0 ++ [last, ⟨(newLineCtx ctx).indent, [], []⟩]
    rw [hc]
    simp [newLineCtx]

theorem aligned_print_false (ctx : EmitterVisitorContext) (p : String)
    (h : Aligned ctx) : Aligned (ctx.print none p false) ∧
      (ctx.print none p false).indent = ctx.indent := by
  by_cases hp : p = ""
  · subst hp
    have he : ctx.print none "" false = ctx := rfl
    rw [he]
    exact ⟨h, rfl⟩
  · rw [print_false_eq ctx p hp]
    exact ⟨aligned_appendFrags ctx [p] h, rfl⟩

theorem sealed_print_true (ctx : EmitterVisitorContext) (p : String) (h : Aligned ctx) :
    SealedAligned (ctx.print none p true) ∧
      (ctx.print none p true).indent = ctx.indent := by
  by_cases hp : p = ""
  · subst hp
    rw [print_empty_true_eq ctx]
    exact ⟨sealed_newLineCtx ctx h, rfl⟩
  · rw [print_true_eq ctx p hp]
    exact ⟨sealed_newLineCtx _ (aligned_appendFrags ctx [p] h), rfl⟩

theorem aligned_incIndent (ctx : EmitterVisitorContext) (h : ctx.lines ≠ []) :
    Aligned ctx.incIndent ∧ ctx.incIndent.indent = ctx.indent + 1 := by
  rw [incIndent_eq]
  refine ⟨⟨?_, ?_⟩, rfl⟩
  · intro hc
    have h2 := congrArg List.length hc
    rw [length_modifyLast] at h2
    exact h (List.eq_nil_of_length_eq_zero (by simpa using h2))
  · intro l hl
    simp only [getLast?_modifyLast] at hl
    cases hg : ctx.lines.getLast? with
    | none => rw [hg] at hl; simp at hl
    | some l0 =>
      rw [hg] at hl
      simp at hl
      rw [← hl]

theorem aligned_decIndent (ctx : EmitterVisitorContext) (h : ctx.lines ≠ []) :
    Aligned ctx.decIndent ∧ ctx.decIndent.indent = ctx.indent - 1 := by
  rw [decIndent_eq]
  refine ⟨⟨?_, ?_⟩, rfl⟩
  · intro hc
    have h2 := congrArg List.length hc
    rw [length_modifyLast] at h2
    exact h (List.eq_nil_of_length_eq_zero (by simpa using h2))
  · intro l hl
    simp only [getLast?_modifyLast] at hl
    cases hg : ctx.lines.getLast? with
    | none => rw [hg] at hl; simp at hl
    | some l0 =>
      rw [hg] at hl
      simp at hl
      rw [← hl]

theorem removeEmpty_of_sealed (ctx : EmitterVisitorContext) (h : SealedAligned ctx) :
    Aligned ctx.removeEmptyLastLine ∧
      ctx.removeEmptyLastLine.indent = ctx.indent := by
  obtain ⟨L, l0, hl, hi⟩ := h
  have hemp : ctx.lineIsEmpty = true := by
    simp [EmitterVisitorContext.lineIsEmpty, hl, List.getLast?_append]
  simp only [EmitterVisitorContext.removeEmptyLastLine, hemp, if_true]
  refine ⟨⟨?_, ?_⟩, by trivial⟩
  · rw [hl, show L ++ [l0, (⟨ctx.indent, [], []⟩ : EmittedLine)] =
      (L ++ [l0]) ++ [⟨ctx.indent, [], []⟩] by simp, List.dropLast_concat]
    simp
  · intro l hl2
    rw [hl, show L ++ [l0, (⟨ctx.indent, [], []⟩ : EmittedLine)] =
      (L ++ [l0]) ++ [⟨ctx.indent, [], []⟩] by simp, List.dropLast_concat] at hl2
    simp [List.getLast?_append] at hl2
    rw [← hl2]
    exact hi

theorem lineIsEmpty_print_false (ctx : EmitterVisitorContext) (p : String)
    (hne : ctx.lines ≠ []) (hp : p ≠ "") :
    (ctx.print none p false).lineIsEmpty = false := by
  rw [print_false_eq ctx p hp]
  rcases List.eq_nil_or_concat ctx.lines with hc | ⟨L0, last, hc⟩
  · exact absurd hc hne
  · rw [List.concat_eq_append] at hc
    simp only [EmitterVisitorContext.lineIsEmpty, appendFrags]
    rw [hc, modifyLast_concat, List.getLast?_append]
    simp

theorem removeEmpty_id (ctx : EmitterVisitorContext) (h : ctx.lineIsEmpty = false) :
    ctx.removeEmptyLastLine = ctx := by
  simp [EmitterVisitorContext.removeEmptyLastLine, h]

theorem bind_eq_ok_emit {α β : Type} (a : Except String α) (f : α → Except String β)
    (t : β) (h : (a >>= f) = Except.ok t) :
    ∃ u, a = Except.ok u ∧ f u = Except.ok t := by
  cases a with
  | ok v => exact ⟨v, rfl, h⟩
  | error e =>
    rw [show ((Except.error e : Except String α) >>= f) =
      (Except.error e : Except String β) from rfl] at h
    exact absurd h (by simp)

theorem aligned_print_any (ctx : EmitterVisitorContext) (p : String) (nl : Bool)
    (h : Aligned ctx) : Aligned (ctx.print none p nl) ∧
      (ctx.print none p nl).indent = ctx.indent := by
  cases nl with
  | false => exact aligned_print_false ctx p h
  | true =>
    obtain ⟨hs, hi⟩ := sealed_print_true ctx p h
    exact ⟨sealedAligned_aligned _ hs, hi⟩

theorem comment_foldl (ls : List String) : ∀ s : EmitSt,
    ∃ o, (ls.foldl (fun s line => printlnT s ("// " ++ line)) s).2 = s.2 ++ o ∧
      netIndent o = 0 ∧ minNet o = 0 ∧
      (Aligned s.1 →
        (ls.foldl (fun s line => printlnT s ("// " ++ line)) s).1.indent = s.1.indent ∧
        ((ls.foldl (fun s line => printlnT s ("// " ++ line)) s) = s ∨
          SealedAligned (ls.foldl (fun s line => printlnT s ("// " ++ line)) s).1)) := by
  induction ls with
  | nil => exact fun s => ⟨[], by simp, rfl, rfl, fun h => ⟨rfl, Or.inl rfl⟩⟩
  | cons line rest ih =>
    intro s
    obtain ⟨o1, hlog, hn, hm, hal⟩ := ih (printlnT s ("// " ++ line))
    refine ⟨COp.print ("// " ++ line) true :: o1, ?_, ?_, ?_, ?_⟩
    · simp only [List.foldl_cons]
      rw [hlog]
      simp [printlnT, printT]
    · simp [netIndent, opDelta, hn]
    · simp [minNet, netIndent, opDelta]
      omega
    · intro halS
      obtain ⟨hseal, hind⟩ := sealed_print_true s.1 ("// " ++ line) halS
      have halp : Aligned (printlnT s ("// " ++ line)).1 :=
        sealedAligned_aligned _ hseal
      obtain ⟨hind2, hdisj⟩ := hal halp
      constructor
      · simp only [List.foldl_cons]
        rw [hind2]
        exact hind
      · simp only [List.foldl_cons]
        rcases hdisj with heq | hsl
        · rw [heq]
          exact Or.inr hseal
        · exact Or.inr hsl

theorem ite_pure_ok (c : Bool) (a b t : EmitSt)
    (h : (if c = true then (pure a : EmitRes) else pure b) = Except.ok t) :
    (c = true ∧ t = a) ∨ (c = false ∧ t = b) := by
  cases c
  · right
    refine ⟨rfl, ?_⟩
    rw [if_neg (by simp)] at h
    rw [pure_eq_ok] at h
    injection h with h2
    exact h2.symm
  · left
    refine ⟨rfl, ?_⟩
    rw [if_pos rfl] at h
    rw [pure_eq_ok] at h
    injection h with h2
    exact h2.symm

def ExprBal (M : EmitterCfg) (e : Expr) : Prop :=
  ∀ s t, emitExpr M e s = Except.ok t → ∃ o, t.2 = s.2 ++ o ∧
    netIndent o = 0 ∧ minNet o = 0 ∧
    (Aligned s.1 → Aligned t.1 ∧ t.1.indent = s.1.indent)

def ExprsBal (M : EmitterCfg) (es : List Expr) : Prop :=
  ∀ sep nl s t, emitExprs M es sep nl s = Except.ok t → ∃ o, t.2 = s.2 ++ o ∧
    netIndent o = 0 ∧ minNet o = 0 ∧
    (Aligned s.1 → Aligned t.1 ∧ t.1.indent = s.1.indent)

def ExprsRestBal (M : EmitterCfg) (es : List Expr) : Prop :=
  ∀ sep nl s t, emitExprsRest M es sep nl s = Except.ok t → ∃ o, t.2 = s.2 ++ o ∧
    netIndent o = 0 ∧ minNet o = 0 ∧
    (Aligned s.1 → Aligned t.1 ∧ t.1.indent = s.1.indent)

def EntryBal (M : EmitterCfg) (en : String × Bool × Expr) : Prop :=
  ∀ s t, emitMapEntry M en s = Except.ok t → ∃ o, t.2 = s.2 ++ o ∧
    netIndent o = 0 ∧ minNet o = 0 ∧
    (Aligned s.1 → Aligned t.1 ∧ t.1.indent = s.1.indent)

def EntriesBal (M : EmitterCfg) (ens : List (String × Bool × Expr)) : Prop :=
  ∀ sep nl s t, emitMapEntries M ens sep nl s = Except.ok t → ∃ o, t.2 = s.2 ++ o ∧
    netIndent o = 0 ∧ minNet o = 0 ∧
    (Aligned s.1 → Aligned t.1 ∧ t.1.indent = s.1.indent)

def EntriesRestBal (M : EmitterCfg) (ens : List (String × Bool × Expr)) : Prop :=
  ∀ sep nl s t, emitMapEntriesRest M ens sep nl s = Except.ok t → ∃ o, t.2 = s.2 ++ o ∧
    netIndent o = 0 ∧ minNet o = 0 ∧
    (Aligned s.1 → Aligned t.1 ∧ t.1.indent = s.1.indent)

def StmtBal (M : EmitterCfg) (st : Stmt) : Prop :=
  ∀ s t, emitStmt M st s = Except.ok t → ∃ o, t.2 = s.2 ++ o ∧
    netIndent o = 0 ∧ minNet o = 0 ∧
    (Aligned s.1 → t.1.indent = s.1.indent ∧ (t.1 = s.1 ∨ SealedAligned t.1))

def StmtsBal (M : EmitterCfg) (sts : List Stmt) : Prop :=
  ∀ s t, emitStmts M sts s = Except.ok t → ∃ o, t.2 = s.2 ++ o ∧
    netIndent o = 0 ∧ minNet o = 0 ∧
    (Aligned s.1 → t.1.indent = s.1.indent ∧ (t.1 = s.1 ∨ SealedAligned t.1))

theorem if_false_true_eq {α : Sort _} (a b : α) : (if false = true then a else b) = b := rfl

theorem if_true_true_eq {α : Sort _} (a b : α) : (if true = true then a else b) = a := rfl

theorem emit_balance (M : EmitterCfg) : ∀ N : Nat,
    (∀ e : Expr, sizeOf e < N → ExprBal M e) ∧
    (∀ es : List Expr, sizeOf es < N → ExprsBal M es) ∧
    (∀ es : List Expr, sizeOf es < N → ExprsRestBal M es) ∧
    (∀ en : String × Bool × Expr, sizeOf en < N → EntryBal M en) ∧
    (∀ ens : List (String × Bool × Expr), sizeOf ens < N → EntriesBal M ens) ∧
    (∀ ens : List (String × Bool × Expr), sizeOf ens < N → EntriesRestBal M ens) ∧
    (∀ st : Stmt, sizeOf st < N → StmtBal M st) ∧
    (∀ sts : List Stmt, sizeOf sts < N → StmtsBal M sts) := by
  intro N
  induction N with
  | zero =>
    exact ⟨fun _ hs => absurd hs (Nat.not_lt_zero _),
      fun _ hs => absurd hs (Nat.not_lt_zero _),
      fun _ hs => absurd hs (Nat.not_lt_zero _),
      fun _ hs => absurd hs (Nat.not_lt_zero _),
      fun _ hs => absurd hs (Nat.not_lt_zero _),
      fun _ hs => absurd hs (Nat.not_lt_zero _),
      fun _ hs => absurd hs (Nat.not_lt_zero _),
      fun _ hs => absurd hs (Nat.not_lt_zero _)⟩
  | succ N ih =>
    obtain ⟨ihE, ihEs, ihEsR, ihEn, ihEns, ihEnsR, ihSt, ihSts⟩ := ih
    refine ⟨?_, ?_, ?_, ?_, ?_, ?_, ?_, ?_⟩
    · intro e hs
      cases e with
      | readVar name builtin =>
        intro s t h
        cases builtin with
        | none =>
          simp only [emitExpr] at h
          rw [pure_eq_ok] at h
          injection h with h3
          subst h3
          exact ⟨[COp.print name false], rfl, by simp [netIndent, opDelta],
            by simp [minNet, netIndent, opDelta], fun hal =>
            ⟨(aligned_print_false s.1 name hal).1, (aligned_print_false s.1 name hal).2⟩⟩
        | some b =>
          simp only [emitExpr] at h
          split at h
          · rw [pure_eq_ok] at h
            injection h with h3
            subst h3
            exact ⟨[COp.print "super" false], rfl, by simp [netIndent, opDelta],
              by simp [minNet, netIndent, opDelta], fun hal =>
              ⟨(aligned_print_false s.1 "super" hal).1, (aligned_print_false s.1 "super" hal).2⟩⟩
          · split at h
            · rw [pure_eq_ok] at h
              injection h with h3
              subst h3
              exact ⟨[COp.print "this" false], rfl, by simp [netIndent, opDelta],
                by simp [minNet, netIndent, opDelta], fun hal =>
                ⟨(aligned_print_false s.1 "this" hal).1, (aligned_print_false s.1 "this" hal).2⟩⟩
            · split at h
              · rw [pure_eq_ok] at h
                injection h with h3
                subst h3
                exact ⟨[COp.print CATCH_ERROR_VAR false], rfl, by simp [netIndent, opDelta],
                  by simp [minNet, netIndent, opDelta], fun hal =>
                  ⟨(aligned_print_false s.1 CATCH_ERROR_VAR hal).1,
                   (aligned_print_false s.1 CATCH_ERROR_VAR hal).2⟩⟩
              · split at h
                · rw [pure_eq_ok] at h
                  injection h with h3
                  subst h3
                  exact ⟨[COp.print CATCH_STACK_VAR false], rfl, by simp [netIndent, opDelta],
                    by simp [minNet, netIndent, opDelta], fun hal =>
                    ⟨(aligned_print_false s.1 CATCH_STACK_VAR hal).1,
                     (aligned_print_false s.1 CATCH_STACK_VAR hal).2⟩⟩
                · rw [throw_eq_error] at h
                  exact absurd h (by simp)
      | writeVar name value =>
        intro s t h
        simp only [emitExpr] at h
        obtain ⟨u, hu, h2⟩ := bind_eq_ok_emit _ _ _ h
        rw [pure_eq_ok] at h2
        injection h2 with h3
        subst h3
        obtain ⟨o1, hlog1, hn1, hm1, ha1⟩ := ihE value (by simp at hs; omega) _ _ hu
        refine ⟨(if s.1.lineIsEmpty then ([] : List COp) else [COp.print "(" false]) ++
          ([COp.print (name ++ " = ") false] ++ (o1 ++
          (if s.1.lineIsEmpty then ([] : List COp) else [COp.print ")" false]))), ?_, ?_, ?_, ?_⟩
        · cases hc : s.1.lineIsEmpty <;>
            simp [hc, hlog1, printT, List.append_assoc]
        · cases hc : s.1.lineIsEmpty <;>
            simp [netIndent_append, netIndent, opDelta, hn1]
        · cases hc : s.1.lineIsEmpty <;>
            simp [minNet_append, netIndent_append, minNet, netIndent, opDelta, hn1, hm1]
        · intro hal
          cases hc : s.1.lineIsEmpty
          · simp only [hc, if_false_true_eq, if_true_true_eq, if_true, if_false, printT]
            have hA0 := aligned_print_false s.1 "(" hal
            have hA1 := aligned_print_false _ (name ++ " = ") hA0.1
            have hA2 := ha1 (by simp only [hc, if_false_true_eq, if_true_true_eq, if_true, if_false, printT]; exact hA1.1)
            have hA3 := aligned_print_false u.1 ")" hA2.1
            refine ⟨hA3.1, ?_⟩
            rw [hA3.2, hA2.2]
            simp only [hc, if_false_true_eq, if_true_true_eq, if_true, if_false, printT]
            rw [hA1.2, hA0.2]
          · simp only [hc, if_false_true_eq, if_true_true_eq, if_true, if_false, printT]
            have hA1 := aligned_print_false s.1 (name ++ " = ") hal
            have hA2 := ha1 (by simp only [hc, if_false_true_eq, if_true_true_eq, if_true, if_false, printT]; exact hA1.1)
            refine ⟨hA2.1, ?_⟩
            rw [hA2.2]
            simp only [hc, if_false_true_eq, if_true_true_eq, if_true, if_false, printT]
            rw [hA1.2]
      | writeKey receiver index value =>
        intro s t h
        simp only [emitExpr] at h
        obtain ⟨u1, h1, h⟩ := bind_eq_ok_emit _ _ _ h
        obtain ⟨u2, h2, h⟩ := bind_eq_ok_emit _ _ _ h
        obtain ⟨u3, h3, h⟩ := bind_eq_ok_emit _ _ _ h
        rw [pure_eq_ok] at h
        injection h with h4
        subst h4
        obtain ⟨o1, hlog1, hn1, hm1, ha1⟩ := ihE receiver (by simp at hs; omega) _ _ h1
        obtain ⟨o2, hlog2, hn2, hm2, ha2⟩ := ihE index (by simp at hs; omega) _ _ h2
        obtain ⟨o3, hlog3, hn3, hm3, ha3⟩ := ihE value (by simp at hs; omega) _ _ h3
        refine ⟨(if s.1.lineIsEmpty then ([] : List COp) else [COp.print "(" false]) ++
          (o1 ++ ([COp.print "[" false] ++ (o2 ++ ([COp.print "] = " false] ++ (o3 ++
          (if s.1.lineIsEmpty then ([] : List COp) else [COp.print ")" false])))))), ?_, ?_, ?_, ?_⟩
        · cases hc : s.1.lineIsEmpty <;>
            simp [hc, hlog1, hlog2, hlog3, printT, List.append_assoc]
        · cases hc : s.1.lineIsEmpty <;>
            simp [netIndent_append, netIndent, opDelta, hn1, hn2, hn3]
        · cases hc : s.1.lineIsEmpty <;>
            (simp [minNet_append, netIndent_append, minNet, netIndent, opDelta,
              hn1, hn2, hn3, hm1, hm2, hm3] <;> omega)
        · intro hal
          cases hc : s.1.lineIsEmpty
          · have hA0 := aligned_print_false s.1 "(" hal
            have hA1 := ha1 (by simp only [hc, if_false_true_eq, if_true_true_eq, if_true, if_false, printT]; exact hA0.1)
            have hA2 := aligned_print_false u1.1 "[" hA1.1
            have hA3 := ha2 (by simp only [printT]; exact hA2.1)
            have hA4 := aligned_print_false u2.1 "] = " hA3.1
            have hA5 := ha3 (by simp only [printT]; exact hA4.1)
            have hA6 := aligned_print_false u3.1 ")" hA5.1
            simp only [hc, if_false_true_eq, if_true_true_eq, if_true, if_false, printT]
            refine ⟨hA6.1, ?_⟩
            rw [hA6.2, hA5.2]
            simp only [printT]
            rw [hA4.2, hA3.2]
            simp only [printT]
            rw [hA2.2, hA1.2]
            simp only [hc, if_false_true_eq, if_true_true_eq, if_true, if_false, printT]
            rw [hA0.2]
          · have hA1 := ha1 (by simp only [hc, if_false_true_eq, if_true_true_eq, if_true, if_false]; exact hal)
            have hA2 := aligned_print_false u1.1 "[" hA1.1
            have hA3 := ha2 (by simp only [printT]; exact hA2.1)
            have hA4 := aligned_print_false u2.1 "] = " hA3.1
            have hA5 := ha3 (by simp only [printT]; exact hA4.1)
            simp only [hc, if_false_true_eq, if_true_true_eq, if_true, if_false, printT]
            refine ⟨hA5.1, ?_⟩
            rw [hA5.2]
            simp only [printT]
            rw [hA4.2, hA3.2]
            simp only [printT]
            rw [hA2.2, hA1.2]
            simp only [hc, if_false_true_eq, if_true_true_eq, if_true, if_false]
      | writeProp receiver name value =>
        intro s t h
        simp only [emitExpr] at h
        obtain ⟨u1, h1, h⟩ := bind_eq_ok_emit _ _ _ h
        obtain ⟨u2, h2, h⟩ := bind_eq_ok_emit _ _ _ h
        rw [pure_eq_ok] at h
        injection h with h4
        subst h4
        obtain ⟨o1, hlog1, hn1, hm1, ha1⟩ := ihE receiver (by simp at hs; omega) _ _ h1
        obtain ⟨o2, hlog2, hn2, hm2, ha2⟩ := ihE value (by simp at hs; omega) _ _ h2
        refine ⟨(if s.1.lineIsEmpty then ([] : List COp) else [COp.print "(" false]) ++
          (o1 ++ ([COp.print ("." ++ name ++ " = ") false] ++ (o2 ++
          (if s.1.lineIsEmpty then ([] : List COp) else [COp.print ")" false])))), ?_, ?_, ?_, ?_⟩
        · cases hc : s.1.lineIsEmpty <;>
            simp [hc, hlog1, hlog2, printT, List.append_assoc]
        · cases hc : s.1.lineIsEmpty <;>
            simp [netIndent_append, netIndent, opDelta, hn1, hn2]
        · cases hc : s.1.lineIsEmpty <;>
            (simp [minNet_append, netIndent_append, minNet, netIndent, opDelta,
              hn1, hn2, hm1, hm2] <;> omega)
        · intro hal
          cases hc : s.1.lineIsEmpty
          · have hA0 := aligned_print_false s.1 "(" hal
            have hA1 := ha1 (by simp only [hc, if_false_true_eq, if_true_true_eq, if_true, if_false, printT]; exact hA0.1)
            have hA2 := aligned_print_false u1.1 ("." ++ name ++ " = ") hA1.1
            have hA3 := ha2 (by simp only [printT]; exact hA2.1)
            have hA4 := aligned_print_false u2.1 ")" hA3.1
            simp only [hc, if_false_true_eq, if_true_true_eq, if_true, if_false, printT]
            refine ⟨hA4.1, ?_⟩
            rw [hA4.2, hA3.2]
            simp only [printT]
            rw [hA2.2, hA1.2]
            simp only [hc, if_false_true_eq, if_true_true_eq, if_true, if_false, printT]
            rw [hA0.2]
          · have hA1 := ha1 (by simp only [hc, if_false_true_eq, if_true_true_eq, if_true, if_false]; exact hal)
            have hA2 := aligned_print_false u1.1 ("." ++ name ++ " = ") hA1.1
            have hA3 := ha2 (by simp only [printT]; exact hA2.1)
            simp only [hc, if_false_true_eq, if_true_true_eq, if_true, if_false, printT]
            refine ⟨hA3.1, ?_⟩
            rw [hA3.2]
            simp only [printT]
            rw [hA2.2, hA1.2]
            simp only [hc, if_false_true_eq, if_true_true_eq, if_true, if_false]
      | invokeMethod receiver name builtin args =>
        intro s t h
        simp only [emitExpr] at h
        obtain ⟨u1, h1, h⟩ := bind_eq_ok_emit _ _ _ h
        obtain ⟨o1, hlog1, hn1, hm1, ha1⟩ := ihE receiver (by simp at hs; omega) _ _ h1
        cases builtin with
        | none =>
          simp only [] at h
          obtain ⟨u2, h2, h⟩ := bind_eq_ok_emit _ _ _ h
          rw [pure_eq_ok] at h
          injection h with h4
          subst h4
          obtain ⟨o2, hlog2, hn2, hm2, ha2⟩ := ihEs args (by simp at hs; omega) _ _ _ _ h2
          refine ⟨o1 ++ ([COp.print ("." ++ name ++ "(") false] ++ (o2 ++
            [COp.print ")" false])), ?_, ?_, ?_, ?_⟩
          · simp [hlog1, hlog2, printT, List.append_assoc]
          · simp [netIndent_append, netIndent, opDelta, hn1, hn2]
          · simp [minNet_append, netIndent_append, minNet, netIndent, opDelta,
              hn1, hn2, hm1, hm2]
          · intro hal
            have hA1 := ha1 hal
            have hA2 := aligned_print_false u1.1 ("." ++ name ++ "(") hA1.1
            have hA3 := ha2 (by simp only [printT]; exact hA2.1)
            have hA4 := aligned_print_false u2.1 ")" hA3.1
            simp only [printT]
            refine ⟨hA4.1, ?_⟩
            rw [hA4.2, hA3.2]
            simp only [printT]
            rw [hA2.2, hA1.2]
        | some b =>
          cases hres : M.getBuiltinMethodName b with
          | none =>
            simp only [hres] at h
            rw [pure_eq_ok] at h
            injection h with h4
            subst h4
            exact ⟨o1, hlog1, hn1, hm1, fun hal => ha1 hal⟩
          | some n =>
            simp only [hres] at h
            obtain ⟨u2, h2, h⟩ := bind_eq_ok_emit _ _ _ h
            rw [pure_eq_ok] at h
            injection h with h4
            subst h4
            obtain ⟨o2, hlog2, hn2, hm2, ha2⟩ := ihEs args (by simp at hs; omega) _ _ _ _ h2
            refine ⟨o1 ++ ([COp.print ("." ++ n ++ "(") false] ++ (o2 ++
              [COp.print ")" false])), ?_, ?_, ?_, ?_⟩
            · simp [hlog1, hlog2, printT, List.append_assoc]
            · simp [netIndent_append, netIndent, opDelta, hn1, hn2]
            · simp [minNet_append, netIndent_append, minNet, netIndent, opDelta,
                hn1, hn2, hm1, hm2]
            · intro hal
              have hA1 := ha1 hal
              have hA2 := aligned_print_false u1.1 ("." ++ n ++ "(") hA1.1
              have hA3 := ha2 (by simp only [printT]; exact hA2.1)
              have hA4 := aligned_print_false u2.1 ")" hA3.1
              simp only [printT]
              refine ⟨hA4.1, ?_⟩
              rw [hA4.2, hA3.2]
              simp only [printT]
              rw [hA2.2, hA1.2]
      | invokeFunction fn args =>
        intro s t h
        simp only [emitExpr] at h
        obtain ⟨u1, h1, h⟩ := bind_eq_ok_emit _ _ _ h
        obtain ⟨u2, h2, h⟩ := bind_eq_ok_emit _ _ _ h
        rw [pure_eq_ok] at h
        injection h with h4
        subst h4
        obtain ⟨o1, hlog1, hn1, hm1, ha1⟩ := ihE fn (by simp at hs; omega) _ _ h1
        obtain ⟨o2, hlog2, hn2, hm2, ha2⟩ := ihEs args (by simp at hs; omega) _ _ _ _ h2
        refine ⟨o1 ++ ([COp.print "(" false] ++ (o2 ++ [COp.print ")" false])),
          ?_, ?_, ?_, ?_⟩
        · simp [hlog1, hlog2, printT, List.append_assoc]
        · simp [netIndent_append, netIndent, opDelta, hn1, hn2]
        · simp [minNet_append, netIndent_append, minNet, netIndent, opDelta,
            hn1, hn2, hm1, hm2]
        · intro hal
          have hA1 := ha1 hal
          have hA2 := aligned_print_false u1.1 "(" hA1.1
          have hA3 := ha2 (by simp only [printT]; exact hA2.1)
          have hA4 := aligned_print_false u2.1 ")" hA3.1
          simp only [printT]
          refine ⟨hA4.1, ?_⟩
          rw [hA4.2, hA3.2]
          simp only [printT]
          rw [hA2.2, hA1.2]
      | instantiate classExpr args =>
        intro s t h
        simp only [emitExpr] at h
        obtain ⟨u1, h1, h⟩ := bind_eq_ok_emit _ _ _ h
        obtain ⟨u2, h2, h⟩ := bind_eq_ok_emit _ _ _ h
        rw [pure_eq_ok] at h
        injection h with h4
        subst h4
        obtain ⟨o1, hlog1, hn1, hm1, ha1⟩ := ihE classExpr (by simp at hs; omega) _ _ h1
        obtain ⟨o2, hlog2, hn2, hm2, ha2⟩ := ihEs args (by simp at hs; omega) _ _ _ _ h2
        refine ⟨[COp.print "new " false] ++ (o1 ++ ([COp.print "(" false] ++ (o2 ++
          [COp.print ")" false]))), ?_, ?_, ?_, ?_⟩
        · simp [hlog1, hlog2, printT, List.append_assoc]
        · simp [netIndent_append, netIndent, opDelta, hn1, hn2]
        · simp [minNet_append, netIndent_append, minNet, netIndent, opDelta,
            hn1, hn2, hm1, hm2]
        · intro hal
          have hA0 := aligned_print_false s.1 "new " hal
          have hA1 := ha1 (by simp only [printT]; exact hA0.1)
          have hA2 := aligned_print_false u1.1 "(" hA1.1
          have hA3 := ha2 (by simp only [printT]; exact hA2.1)
          have hA4 := aligned_print_false u2.1 ")" hA3.1
          simp only [printT]
          refine ⟨hA4.1, ?_⟩
          rw [hA4.2, hA3.2]
          simp only [printT]
          rw [hA2.2, hA1.2]
          simp only [printT]
          rw [hA0.2]
      | literal v =>
        intro s t h
        cases v with
        | str str =>
          simp only [emitExpr] at h
          rw [pure_eq_ok] at h
          injection h with h3
          subst h3
          exact ⟨[COp.print (escapeIdentifier str M.escapeDollarInStrings true) false],
            rfl, by simp [netIndent, opDelta], by simp [minNet, netIndent, opDelta],
            fun hal => ⟨(aligned_print_false s.1 _ hal).1, (aligned_print_false s.1 _ hal).2⟩⟩
        | num n =>
          simp only [emitExpr] at h
          rw [pure_eq_ok] at h
          injection h with h3
          subst h3
          exact ⟨[COp.print (toString n) false], rfl, by simp [netIndent, opDelta],
            by simp [minNet, netIndent, opDelta],
            fun hal => ⟨(aligned_print_false s.1 _ hal).1, (aligned_print_false s.1 _ hal).2⟩⟩
      | literalArray entries =>
        intro s t h
        simp only [emitExpr] at h
        obtain ⟨u1, h1, h⟩ := bind_eq_ok_emit _ _ _ h
        rw [pure_eq_ok] at h
        injection h with h4
        subst h4
        obtain ⟨o1, hlog1, hn1, hm1, ha1⟩ := ihEs entries (by simp at hs; omega) _ _ _ _ h1
        refine ⟨[COp.print "[" (decide (entries.length > 1)), COp.incIndent] ++ (o1 ++
          [COp.decIndent, COp.print "]" (decide (entries.length > 1))]), ?_, ?_, ?_, ?_⟩
        · simp [hlog1, printT, incIndentT, decIndentT, List.append_assoc]
        · simp [netIndent_append, netIndent, opDelta, hn1]
        · simp [minNet_append, netIndent_append, minNet, netIndent, opDelta, hn1, hm1] <;>
            omega
        · intro hal
          have hA0 := aligned_print_any s.1 "[" (decide (entries.length > 1)) hal
          have hA1 := aligned_incIndent _ hA0.1.1
          have hA2 := ha1 (by simp only [printT, incIndentT]; exact hA1.1)
          have hA3 := aligned_decIndent u1.1 hA2.1.1
          have hA4 := aligned_print_any _ "]" (decide (entries.length > 1)) hA3.1
          simp only [printT, decIndentT]
          refine ⟨hA4.1, ?_⟩
          rw [hA4.2, hA3.2, hA2.2]
          simp only [printT, incIndentT]
          rw [hA1.2, hA0.2]
          omega
      | literalMap entries =>
        intro s t h
        simp only [emitExpr] at h
        obtain ⟨u1, h1, h⟩ := bind_eq_ok_emit _ _ _ h
        rw [pure_eq_ok] at h
        injection h with h4
        subst h4
        obtain ⟨o1, hlog1, hn1, hm1, ha1⟩ := ihEns entries (by simp at hs; omega) _ _ _ _ h1
        refine ⟨[COp.print "\x7b" (decide (entries.length > 1)), COp.incIndent] ++ (o1 ++
          [COp.decIndent, COp.print "\x7d" (decide (entries.length > 1))]), ?_, ?_, ?_, ?_⟩
        · simp [hlog1, printT, incIndentT, decIndentT, List.append_assoc]
        · simp [netIndent_append, netIndent, opDelta, hn1]
        · simp [minNet_append, netIndent_append, minNet, netIndent, opDelta, hn1, hm1] <;>
            omega
        · intro hal
          have hA0 := aligned_print_any s.1 "\x7b" (decide (entries.length > 1)) hal
          have hA1 := aligned_incIndent _ hA0.1.1
          have hA2 := ha1 (by simp only [printT, incIndentT]; exact hA1.1)
          have hA3 := aligned_decIndent u1.1 hA2.1.1
          have hA4 := aligned_print_any _ "\x7d" (decide (entries.length > 1)) hA3.1
          simp only [printT, decIndentT]
          refine ⟨hA4.1, ?_⟩
          rw [hA4.2, hA3.2, hA2.2]
          simp only [printT, incIndentT]
          rw [hA1.2, hA0.2]
          omega
      | conditional c tc fc =>
        intro s t h
        simp only [emitExpr] at h
        obtain ⟨u1, h1, h⟩ := bind_eq_ok_emit _ _ _ h
        obtain ⟨u2, h2, h⟩ := bind_eq_ok_emit _ _ _ h
        obtain ⟨u3, h3, h⟩ := bind_eq_ok_emit _ _ _ h
        rw [pure_eq_ok] at h
        injection h with h4
        subst h4
        obtain ⟨o1, hlog1, hn1, hm1, ha1⟩ := ihE c (by simp at hs; omega) _ _ h1
        obtain ⟨o2, hlog2, hn2, hm2, ha2⟩ := ihE tc (by simp at hs; omega) _ _ h2
        obtain ⟨o3, hlog3, hn3, hm3, ha3⟩ := ihE fc (by simp at hs; omega) _ _ h3
        refine ⟨[COp.print "(" false] ++ (o1 ++ ([COp.print "? " false] ++ (o2 ++
          ([COp.print ": " false] ++ (o3 ++ [COp.print ")" false]))))), ?_, ?_, ?_, ?_⟩
        · simp [hlog1, hlog2, hlog3, printT, List.append_assoc]
        · simp [netIndent_append, netIndent, opDelta, hn1, hn2, hn3]
        · simp [minNet_append, netIndent_append, minNet, netIndent, opDelta,
            hn1, hn2, hn3, hm1, hm2, hm3] <;> omega
        · intro hal
          have hA0 := aligned_print_false s.1 "(" hal
          have hA1 := ha1 (by simp only [printT]; exact hA0.1)
          have hA2 := aligned_print_false u1.1 "? " hA1.1
          have hA3 := ha2 (by simp only [printT]; exact hA2.1)
          have hA4 := aligned_print_false u2.1 ": " hA3.1
          have hA5 := ha3 (by simp only [printT]; exact hA4.1)
          have hA6 := aligned_print_false u3.1 ")" hA5.1
          simp only [printT]
          refine ⟨hA6.1, ?_⟩
          rw [hA6.2, hA5.2]
          simp only [printT]
          rw [hA4.2, hA3.2]
          simp only [printT]
          rw [hA2.2, hA1.2]
          simp only [printT]
          rw [hA0.2]
      | notExpr c =>
        intro s t h
        simp only [emitExpr] at h
        obtain ⟨o1, hlog1, hn1, hm1, ha1⟩ := ihE c (by simp at hs; omega) _ _ h
        refine ⟨[COp.print "!" false] ++ o1, ?_, ?_, ?_, ?_⟩
        · simp [hlog1, printT, List.append_assoc]
        · simp [netIndent_append, netIndent, opDelta, hn1]
        · simp [minNet_append, netIndent_append, minNet, netIndent, opDelta, hn1, hm1]
        · intro hal
          have hA0 := aligned_print_false s.1 "!" hal
          have hA1 := ha1 (by simp only [printT]; exact hA0.1)
          refine ⟨hA1.1, ?_⟩
          rw [hA1.2]
          simp only [printT]
          rw [hA0.2]
      | binaryOp op lhs rhs =>
        intro s t h
        simp only [emitExpr] at h
        cases hop : binOpStr op with
        | none =>
          simp only [hop] at h
          rw [throw_eq_error] at h
          exact absurd h (by simp)
        | some opStr =>
          simp only [hop] at h
          obtain ⟨u1, h1, h⟩ := bind_eq_ok_emit _ _ _ h
          obtain ⟨u2, h2, h⟩ := bind_eq_ok_emit _ _ _ h
          rw [pure_eq_ok] at h
          injection h with h4
          subst h4
          obtain ⟨o1, hlog1, hn1, hm1, ha1⟩ := ihE lhs (by simp at hs; omega) _ _ h1
          obtain ⟨o2, hlog2, hn2, hm2, ha2⟩ := ihE rhs (by simp at hs; omega) _ _ h2
          refine ⟨[COp.print "(" false] ++ (o1 ++ ([COp.print (" " ++ opStr ++ " ") false] ++
            (o2 ++ [COp.print ")" false]))), ?_, ?_, ?_, ?_⟩
          · simp [hlog1, hlog2, printT, List.append_assoc]
          · simp [netIndent_append, netIndent, opDelta, hn1, hn2]
          · simp [minNet_append, netIndent_append, minNet, netIndent, opDelta,
              hn1, hn2, hm1, hm2]
          · intro hal
            have hA0 := aligned_print_false s.1 "(" hal
            have hA1 := ha1 (by simp only [printT]; exact hA0.1)
            have hA2 := aligned_print_false u1.1 (" " ++ opStr ++ " ") hA1.1
            have hA3 := ha2 (by simp only [printT]; exact hA2.1)
            have hA4 := aligned_print_false u2.1 ")" hA3.1
            simp only [printT]
            refine ⟨hA4.1, ?_⟩
            rw [hA4.2, hA3.2]
            simp only [printT]
            rw [hA2.2, hA1.2]
            simp only [printT]
            rw [hA0.2]
      | readProp receiver name =>
        intro s t h
        simp only [emitExpr] at h
        obtain ⟨u1, h1, h⟩ := bind_eq_ok_emit _ _ _ h
        rw [pure_eq_ok] at h
        injection h with h4
        subst h4
        obtain ⟨o1, hlog1, hn1, hm1, ha1⟩ := ihE receiver (by simp at hs; omega) _ _ h1
        refine ⟨o1 ++ [COp.print "." false, COp.print name false], ?_, ?_, ?_, ?_⟩
        · simp [hlog1, printT, List.append_assoc]
        · simp [netIndent_append, netIndent, opDelta, hn1]
        · simp [minNet_append, netIndent_append, minNet, netIndent, opDelta, hn1, hm1]
        · intro hal
          have hA1 := ha1 hal
          have hA2 := aligned_print_false u1.1 "." hA1.1
          have hA3 := aligned_print_false _ name hA2.1
          simp only [printT]
          exact ⟨hA3.1, by rw [hA3.2, hA2.2, hA1.2]⟩
      | readKey receiver index =>
        intro s t h
        simp only [emitExpr] at h
        obtain ⟨u1, h1, h⟩ := bind_eq_ok_emit _ _ _ h
        obtain ⟨u2, h2, h⟩ := bind_eq_ok_emit _ _ _ h
        rw [pure_eq_ok] at h
        injection h with h4
        subst h4
        obtain ⟨o1, hlog1, hn1, hm1, ha1⟩ := ihE receiver (by simp at hs; omega) _ _ h1
        obtain ⟨o2, hlog2, hn2, hm2, ha2⟩ := ihE index (by simp at hs; omega) _ _ h2
        refine ⟨o1 ++ ([COp.print "[" false] ++ (o2 ++ [COp.print "]" false])),
          ?_, ?_, ?_, ?_⟩
        · simp [hlog1, hlog2, printT, List.append_assoc]
        · simp [netIndent_append, netIndent, opDelta, hn1, hn2]
        · simp [minNet_append, netIndent_append, minNet, netIndent, opDelta,
            hn1, hn2, hm1, hm2]
        · intro hal
          have hA1 := ha1 hal
          have hA2 := aligned_print_false u1.1 "[" hA1.1
          have hA3 := ha2 (by simp only [printT]; exact hA2.1)
          have hA4 := aligned_print_false u2.1 "]" hA3.1
          simp only [printT]
          refine ⟨hA4.1, ?_⟩
          rw [hA4.2, hA3.2]
          simp only [printT]
          rw [hA2.2, hA1.2]
    · intro es hs
      cases es with
      | nil =>
        intro sep nl s t h
        simp only [emitExprs] at h
        obtain ⟨u, hu, h2⟩ := bind_eq_ok_emit _ _ _ h
        rw [pure_eq_ok] at hu
        injection hu with h3
        subst h3
        rcases ite_pure_ok nl _ _ _ h2 with ⟨hnl, ht⟩ | ⟨hnl, ht⟩
        · subst ht
          refine ⟨[COp.print "" true], rfl, by simp [netIndent, opDelta],
            by simp [minNet, netIndent, opDelta], fun hal => ?_⟩
          have hA := sealed_print_true s.1 "" hal
          exact ⟨sealedAligned_aligned _ hA.1, hA.2⟩
        · subst ht
          exact ⟨[], by simp, rfl, rfl, fun hal => ⟨hal, rfl⟩⟩
      | cons e rest =>
        intro sep nl s t h
        simp only [emitExprs] at h
        obtain ⟨u, hu, h2⟩ := bind_eq_ok_emit _ _ _ h
        obtain ⟨v, hv, hR⟩ := bind_eq_ok_emit _ _ _ hu
        obtain ⟨o1, hlog1, hn1, hm1, ha1⟩ := ihE e (by simp at hs; omega) _ _ hv
        obtain ⟨o2, hlog2, hn2, hm2, ha2⟩ := ihEsR rest (by simp at hs; omega) _ _ _ _ hR
        rcases ite_pure_ok nl _ _ _ h2 with ⟨hnl, ht⟩ | ⟨hnl, ht⟩
        · subst ht
          refine ⟨o1 ++ (o2 ++ [COp.print "" true]), ?_, ?_, ?_, ?_⟩
          · simp [hlog1, hlog2, printlnT, printT, List.append_assoc]
          · simp [netIndent_append, netIndent, opDelta, hn1, hn2]
          · simp [minNet_append, netIndent_append, minNet, netIndent, opDelta,
              hn1, hn2, hm1, hm2] <;> omega
          · intro hal
            have hA1 := ha1 hal
            have hA2 := ha2 hA1.1
            have hA3 := sealed_print_true u.1 "" hA2.1
            simp only [printlnT, printT]
            exact ⟨sealedAligned_aligned _ hA3.1, by rw [hA3.2, hA2.2, hA1.2]⟩
        · subst ht
          refine ⟨o1 ++ o2, ?_, ?_, ?_, ?_⟩
          · simp [hlog1, hlog2, List.append_assoc]
          · simp [netIndent_append, hn1, hn2]
          · simp [minNet_append, netIndent_append, minNet, hn1, hn2, hm1, hm2] <;> omega
          · intro hal
            have hA1 := ha1 hal
            have hA2 := ha2 hA1.1
            exact ⟨hA2.1, by rw [hA2.2, hA1.2]⟩
    · intro es hs
      cases es with
      | nil =>
        intro sep nl s t h
        simp only [emitExprsRest] at h
        rw [pure_eq_ok] at h
        injection h with h3
        subst h3
        exact ⟨[], by simp, rfl, rfl, fun hal => ⟨hal, rfl⟩⟩
      | cons e rest =>
        intro sep nl s t h
        simp only [emitExprsRest] at h
        obtain ⟨u, hu, hR⟩ := bind_eq_ok_emit _ _ _ h
        obtain ⟨o1, hlog1, hn1, hm1, ha1⟩ := ihE e (by simp at hs; omega) _ _ hu
        obtain ⟨o2, hlog2, hn2, hm2, ha2⟩ := ihEsR rest (by simp at hs; omega) _ _ _ _ hR
        refine ⟨[COp.print sep nl] ++ (o1 ++ o2), ?_, ?_, ?_, ?_⟩
        · simp [hlog1, hlog2, printT, List.append_assoc]
        · simp [netIndent_append, netIndent, opDelta, hn1, hn2]
        · simp [minNet_append, netIndent_append, minNet, netIndent, opDelta,
            hn1, hn2, hm1, hm2] <;> omega
        · intro hal
          have hA0 := aligned_print_any s.1 sep nl hal
          have hA1 := ha1 (by simp only [printT]; exact hA0.1)
          have hA2 := ha2 hA1.1
          refine ⟨hA2.1, ?_⟩
          rw [hA2.2, hA1.2]
          simp only [printT]
          rw [hA0.2]
    · intro en hs
      obtain ⟨k, q, v⟩ := en
      intro s t h
      simp only [emitMapEntry] at h
      obtain ⟨o1, hlog1, hn1, hm1, ha1⟩ := ihE v (by simp at hs ⊢; omega) _ _ h
      refine ⟨[COp.print (escapeIdentifier k M.escapeDollarInStrings q ++ ": ") false] ++ o1,
        ?_, ?_, ?_, ?_⟩
      · simp [hlog1, printT, List.append_assoc]
      · simp [netIndent_append, netIndent, opDelta, hn1]
      · simp [minNet_append, netIndent_append, minNet, netIndent, opDelta, hn1, hm1]
      · intro hal
        have hA0 := aligned_print_false s.1
          (escapeIdentifier k M.escapeDollarInStrings q ++ ": ") hal
        have hA1 := ha1 (by simp only [printT]; exact hA0.1)
        refine ⟨hA1.1, ?_⟩
        rw [hA1.2]
        simp only [printT]
        rw [hA0.2]
    · intro ens hs
      cases ens with
      | nil =>
        intro sep nl s t h
        simp only [emitMapEntries] at h
        obtain ⟨u, hu, h2⟩ := bind_eq_ok_emit _ _ _ h
        rw [pure_eq_ok] at hu
        injection hu with h3
        subst h3
        rcases ite_pure_ok nl _ _ _ h2 with ⟨hnl, ht⟩ | ⟨hnl, ht⟩
        · subst ht
          refine ⟨[COp.print "" true], rfl, by simp [netIndent, opDelta],
            by simp [minNet, netIndent, opDelta], fun hal => ?_⟩
          have hA := sealed_print_true s.1 "" hal
          exact ⟨sealedAligned_aligned _ hA.1, hA.2⟩
        · subst ht
          exact ⟨[], by simp, rfl, rfl, fun hal => ⟨hal, rfl⟩⟩
      | cons en rest =>
        intro sep nl s t h
        simp only [emitMapEntries] at h
        obtain ⟨u, hu, h2⟩ := bind_eq_ok_emit _ _ _ h
        obtain ⟨v, hv, hR⟩ := bind_eq_ok_emit _ _ _ hu
        obtain ⟨o1, hlog1, hn1, hm1, ha1⟩ := ihEn en (by simp at hs; omega) _ _ hv
        obtain ⟨o2, hlog2, hn2, hm2, ha2⟩ := ihEnsR rest (by simp at hs; omega) _ _ _ _ hR
        rcases ite_pure_ok nl _ _ _ h2 with ⟨hnl, ht⟩ | ⟨hnl, ht⟩
        · subst ht
          refine ⟨o1 ++ (o2 ++ [COp.print "" true]), ?_, ?_, ?_, ?_⟩
          · simp [hlog1, hlog2, printlnT, printT, List.append_assoc]
          · simp [netIndent_append, netIndent, opDelta, hn1, hn2]
          · simp [minNet_append, netIndent_append, minNet, netIndent, opDelta,
              hn1, hn2, hm1, hm2] <;> omega
          · intro hal
            have hA1 := ha1 hal
            have hA2 := ha2 hA1.1
            have hA3 := sealed_print_true u.1 "" hA2.1
            simp only [printlnT, printT]
            exact ⟨sealedAligned_aligned _ hA3.1, by rw [hA3.2, hA2.2, hA1.2]⟩
        · subst ht
          refine ⟨o1 ++ o2, ?_, ?_, ?_, ?_⟩
          · simp [hlog1, hlog2, List.append_assoc]
          · simp [netIndent_append, hn1, hn2]
          · simp [minNet_append, netIndent_append, minNet, hn1, hn2, hm1, hm2] <;> omega
          · intro hal
            have hA1 := ha1 hal
            have hA2 := ha2 hA1.1
            exact ⟨hA2.1, by rw [hA2.2, hA1.2]⟩
    · intro ens hs
      cases ens with
      | nil =>
        intro sep nl s t h
        simp only [emitMapEntriesRest] at h
        rw [pure_eq_ok] at h
        injection h with h3
        subst h3
        exact ⟨[], by simp, rfl, rfl, fun hal => ⟨hal, rfl⟩⟩
      | cons en rest =>
        intro sep nl s t h
        simp only [emitMapEntriesRest] at h
        obtain ⟨u, hu, hR⟩ := bind_eq_ok_emit _ _ _ h
        obtain ⟨o1, hlog1, hn1, hm1, ha1⟩ := ihEn en (by simp at hs; omega) _ _ hu
        obtain ⟨o2, hlog2, hn2, hm2, ha2⟩ := ihEnsR rest (by simp at hs; omega) _ _ _ _ hR
        refine ⟨[COp.print sep nl] ++ (o1 ++ o2), ?_, ?_, ?_, ?_⟩
        · simp [hlog1, hlog2, printT, List.append_assoc]
        · simp [netIndent_append, netIndent, opDelta, hn1, hn2]
        · simp [minNet_append, netIndent_append, minNet, netIndent, opDelta,
            hn1, hn2, hm1, hm2] <;> omega
        · intro hal
          have hA0 := aligned_print_any s.1 sep nl hal
          have hA1 := ha1 (by simp only [printT]; exact hA0.1)
          have hA2 := ha2 hA1.1
          refine ⟨hA2.1, ?_⟩
          rw [hA2.2, hA1.2]
          simp only [printT]
          rw [hA0.2]
    · intro st hs
      cases st with
      | expressionStmt e =>
        intro s t h
        simp only [emitStmt] at h
        obtain ⟨u, hu, h2⟩ := bind_eq_ok_emit _ _ _ h
        rw [pure_eq_ok] at h2
        injection h2 with h3
        subst h3
        obtain ⟨o1, hlog1, hn1, hm1, ha1⟩ := ihE e (by simp at hs; omega) _ _ hu
        refine ⟨o1 ++ [COp.print ";" true], ?_, ?_, ?_, ?_⟩
        · simp [hlog1, printlnT, printT, List.append_assoc]
        · simp [netIndent_append, netIndent, opDelta, hn1]
        · simp [minNet_append, netIndent_append, minNet, netIndent, opDelta, hn1, hm1]
        · intro hal
          have hA1 := ha1 hal
          have hA2 := sealed_print_true u.1 ";" hA1.1
          simp only [printlnT, printT]
          exact ⟨by rw [hA2.2, hA1.2], Or.inr hA2.1⟩
      | returnStmt v =>
        intro s t h
        simp only [emitStmt] at h
        obtain ⟨u, hu, h2⟩ := bind_eq_ok_emit _ _ _ h
        rw [pure_eq_ok] at h2
        injection h2 with h3
        subst h3
        obtain ⟨o1, hlog1, hn1, hm1, ha1⟩ := ihE v (by simp at hs; omega) _ _ hu
        refine ⟨[COp.print "return " false] ++ (o1 ++ [COp.print ";" true]), ?_, ?_, ?_, ?_⟩
        · simp [hlog1, printlnT, printT, List.append_assoc]
        · simp [netIndent_append, netIndent, opDelta, hn1]
        · simp [minNet_append, netIndent_append, minNet, netIndent, opDelta, hn1, hm1]
        · intro hal
          have hA0 := aligned_print_false s.1 "return " hal
          have hA1 := ha1 (by simp only [printT]; exact hA0.1)
          have hA2 := sealed_print_true u.1 ";" hA1.1
          simp only [printlnT, printT]
          refine ⟨?_, Or.inr hA2.1⟩
          rw [hA2.2, hA1.2]
          simp only [printT]
          rw [hA0.2]
      | throwStmt e =>
        intro s t h
        simp only [emitStmt] at h
        obtain ⟨u, hu, h2⟩ := bind_eq_ok_emit _ _ _ h
        rw [pure_eq_ok] at h2
        injection h2 with h3
        subst h3
        obtain ⟨o1, hlog1, hn1, hm1, ha1⟩ := ihE e (by simp at hs; omega) _ _ hu
        refine ⟨[COp.print "throw " false] ++ (o1 ++ [COp.print ";" true]), ?_, ?_, ?_, ?_⟩
        · simp [hlog1, printlnT, printT, List.append_assoc]
        · simp [netIndent_append, netIndent, opDelta, hn1]
        · simp [minNet_append, netIndent_append, minNet, netIndent, opDelta, hn1, hm1]
        · intro hal
          have hA0 := aligned_print_false s.1 "throw " hal
          have hA1 := ha1 (by simp only [printT]; exact hA0.1)
          have hA2 := sealed_print_true u.1 ";" hA1.1
          simp only [printlnT, printT]
          refine ⟨?_, Or.inr hA2.1⟩
          rw [hA2.2, hA1.2]
          simp only [printT]
          rw [hA0.2]
      | commentStmt c =>
        intro s t h
        simp only [emitStmt] at h
        rw [pure_eq_ok] at h
        injection h with h3
        subst h3
        obtain ⟨o, hlog, hn, hm, hal⟩ := comment_foldl (c.splitOn "\n") s
        refine ⟨o, hlog, hn, hm, fun halS => ⟨(hal halS).1, ?_⟩⟩
        rcases (hal halS).2 with heq | hsl
        · exact Or.inl (by rw [heq])
        · exact Or.inr hsl
      | ifStmt cond tc fc =>
        intro s t h
        simp only [emitStmt] at h
        obtain ⟨u1, h1, h⟩ := bind_eq_ok_emit _ _ _ h
        obtain ⟨u2, h2, h⟩ := bind_eq_ok_emit _ _ _ h
        rw [pure_eq_ok] at h
        injection h with h3
        subst h3
        obtain ⟨o1, hlog1, hn1, hm1, ha1⟩ := ihE cond (by simp at hs; omega) _ _ h1
        split at h2
        · obtain ⟨u3, h3s, h2⟩ := bind_eq_ok_emit _ _ _ h2
          rw [pure_eq_ok] at h2
          injection h2 with h4
          subst h4
          obtain ⟨o2, hlog2, hn2, hm2, ha2⟩ := ihSts tc (by simp at hs; omega) _ _ h3s
          refine ⟨[COp.print "if (" false] ++ (o1 ++ ([COp.print ") \x7b" false,
            COp.print " " false] ++ (o2 ++ [COp.removeEmptyLastLine, COp.print " " false,
            COp.print "\x7d" true]))), ?_, ?_, ?_, ?_⟩
          · simp [hlog1, hlog2, printT, printlnT, removeEmptyLastLineT, List.append_assoc]
          · simp [netIndent_append, netIndent, opDelta, hn1, hn2]
          · simp [minNet_append, netIndent_append, minNet, netIndent, opDelta,
              hn1, hn2, hm1, hm2] <;> omega
          · intro hal
            have hA0 := aligned_print_false s.1 "if (" hal
            have hA1 := ha1 (by simp only [printT]; exact hA0.1)
            have hA2 := aligned_print_false u1.1 ") \x7b" hA1.1
            have hA3 := aligned_print_false (u1.1.print none ") \x7b" false) " " hA2.1
            have hA4 := ha2 (by simp only [printT]; exact hA3.1)
            have hne3 : ((u1.1.print none ") \x7b" false).print none " " false).lineIsEmpty
                = false :=
              lineIsEmpty_print_false _ " " hA2.1.1 (by decide)
            have hRE : Aligned (removeEmptyLastLineT u3).1 ∧
                (removeEmptyLastLineT u3).1.indent = u3.1.indent := by
              rcases hA4.2 with heq | hsl
              · simp only [printT] at heq
                constructor
                · show Aligned u3.1.removeEmptyLastLine
                  rw [heq, removeEmpty_id _ hne3]
                  exact hA3.1
                · show u3.1.removeEmptyLastLine.indent = u3.1.indent
                  rw [heq, removeEmpty_id _ hne3]
              · exact ⟨(removeEmpty_of_sealed _ hsl).1, (removeEmpty_of_sealed _ hsl).2⟩
            have hA5 := aligned_print_false (removeEmptyLastLineT u3).1 " " hRE.1
            have hA6 := sealed_print_true ((removeEmptyLastLineT u3).1.print none " " false)
              "\x7d" hA5.1
            simp only [printlnT, printT]
            refine ⟨?_, Or.inr hA6.1⟩
            rw [hA6.2, hA5.2, hRE.2, hA4.1]
            simp only [printT]
            rw [hA3.2, hA2.2, hA1.2]
            simp only [printT]
            rw [hA0.2]
        · obtain ⟨u3, h3s, h2⟩ := bind_eq_ok_emit _ _ _ h2
          obtain ⟨o2, hlog2, hn2, hm2, ha2⟩ := ihSts tc (by simp at hs; omega) _ _ h3s
          split at h2
          · obtain ⟨u4, h4s, h2⟩ := bind_eq_ok_emit _ _ _ h2
            rw [pure_eq_ok] at h2
            injection h2 with h4
            subst h4
            obtain ⟨o3, hlog3, hn3, hm3, ha3⟩ := ihSts fc (by simp at hs; omega) _ _ h4s
            refine ⟨[COp.print "if (" false] ++ (o1 ++ ([COp.print ") \x7b" false,
              COp.print "" true, COp.incIndent] ++ (o2 ++ ([COp.decIndent,
              COp.print "\x7d else \x7b" true, COp.incIndent] ++ (o3 ++
              [COp.decIndent, COp.print "\x7d" true]))))), ?_, ?_, ?_, ?_⟩
            · simp [hlog1, hlog2, hlog3, printT, printlnT, incIndentT, decIndentT,
                List.append_assoc]
            · simp [netIndent_append, netIndent, opDelta, hn1, hn2, hn3]
            · simp [minNet_append, netIndent_append, minNet, netIndent, opDelta,
                hn1, hn2, hn3, hm1, hm2, hm3] <;> omega
            · intro hal
              have hA0 := aligned_print_false s.1 "if (" hal
              have hA1 := ha1 (by simp only [printT]; exact hA0.1)
              have hA2 := aligned_print_false u1.1 ") \x7b" hA1.1
              have hA3 := sealed_print_true (u1.1.print none ") \x7b" false) "" hA2.1
              have hA3a := sealedAligned_aligned _ hA3.1
              have hA4 := aligned_incIndent _ hA3a.1
              have hA5 := ha2 (by simp only [printT, printlnT, incIndentT]; exact hA4.1)
              have hAL3 : Aligned u3.1 := by
                rcases hA5.2 with heq | hsl
                · rw [heq]
                  simp only [printT, printlnT, incIndentT]
                  exact hA4.1
                · exact sealedAligned_aligned _ hsl
              have hA6 := aligned_decIndent u3.1 hAL3.1
              have hA7 := sealed_print_true u3.1.decIndent "\x7d else \x7b" hA6.1
              have hA7a := sealedAligned_aligned _ hA7.1
              have hA8 := aligned_incIndent _ hA7a.1
              have hA9 := ha3 (by
                simp only [printT, printlnT, incIndentT, decIndentT]
                exact hA8.1)
              have hAL4 : Aligned u4.1 := by
                rcases hA9.2 with heq | hsl
                · rw [heq]
                  simp only [printT, printlnT, incIndentT, decIndentT]
                  exact hA8.1
                · exact sealedAligned_aligned _ hsl
              have hA10 := aligned_decIndent u4.1 hAL4.1
              have hA11 := sealed_print_true u4.1.decIndent "\x7d" hA10.1
              simp only [printlnT, printT, incIndentT, decIndentT]
              refine ⟨?_, Or.inr hA11.1⟩
              rw [hA11.2, hA10.2, hA9.1]
              simp only [printlnT, printT, incIndentT, decIndentT]
              rw [hA8.2, hA7.2, hA6.2, hA5.1]
              simp only [printlnT, printT, incIndentT]
              rw [hA4.2, hA3.2, hA2.2, hA1.2]
              simp only [printT]
              rw [hA0.2]
              omega
          · rw [pure_eq_ok] at h2
            injection h2 with h4
            subst h4
            refine ⟨[COp.print "if (" false] ++ (o1 ++ ([COp.print ") \x7b" false,
              COp.print "" true, COp.incIndent] ++ (o2 ++ [COp.decIndent,
              COp.print "\x7d" true]))), ?_, ?_, ?_, ?_⟩
            · simp [hlog1, hlog2, printT, printlnT, incIndentT, decIndentT,
                List.append_assoc]
            · simp [netIndent_append, netIndent, opDelta, hn1, hn2]
            · simp [minNet_append, netIndent_append, minNet, netIndent, opDelta,
                hn1, hn2, hm1, hm2] <;> omega
            · intro hal
              have hA0 := aligned_print_false s.1 "if (" hal
              have hA1 := ha1 (by simp only [printT]; exact hA0.1)
              have hA2 := aligned_print_false u1.1 ") \x7b" hA1.1
              have hA3 := sealed_print_true (u1.1.print none ") \x7b" false) "" hA2.1
              have hA3a := sealedAligned_aligned _ hA3.1
              have hA4 := aligned_incIndent _ hA3a.1
              have hA5 := ha2 (by simp only [printT, printlnT, incIndentT]; exact hA4.1)
              have hAL3 : Aligned u3.1 := by
                rcases hA5.2 with heq | hsl
                · rw [heq]
                  simp only [printT, printlnT, incIndentT]
                  exact hA4.1
                · exact sealedAligned_aligned _ hsl
              have hA6 := aligned_decIndent u3.1 hAL3.1
              have hA7 := sealed_print_true u3.1.decIndent "\x7d" hA6.1
              simp only [printlnT, printT, incIndentT, decIndentT]
              refine ⟨?_, Or.inr hA7.1⟩
              rw [hA7.2, hA6.2, hA5.1]
              simp only [printlnT, printT, incIndentT]
              rw [hA4.2, hA3.2, hA2.2, hA1.2]
              simp only [printT]
              rw [hA0.2]
              omega
    · intro sts hs
      cases sts with
      | nil =>
        intro s t h
        simp only [emitStmts] at h
        rw [pure_eq_ok] at h
        injection h with h3
        subst h3
        exact ⟨[], by simp, rfl, rfl, fun hal => ⟨rfl, Or.inl rfl⟩⟩
      | cons st rest =>
        intro s t h
        simp only [emitStmts] at h
        obtain ⟨u, hu, hR⟩ := bind_eq_ok_emit _ _ _ h
        obtain ⟨o1, hlog1, hn1, hm1, ha1⟩ := ihSt st (by simp at hs; omega) _ _ hu
        obtain ⟨o2, hlog2, hn2, hm2, ha2⟩ := ihSts rest (by simp at hs; omega) _ _ hR
        refine ⟨o1 ++ o2, ?_, ?_, ?_, ?_⟩
        · simp [hlog1, hlog2, List.append_assoc]
        · simp [netIndent_append, hn1, hn2]
        · simp [minNet_append, netIndent_append, minNet, hn1, hn2, hm1, hm2] <;> omega
        · intro hal
          have hA1 := ha1 hal
          have hALu : Aligned u.1 := by
            rcases hA1.2 with heq | hsl
            · rw [heq]; exact hal
            · exact sealedAligned_aligned _ hsl
          have hA2 := ha2 hALu
          refine ⟨by rw [hA2.1, hA1.1], ?_⟩
          rcases hA2.2 with heq2 | hsl2
          · rcases hA1.2 with heq1 | hsl1
            · exact Or.inl (by rw [heq2, heq1])
            · exact Or.inr (by rw [heq2]; exact hsl1)
          · exact Or.inr hsl2

structure GhostSt where
  net : Int
  cur : Option Int
  sealedNets : List (Option Int)
deriving Repr, DecidableEq

def ghostStep (g : GhostSt) (op : COp) : GhostSt :=
  match op with
  | .print part newLine =>
    let g1 := if part.length > 0 && g.cur.isNone then
        { g with cur := some g.net } else g
    if newLine then
      { g1 with sealedNets := g1.sealedNets ++ [g1.cur], cur := none }
    else g1
  | .incIndent => { g with net := g.net + 1 }
  | .decIndent => { g with net := g.net - 1 }
  | .removeEmptyLastLine => g

def ghostRun (ops : List COp) : GhostSt :=
  ops.foldl ghostStep ⟨0, none, []⟩

def firstFragNets (ops : List COp) : List (Option Int) :=
  (ghostRun ops).sealedNets

def C9prog : Stmt :=
  .expressionStmt (.literalArray [.literalArray [.literal (.num 1), .literal (.num 2)]])

def C9run : EmitRes := emitStmt defaultCfg C9prog rootSt

def C9indents : List Int :=
  match C9run with
  | .ok t => t.1.lines.map (fun l => l.indent)
  | .error _ => []

def C9nets : List (Option Int) :=
  match C9run with
  | .ok t => firstFragNets t.2
  | .error _ => []

def C9ok : Bool :=
  match C9run with
  | .ok _ => true
  | .error _ => false

/-- C9 counterexample: emitting [[1,2]]; from the root context succeeds,
and its first finalized line (the one holding the two opening brackets)
has recorded indent 1 although the net number of incIndent minus
decIndent calls in effect when that line received its first fragment was
0 — the first bracket is printed before any incIndent, and the later
incIndent retroactively rewrites the in-progress line's indent.  The
ghost replay firstFragNets reads the per-line first-fragment nets off
the operation log. -/
theorem C9_counterexample :
    C9ok = true ∧ C9indents[0]? = some 1 ∧ C9nets[0]? = some (some 0) := by decide

/-- C9 (amended): what is actually true of the indent discipline.
incIndent and decIndent move the counter and retroactively rewrite the
current in-progress line's recorded indent to the new counter value, so
a finalized line's indent is the counter at the moment the line was
sealed, not at its first fragment: sealing a line from an aligned
context (one whose in-progress line's indent agrees with the counter)
yields SealedAligned — the sealed line carries the counter value — and
the root context is aligned; every successful statement emission from an
aligned context preserves the counter and leaves the context aligned
(with the sealed lines in place).  For the never-negative half: every
successful statement emission appends an operation log whose total
inc/dec balance is zero and whose every prefix has nonnegative net, so
the counter, which starts at zero at the root and tracks the prefix
net, never becomes negative during an emission. -/
theorem C9_indentDiscipline :
    (∀ ctx : EmitterVisitorContext, ctx.incIndent.indent = ctx.indent + 1 ∧
        ctx.incIndent.lines =
          modifyLast (fun l => { l with indent := ctx.indent + 1 }) ctx.lines) ∧
    (∀ ctx : EmitterVisitorContext, ctx.decIndent.indent = ctx.indent - 1 ∧
        ctx.decIndent.lines =
          modifyLast (fun l => { l with indent := ctx.indent - 1 }) ctx.lines) ∧
    (∀ (ctx : EmitterVisitorContext) (p : String), Aligned ctx →
        SealedAligned (ctx.print none p true)) ∧
    (∀ vs, Aligned (EmitterVisitorContext.createRoot vs)) ∧
    (∀ (M : EmitterCfg) (st : Stmt) (s t : EmitSt), emitStmt M st s = Except.ok t →
        Aligned s.1 → t.1.indent = s.1.indent ∧ (t.1 = s.1 ∨ SealedAligned t.1)) ∧
    (∀ (M : EmitterCfg) (st : Stmt) (s t : EmitSt), emitStmt M st s = Except.ok t →
        ∃ o, t.2 = s.2 ++ o ∧ netIndent o = 0 ∧
          ∀ a b, o = a ++ b → netIndent a ≥ 0) := by
  refine ⟨?_, ?_, ?_, ?_, ?_, ?_⟩
  · intro ctx
    rw [incIndent_eq]
    exact ⟨rfl, rfl⟩
  · intro ctx
    rw [decIndent_eq]
    exact ⟨rfl, rfl⟩
  · intro ctx p h
    exact (sealed_print_true ctx p h).1
  · intro vs
    constructor
    · simp [EmitterVisitorContext.createRoot]
    · intro l hl
      simp [EmitterVisitorContext.createRoot] at hl
      rw [← hl]
      rfl
  · intro M st s t h hal
    obtain ⟨o, hlog, hn, hm, ha⟩ :=
      ((emit_balance M (sizeOf st + 1)).2.2.2.2.2.2.1 st (Nat.lt_succ_self _)) s t h
    exact ha hal
  · intro M st s t h
    obtain ⟨o, hlog, hn, hm, ha⟩ :=
      ((emit_balance M (sizeOf st + 1)).2.2.2.2.2.2.1 st (Nat.lt_succ_self _)) s t h
    exact ⟨o, hlog, hn, fun a b hab => prefix_net_nonneg o hm a b hab⟩

def C9wCtx : EmitterVisitorContext :=
  { exportedVars := [], indent := 0, lines := [⟨0, ["x", ";"], [none, none]⟩, ⟨0, [], []⟩] }

/-- Witness for C9_indentDiscipline: the seal, alignment and balance
parts at a concrete one-statement emission from the root. -/
theorem C9_indentDiscipline_witness :
    SealedAligned ((EmitterVisitorContext.createRoot []).print none "x" true) ∧
    (C9wCtx.indent = rootSt.1.indent ∧
      (C9wCtx = rootSt.1 ∨ SealedAligned C9wCtx)) ∧
    (∃ o, ([COp.print "x" false, COp.print ";" true] : List COp) = rootSt.2 ++ o ∧
      netIndent o = 0 ∧ ∀ a b, o = a ++ b → netIndent a ≥ 0) :=
  ⟨C9_indentDiscipline.2.2.1 (EmitterVisitorContext.createRoot []) "x"
      ⟨by simp [EmitterVisitorContext.createRoot], by
        intro l hl
        simp [EmitterVisitorContext.createRoot] at hl
        rw [← hl]
        rfl⟩,
   C9_indentDiscipline.2.2.2.2.1 defaultCfg (.expressionStmt (.readVar "x" none)) rootSt
      (C9wCtx, [COp.print "x" false, COp.print ";" true]) rfl
      ⟨by simp [rootSt, EmitterVisitorContext.createRoot], by
        intro l hl
        simp [rootSt, EmitterVisitorContext.createRoot] at hl
        rw [← hl]
        rfl⟩,
   C9_indentDiscipline.2.2.2.2.2 defaultCfg (.expressionStmt (.readVar "x" none)) rootSt
      (C9wCtx, [COp.print "x" false, COp.print ";" true]) rfl⟩
